import Mathlib

/-!
# Neighbor list of the badge firmware (`firmware/src/util/util_ble_lists.c`)

A shallow embedding of the neighbor table, the ranked index, the Hello
selector and the random un-Hello operation, followed by theorems about them.

Conventions of the embedding

* The C arrays are lists; `neighbor_list[i]` is `nl.getD i default`.
* `uint8_t` arithmetic is written with `% 256`, `uint32_t` arithmetic with
  `% 4294967296`; `int8_t` values are integers.
* `NEIGHBOR_LIST_SIZE` and `SETTING_NAME_LENGTH` come from `system.h`, which is
  not part of the sources at hand; every function takes them as parameters.
  The index type `nlindex_t` is `uint8_t` and `NEIGHBOR_NONE` is 255, so the
  code is only meaningful for `0 < NEIGHBOR_LIST_SIZE ≤ 255`.
* `util_millis()` and `util_math_rand8()` are inputs (`timenow`, `rand8`).
* `qsort` is the C library's: it is a parameter, constrained by
  `QsortContract` (the result is a permutation of the input, ordered by the
  comparison function); nothing else is assumed about it.
* A function returns `none` where the C code has no defined result (the read of
  the uninitialised `oldest_index`) or where the fuel of a loop runs out (which
  `probe_total` shows never happens).
-/

namespace BleLists

/-! ## Constants -/

def NLFLAGS_EMPTY : Nat := 0x00
def NLFLAGS_VALID : Nat := 0x80
def NLFLAGS_HELLOED : Nat := 0x40
def NLFLAGS_UPDATE_MASK : Nat := 0x3F
def NLFLAGS_DEFAULT : Nat := NLFLAGS_VALID
def NEIGHBOR_REUSE_AGE : Nat := 3 * 60000
def MAX_SCREEN_LINES : Nat := 9
def HELLO_THRESHOLD_IMMEDIATE : Int := -50
def HELLO_THRESHOLD_RECENT : Int := -80
def HELLO_THRESHOLD_CATCHALL : Int := -95
def HELLO_RECENCY_MS : Nat := 15000
def HELLO_CATCHALL_MS : Nat := 60000
def UINT32_MAX : Nat := 4294967295
def INT8_MIN : Int := -128

/-- Modelled from the spec: `NEIGHBOR_NONE` is declared in `system.h`; its value
is the one the source states at the probe's start ("don't use NEIGHBOR_NONE
(255)"), the all-ones `nlindex_t`. -/
def NEIGHBOR_NONE : Nat := 255

/-- Modelled from the spec: the "fixed-length hardware identifier"; the length
`BLE_GAP_ADDR_LEN` is declared by the radio stack's headers, where it is 6. -/
def BLE_GAP_ADDR_LEN : Nat := 6

/-! ## Data model -/

/-- One record of `neighbor_list`. -/
structure ble_lists_neighborlist_t where
  flags : Nat
  ble_address : List Nat
  name : List Nat
  rssi : Int
  last_heard_millis : Nat
  company_id : Nat
deriving DecidableEq, Repr, Inhabited

/-- One row of the display cache `displayed`. -/
structure ble_lists_displayed_info_t where
  itemno : Nat
  name : List Nat
  rssi : Int
deriving DecidableEq, Repr, Inhabited

/-- The file's static variables, the two function-local statics included. -/
structure State where
  neighbor_list : List ble_lists_neighborlist_t
  sorted_index : List Nat
  displayed : List ble_lists_displayed_info_t
  updates_frozen : Bool
  neighbor_list_next_expiration : Nat
  last_hello_time : Nat
deriving DecidableEq, Repr

/-- The arguments of `ble_lists_process_advertisement`. -/
structure Advertisement where
  ble_address : List Nat
  name : List Nat
  appearance : Nat
  company_id : Nat
  flags : Nat
  rssi : Int
deriving DecidableEq, Repr

/-! ## C operators and library functions -/

/-- C `~x` on the 32-bit `int` the operand is promoted to, as a bit pattern. -/
def bnot32 (x : Nat) : Nat := 4294967295 - x % 4294967296

/-- C `!x`. -/
def lnot (x : Nat) : Nat := if x = 0 then 1 else 0

/-- C `a - b` on `uint32_t`. -/
def sub32 (a b : Nat) : Nat := (a + 4294967296 - b % 4294967296) % 4294967296

/-- The bytes `memcpy(dst, src, BLE_GAP_ADDR_LEN)` leaves in `dst`. -/
def memcpy_address (src : List Nat) : List Nat :=
  (List.range BLE_GAP_ADDR_LEN).map (fun i => src.getD i 0)

/-- The string a `char` buffer holds: its bytes before the first NUL. -/
def cstr (buf : List Nat) : List Nat := buf.takeWhile (fun c => c != 0)

/-- The `n` bytes `strncpy(dst, src, n)` leaves in `dst`: the string, cut at
`n` bytes, padded with NULs. -/
def strncpy (src : List Nat) (n : Nat) : List Nat :=
  (cstr src).take n ++ List.replicate (n - ((cstr src).take n).length) 0

/-- The bytes of `dst` after `strcpy(dst, src)`: the string of `src` and its NUL,
the rest of `dst` as it was. The result is `none` when `src` holds no NUL or
the string and its NUL do not fit into `dst`: the C function then reads or
writes past the end of an array, and what it copies is not determined by the
two arrays. -/
def strcpy (dst src : List Nat) : Option (List Nat) :=
  if 0 ∈ src ∧ (cstr src).length < dst.length then
    some (cstr src ++ 0 :: dst.drop ((cstr src).length + 1))
  else none

/-- The value of `strcmp(a, b)`: the difference of the first two bytes that
differ, 0 when both strings end together. The result is `none` when the
comparison reaches the end of an array before it finds a difference or a
NUL. -/
def strcmp : List Nat → List Nat → Option Int
  | x :: xs, y :: ys =>
    if x ≠ y then some ((x : Int) - (y : Int)) else if x = 0 then some 0 else strcmp xs ys
  | _, _ => none

/-- Utility function to compare two GAP addresses for equality. -/
def __ble_address_equal (a b : List Nat) : Bool :=
  (List.range BLE_GAP_ADDR_LEN).all (fun i => a.getD i 0 == b.getD i 0)

/-! ## Initialisation -/

/-- A zero-filled record (static storage, and `memset(neighbor_list, 0, ..)`). -/
def zero_neighbor (SETTING_NAME_LENGTH : Nat) : ble_lists_neighborlist_t :=
  { flags := 0, ble_address := List.replicate BLE_GAP_ADDR_LEN 0,
    name := List.replicate SETTING_NAME_LENGTH 0, rssi := 0,
    last_heard_millis := 0, company_id := 0 }

/-- The state the C runtime sets up before any function runs: zero-filled
arrays, `updates_frozen = false`, both local statics 0. -/
def startup (NEIGHBOR_LIST_SIZE SETTING_NAME_LENGTH : Nat) : State :=
  { neighbor_list := List.replicate NEIGHBOR_LIST_SIZE (zero_neighbor SETTING_NAME_LENGTH),
    sorted_index := List.replicate NEIGHBOR_LIST_SIZE 0,
    displayed := List.replicate MAX_SCREEN_LINES
      { itemno := 0, name := List.replicate SETTING_NAME_LENGTH 0, rssi := 0 },
    updates_frozen := false,
    neighbor_list_next_expiration := 0,
    last_hello_time := 0 }

/-- The loop `for i < MAX_SCREEN_LINES: displayed[i].itemno = NEIGHBOR_NONE`. -/
def invalidate_displayed (displayed : List ble_lists_displayed_info_t) :
    List ble_lists_displayed_info_t :=
  (List.range MAX_SCREEN_LINES).foldl
    (fun d i => d.set i { d.getD i default with itemno := NEIGHBOR_NONE }) displayed

/-- Initialize the neighbor list system. Start with no neighbors. -/
def ble_lists_init (NEIGHBOR_LIST_SIZE SETTING_NAME_LENGTH : Nat) (s : State) : State :=
  { s with
    neighbor_list := List.replicate NEIGHBOR_LIST_SIZE (zero_neighbor SETTING_NAME_LENGTH),
    sorted_index := List.replicate NEIGHBOR_LIST_SIZE NEIGHBOR_NONE,
    displayed := invalidate_displayed s.displayed }

/-! ## `ble_lists_process_advertisement` -/

/-- How the probing loop of `ble_lists_process_advertisement` ends. -/
inductive probe_result where
  /-- An empty entry came before a match. -/
  | place (index : Nat)
  /-- The matching entry. -/
  | matching (index : Nat)
  /-- Back at the starting point: the list is full. -/
  | list_full
deriving DecidableEq, Repr

/-- "increment the index, wrapping around": `if (++index == NEIGHBOR_LIST_SIZE)
index = 0;` on the `uint8_t` index. -/
def next_index (NEIGHBOR_LIST_SIZE index : Nat) : Nat :=
  if (index + 1) % 256 = NEIGHBOR_LIST_SIZE then 0 else (index + 1) % 256

/-- The `while (true)` loop of `ble_lists_process_advertisement`, one iteration
per unit of fuel, up to the point where a slot is chosen or the list is found
full. -/
def probe (NEIGHBOR_LIST_SIZE : Nat) (nl : List ble_lists_neighborlist_t)
    (ble_address : List Nat) (initial_index : Nat) : Nat → Nat → Option probe_result
  | 0, _ => none
  | fuel + 1, index =>
    if (nl.getD index default).flags = NLFLAGS_EMPTY then
      some (.place index)
    else if __ble_address_equal ble_address (nl.getD index default).ble_address then
      some (.matching index)
    else if next_index NEIGHBOR_LIST_SIZE index = initial_index then
      some .list_full
    else
      probe NEIGHBOR_LIST_SIZE nl ble_address initial_index fuel
        (next_index NEIGHBOR_LIST_SIZE index)

/-- The start of the probe: the first address byte, or 0 when that is not an
index. -/
def initial_index (NEIGHBOR_LIST_SIZE : Nat) (ble_address : List Nat) : Nat :=
  if ble_address.getD 0 0 ≥ NEIGHBOR_LIST_SIZE then 0 else ble_address.getD 0 0

/-- The scan for the oldest entry: the smallest `last_heard_millis` below
`UINT32_MAX` and the first index holding it; the index is `none` while
`oldest_index` is still uninitialised. -/
def find_oldest (NEIGHBOR_LIST_SIZE : Nat) (nl : List ble_lists_neighborlist_t) :
    Nat × Option Nat :=
  (List.range NEIGHBOR_LIST_SIZE).foldl
    (fun (acc : Nat × Option Nat) i =>
      if (nl.getD i default).last_heard_millis < acc.1 then
        ((nl.getD i default).last_heard_millis, some i)
      else acc)
    (UINT32_MAX, none)

/-- Taking a slot for a new address, on the record: `memcpy` of the address and
`flags = NLFLAGS_DEFAULT`. -/
def take_fields (r : ble_lists_neighborlist_t) (ble_address : List Nat) :
    ble_lists_neighborlist_t :=
  { r with ble_address := memcpy_address ble_address, flags := NLFLAGS_DEFAULT }

/-- "We found an empty entry before we found a match. Put it here." (and the
same two stores when a slot is re-used). -/
def take_slot (nl : List ble_lists_neighborlist_t) (index : Nat) (ble_address : List Nat) :
    List ble_lists_neighborlist_t :=
  nl.set index (take_fields (nl.getD index default) ble_address)

/-- The five stores at the end of `ble_lists_process_advertisement`, on the
record they go to. -/
def store_fields (SETTING_NAME_LENGTH : Nat) (r : ble_lists_neighborlist_t)
    (adv : Advertisement) (timenow : Nat) : ble_lists_neighborlist_t :=
  { r with
    rssi := adv.rssi,
    name := strncpy adv.name SETTING_NAME_LENGTH,
    last_heard_millis := timenow,
    flags := ((r.flags &&& bnot32 NLFLAGS_UPDATE_MASK)
              ||| (adv.flags &&& NLFLAGS_UPDATE_MASK)) % 256,
    company_id := adv.company_id }

/-- "We've found where to store the badge info. Store it." -/
def store_info (SETTING_NAME_LENGTH : Nat) (nl : List ble_lists_neighborlist_t) (index : Nat)
    (adv : Advertisement) (timenow : Nat) : List ble_lists_neighborlist_t :=
  nl.set index (store_fields SETTING_NAME_LENGTH (nl.getD index default) adv timenow)

/-- "Uh oh, the list is full.": the short-circuit on the recorded expiration
time, the scan for the oldest entry, and its re-use when it is old enough. -/
def list_full_case (NEIGHBOR_LIST_SIZE SETTING_NAME_LENGTH : Nat)
    (s : State) (adv : Advertisement) (timenow : Nat) : Option State :=
  if s.neighbor_list_next_expiration > timenow then some s
  else if ((find_oldest NEIGHBOR_LIST_SIZE s.neighbor_list).1 + NEIGHBOR_REUSE_AGE)
      % 4294967296 > timenow then
    some { s with
      neighbor_list_next_expiration :=
        ((find_oldest NEIGHBOR_LIST_SIZE s.neighbor_list).1 + NEIGHBOR_REUSE_AGE) % 4294967296 }
  else
    match (find_oldest NEIGHBOR_LIST_SIZE s.neighbor_list).2 with
    | none => none
    | some index =>
      some { s with
        neighbor_list := store_info SETTING_NAME_LENGTH
          (take_slot s.neighbor_list index adv.ble_address) index adv timenow }

/-- Update the neighbor list based on a received BLE advertisement. -/
def ble_lists_process_advertisement (NEIGHBOR_LIST_SIZE SETTING_NAME_LENGTH : Nat)
    (s : State) (adv : Advertisement) (timenow : Nat) : Option State :=
  if s.updates_frozen then some s
  else
    match probe NEIGHBOR_LIST_SIZE s.neighbor_list adv.ble_address
        (initial_index NEIGHBOR_LIST_SIZE adv.ble_address) NEIGHBOR_LIST_SIZE
        (initial_index NEIGHBOR_LIST_SIZE adv.ble_address) with
    | none => none
    | some (.place index) =>
      some { s with
        neighbor_list := store_info SETTING_NAME_LENGTH
          (take_slot s.neighbor_list index adv.ble_address) index adv timenow }
    | some (.matching index) =>
      some { s with
        neighbor_list := store_info SETTING_NAME_LENGTH s.neighbor_list index adv timenow }
    | some .list_full => list_full_case NEIGHBOR_LIST_SIZE SETTING_NAME_LENGTH s adv timenow

/-! ## `survey_and_sort_neighbors` -/

/-- Comparison function used for sorting the neighbor list. -/
def compare_neighbor_rssi (nl : List ble_lists_neighborlist_t) (a b : Nat) : Int :=
  if (nl.getD a default).rssi > (nl.getD b default).rssi then -1
  else if (nl.getD a default).rssi < (nl.getD b default).rssi then 1
  else 0

/-- The scan of `survey_and_sort_neighbors`: `sorted_index[count++] = i` for the
slots that pass the filter; returns the index array and `count`. -/
def survey_scan (NEIGHBOR_LIST_SIZE : Nat) (nl : List ble_lists_neighborlist_t)
    (filter_flags : Nat) (sorted_index : List Nat) : List Nat × Nat :=
  (List.range NEIGHBOR_LIST_SIZE).foldl
    (fun (acc : List Nat × Nat) i =>
      if (nl.getD i default).flags ≠ NLFLAGS_EMPTY
          ∧ ((nl.getD i default).flags &&& filter_flags) ≠ 0 then
        (acc.1.set acc.2 (i % 256), (acc.2 + 1) % 256)
      else acc)
    (sorted_index, 0)

/-- Resort the neighbor list: fill `sorted_index` with the filtered slots, sort
its first `count` entries with `qsort`, invalidate the display cache, return
`count`. -/
def survey_and_sort_neighbors (qsort : (Nat → Nat → Int) → List Nat → List Nat)
    (NEIGHBOR_LIST_SIZE : Nat) (s : State) (filter_flags : Nat) : State × Nat :=
  let scanned := survey_scan NEIGHBOR_LIST_SIZE s.neighbor_list filter_flags s.sorted_index
  let sorted_index :=
    if scanned.2 > 0 then
      qsort (compare_neighbor_rssi s.neighbor_list) (scanned.1.take scanned.2)
        ++ scanned.1.drop scanned.2
    else scanned.1
  ({ s with
      sorted_index := sorted_index,
      updates_frozen := false,
      displayed := invalidate_displayed s.displayed },
   scanned.2)

/-- What the C standard promises of `qsort(base, n, size, compar)`: the array
holds the same elements afterwards, and whenever `compar` is a consistent
total order, each element compares less than or equal to every later one. -/
structure QsortContract (qsort : (Nat → Nat → Int) → List Nat → List Nat) : Prop where
  perm : ∀ (compar : Nat → Nat → Int) (l : List Nat), (qsort compar l).Perm l
  ordered : ∀ (compar : Nat → Nat → Int) (l : List Nat),
    (∀ a b, compar a b ≤ 0 ∨ compar b a ≤ 0) →
    (∀ a b c, compar a b ≤ 0 → compar b c ≤ 0 → compar a c ≤ 0) →
    (qsort compar l).Pairwise (fun a b => compar a b ≤ 0)

/-- One `qsort` that meets the contract: insertion sort. -/
def insertion_qsort (compar : Nat → Nat → Int) (l : List Nat) : List Nat :=
  l.insertionSort (fun a b => compar a b ≤ 0)

/-! ## Random un-Hello -/

/-- The first loop of `__random_neighbor`: count the neighbors. -/
def count_neighbors (NEIGHBOR_LIST_SIZE : Nat) (nl : List ble_lists_neighborlist_t) : Nat :=
  (List.range NEIGHBOR_LIST_SIZE).foldl
    (fun count index =>
      if (nl.getD index default).flags ≠ NLFLAGS_EMPTY then (count + 1) % 256 else count)
    0

/-- The second loop of `__random_neighbor` over the remaining indices: the
first index reached with `count == neighbor`. -/
def pick_neighbor (nl : List ble_lists_neighborlist_t) (neighbor : Nat) :
    List Nat → Nat → Option Nat
  | [], _ => none
  | index :: rest, count =>
    if count = neighbor then some index
    else pick_neighbor nl neighbor rest
      (if (nl.getD index default).flags ≠ NLFLAGS_EMPTY then (count + 1) % 256 else count)

/-- Randomly pick a neighbor. -/
def __random_neighbor (NEIGHBOR_LIST_SIZE : Nat) (nl : List ble_lists_neighborlist_t)
    (rand8 : Nat) : Nat :=
  if count_neighbors NEIGHBOR_LIST_SIZE nl > 0 then
    match pick_neighbor nl (rand8 % count_neighbors NEIGHBOR_LIST_SIZE nl)
        (List.range NEIGHBOR_LIST_SIZE) 0 with
    | some index => index
    | none => NEIGHBOR_NONE
  else NEIGHBOR_NONE

/-- The store `flags &= !NLFLAGS_HELLOED`, on the record. -/
def unhello_fields (r : ble_lists_neighborlist_t) : ble_lists_neighborlist_t :=
  { r with flags := (r.flags &&& lnot NLFLAGS_HELLOED) % 256 }

/-- Randomly mark a neighbor as un-Helloed. -/
def ble_lists_randomly_unhello_neighbor (NEIGHBOR_LIST_SIZE : Nat) (s : State) (rand8 : Nat) :
    State :=
  if __random_neighbor NEIGHBOR_LIST_SIZE s.neighbor_list rand8 ≠ NEIGHBOR_NONE then
    { s with
      neighbor_list := s.neighbor_list.set
        (__random_neighbor NEIGHBOR_LIST_SIZE s.neighbor_list rand8)
        (unhello_fields (s.neighbor_list.getD
          (__random_neighbor NEIGHBOR_LIST_SIZE s.neighbor_list rand8) default)) }
  else s

/-! ## `ble_lists_choose_hello_neighbor` -/

/-- The candidate scan of `ble_lists_choose_hello_neighbor`: returns
`(candidate, highest_rssi)`. -/
def hello_scan (NEIGHBOR_LIST_SIZE : Nat) (nl : List ble_lists_neighborlist_t) : Nat × Int :=
  (List.range NEIGHBOR_LIST_SIZE).foldl
    (fun (acc : Nat × Int) index =>
      if (nl.getD index default).flags = NLFLAGS_EMPTY then acc
      else if ((nl.getD index default).flags &&& NLFLAGS_HELLOED) ≠ 0 then acc
      else if (nl.getD index default).rssi > acc.2 then
        (index, (nl.getD index default).rssi)
      else acc)
    (NEIGHBOR_NONE, INT8_MIN)

/-- The threshold rules of `ble_lists_choose_hello_neighbor`. -/
def hello_decision (nl : List ble_lists_neighborlist_t) (candidate : Nat) (highest_rssi : Int)
    (timenow last_hello_time : Nat) : Bool :=
  if candidate ≠ NEIGHBOR_NONE then
    if highest_rssi > HELLO_THRESHOLD_IMMEDIATE then true
    else if highest_rssi > HELLO_THRESHOLD_RECENT
        ∧ sub32 timenow (nl.getD candidate default).last_heard_millis < HELLO_RECENCY_MS then true
    else if highest_rssi > HELLO_THRESHOLD_CATCHALL
        ∧ sub32 timenow last_hello_time > HELLO_CATCHALL_MS then true
    else false
  else false

/-- The result of `ble_lists_choose_hello_neighbor`: the return value and the
contents of the two output arguments after the call; `hello_name` is `none`
when `strcpy` ran past the end of an array. -/
structure hello_result where
  hello_found : Bool
  hello_company_id : Nat
  hello_name : Option (List Nat)
deriving DecidableEq, Repr

/-- The store `flags |= NLFLAGS_HELLOED`, on the record. -/
def hello_fields (r : ble_lists_neighborlist_t) : ble_lists_neighborlist_t :=
  { r with flags := (r.flags ||| NLFLAGS_HELLOED) % 256 }

/-- Find a suitable neighbor for sending a Hello to. `hello_company_id` and
`hello_name` are the contents of the output arguments before the call. -/
def ble_lists_choose_hello_neighbor (NEIGHBOR_LIST_SIZE : Nat) (s : State) (timenow : Nat)
    (hello_company_id : Nat) (hello_name : List Nat) : State × hello_result :=
  if hello_decision s.neighbor_list (hello_scan NEIGHBOR_LIST_SIZE s.neighbor_list).1
      (hello_scan NEIGHBOR_LIST_SIZE s.neighbor_list).2 timenow s.last_hello_time then
    ({ s with
        last_hello_time := timenow,
        neighbor_list := s.neighbor_list.set (hello_scan NEIGHBOR_LIST_SIZE s.neighbor_list).1
          (hello_fields (s.neighbor_list.getD
            (hello_scan NEIGHBOR_LIST_SIZE s.neighbor_list).1 default)) },
     { hello_found := true,
       hello_company_id :=
        (s.neighbor_list.getD (hello_scan NEIGHBOR_LIST_SIZE s.neighbor_list).1 default).company_id,
       hello_name := strcpy hello_name
        (s.neighbor_list.getD (hello_scan NEIGHBOR_LIST_SIZE s.neighbor_list).1 default).name })
  else
    (s, { hello_found := false, hello_company_id := hello_company_id,
          hello_name := some hello_name })

/-! ## Sequences of calls -/

/-- One call of a public operation, with the values the environment supplies. -/
inductive Op where
  | advertise (adv : Advertisement) (timenow : Nat)
  | survey (filter_flags : Nat)
  | choose (timenow : Nat)
  | unhello (rand8 : Nat)
deriving DecidableEq, Repr

/-- The state after one call. -/
def step (qsort : (Nat → Nat → Int) → List Nat → List Nat)
    (NEIGHBOR_LIST_SIZE SETTING_NAME_LENGTH : Nat) (s : State) : Op → Option State
  | .advertise adv timenow =>
    ble_lists_process_advertisement NEIGHBOR_LIST_SIZE SETTING_NAME_LENGTH s adv timenow
  | .survey filter_flags =>
    some (survey_and_sort_neighbors qsort NEIGHBOR_LIST_SIZE s filter_flags).1
  | .choose timenow =>
    some (ble_lists_choose_hello_neighbor NEIGHBOR_LIST_SIZE s timenow 0 []).1
  | .unhello rand8 =>
    some (ble_lists_randomly_unhello_neighbor NEIGHBOR_LIST_SIZE s rand8)

/-- The state after a sequence of calls. -/
def run (qsort : (Nat → Nat → Int) → List Nat → List Nat)
    (NEIGHBOR_LIST_SIZE SETTING_NAME_LENGTH : Nat) : State → List Op → Option State
  | s, [] => some s
  | s, op :: ops =>
    match step qsort NEIGHBOR_LIST_SIZE SETTING_NAME_LENGTH s op with
    | none => none
    | some s' => run qsort NEIGHBOR_LIST_SIZE SETTING_NAME_LENGTH s' ops

/-! ## Predicates used by the theorems -/

/-- The probe walks past slot `i`: it is neither empty nor a match. -/
def passes (nl : List ble_lists_neighborlist_t) (a : List Nat) (i : Nat) : Prop :=
  (nl.getD i default).flags ≠ NLFLAGS_EMPTY
    ∧ __ble_address_equal a (nl.getD i default).ble_address = false


/-- What the probe's result says about the table. -/
def probe_post (N : Nat) (nl : List ble_lists_neighborlist_t) (a : List Nat) (init k : Nat) :
    probe_result → Prop
  | .place i => i < N ∧ (nl.getD i default).flags = NLFLAGS_EMPTY
  | .matching i => i < N ∧ (nl.getD i default).flags ≠ NLFLAGS_EMPTY
      ∧ __ble_address_equal a (nl.getD i default).ble_address = true
  | .list_full => ∀ j, k ≤ j → j < N → passes nl a ((init + j) % N)

/-- What every operation keeps true of `neighbor_list`: it has
`NEIGHBOR_LIST_SIZE` records, their flags are bytes, and a non-empty record has
`NLFLAGS_VALID` set. -/
structure table_ok (N : Nat) (nl : List ble_lists_neighborlist_t) : Prop where
  length_eq : nl.length = N
  flags_byte : ∀ i, i < N → (nl.getD i default).flags < 256
  valid_set : ∀ i, i < N → (nl.getD i default).flags ≠ NLFLAGS_EMPTY →
    (nl.getD i default).flags &&& NLFLAGS_VALID = NLFLAGS_VALID

/-- The probe for the address of a non-empty slot ends at that slot. -/
def probe_finds (N : Nat) (nl : List ble_lists_neighborlist_t) : Prop :=
  ∀ i, i < N → (nl.getD i default).flags ≠ NLFLAGS_EMPTY →
    probe N nl (nl.getD i default).ble_address
      (initial_index N (nl.getD i default).ble_address) N
      (initial_index N (nl.getD i default).ble_address) = some (.matching i)

/-- No two non-empty slots hold the same hardware address. -/
def no_duplicates (N : Nat) (nl : List ble_lists_neighborlist_t) : Prop :=
  ∀ i j, i < N → j < N →
    (nl.getD i default).flags ≠ NLFLAGS_EMPTY → (nl.getD j default).flags ≠ NLFLAGS_EMPTY →
    __ble_address_equal (nl.getD i default).ble_address (nl.getD j default).ble_address = true →
    i = j

/-- The number of non-empty slots. -/
def occupancy (nl : List ble_lists_neighborlist_t) : Nat :=
  nl.countP (fun r => r.flags != NLFLAGS_EMPTY)

/-- The call is the random un-Hello. -/
def Op.is_unhello : Op → Bool
  | .unhello _ => true
  | _ => false

/-- The state right after `ble_lists_init`, called on the start-up state. -/
def initial_state (NEIGHBOR_LIST_SIZE SETTING_NAME_LENGTH : Nat) : State :=
  ble_lists_init NEIGHBOR_LIST_SIZE SETTING_NAME_LENGTH
    (startup NEIGHBOR_LIST_SIZE SETTING_NAME_LENGTH)

/-! ## Example inputs -/

/-- A badge whose address hashes to slot 0. -/
def badge_a : Advertisement :=
  { ble_address := [0, 1, 2, 3, 4, 5], name := [65, 0], appearance := 0, company_id := 7,
    flags := 0xC1, rssi := -40 }

/-- A second badge whose address hashes to slot 0. -/
def badge_b : Advertisement :=
  { ble_address := [0, 9, 2, 3, 4, 5], name := [66, 0], appearance := 0, company_id := 8,
    flags := 0x02, rssi := -90 }

/-- A third badge, hashing to slot 1. -/
def badge_c : Advertisement :=
  { ble_address := [1, 9, 2, 3, 4, 5], name := [67, 0], appearance := 0, company_id := 9,
    flags := 0x04, rssi := -60 }

/-- The state a sequence of calls leads to from `initial_state`, or the initial
state when the sequence has no defined result. -/
def state_after (NEIGHBOR_LIST_SIZE SETTING_NAME_LENGTH : Nat) (ops : List Op) : State :=
  match run insertion_qsort NEIGHBOR_LIST_SIZE SETTING_NAME_LENGTH
      (initial_state NEIGHBOR_LIST_SIZE SETTING_NAME_LENGTH) ops with
  | some s => s
  | none => initial_state NEIGHBOR_LIST_SIZE SETTING_NAME_LENGTH

/-- The table after `badge_a` and `badge_b` were heard and one Hello selection
was made. -/
def two_badges_state : State :=
  state_after 2 4 [.advertise badge_a 1000, .advertise badge_b 2000, .choose 2500]

/-- A later advertisement of `badge_b`, with another name, strength and flags. -/
def badge_b_again : Advertisement :=
  { badge_b with name := [67, 68, 0], flags := 0xFF, rssi := -30 }

/-! ## Bookkeeping over a sequence of calls -/

/-- The call is an advertisement or a Hello selection. -/
def Op.is_advertise_or_choose : Op → Bool
  | .advertise _ _ => true
  | .choose _ => true
  | _ => false

/-- The advertisement and time of the call, when the call is an advertisement
of address `a`. -/
def advertised (a : List Nat) : Op → Option (Advertisement × Nat)
  | .advertise adv timenow =>
    if __ble_address_equal a adv.ble_address then some (adv, timenow) else none
  | _ => none

/-- The most recent advertisement of address `a` in a sequence of calls. -/
def last_advertisement (a : List Nat) : List Op → Option (Advertisement × Nat)
  | [] => none
  | op :: ops =>
    match last_advertisement a ops with
    | some x => some x
    | none => advertised a op

/-- The addresses advertised in a sequence of calls, as `memcpy` stores them. -/
def advertised_addresses : List Op → List (List Nat)
  | [] => []
  | .advertise adv _ :: ops => memcpy_address adv.ble_address :: advertised_addresses ops
  | _ :: ops => advertised_addresses ops

/-- The number of distinct addresses advertised in a sequence of calls. -/
def distinct_addresses (ops : List Op) : Nat := (advertised_addresses ops).dedup.length

/-- The address a call selects for a Hello, when the call is a Hello selection
that returns true. -/
def hello_selected (NEIGHBOR_LIST_SIZE : Nat) (s : State) : Op → List (List Nat)
  | .choose timenow =>
    if (ble_lists_choose_hello_neighbor NEIGHBOR_LIST_SIZE s timenow 0 []).2.hello_found then
      [(s.neighbor_list.getD (hello_scan NEIGHBOR_LIST_SIZE s.neighbor_list).1 default).ble_address]
    else []
  | _ => []

/-- The addresses the Hello selections of a sequence of calls have selected. -/
def hello_log (qsort : (Nat → Nat → Int) → List Nat → List Nat)
    (NEIGHBOR_LIST_SIZE SETTING_NAME_LENGTH : Nat) : State → List Op → List (List Nat)
  | _, [] => []
  | s, op :: ops =>
    hello_selected NEIGHBOR_LIST_SIZE s op ++
      match step qsort NEIGHBOR_LIST_SIZE SETTING_NAME_LENGTH s op with
      | some s' => hello_log qsort NEIGHBOR_LIST_SIZE SETTING_NAME_LENGTH s' ops
      | none => []

/-- Record `r` holds what the most recent advertisement of its address
supplied. -/
def holds_last (L : Nat) (ops : List Op) (r : ble_lists_neighborlist_t) : Prop :=
  ∃ adv t, last_advertisement r.ble_address ops = some (adv, t)
    ∧ r.ble_address = memcpy_address adv.ble_address
    ∧ r.name = strncpy adv.name L ∧ r.rssi = adv.rssi ∧ r.company_id = adv.company_id
    ∧ r.flags % 64 = adv.flags % 64

/-- The table reflects the calls made so far: non-empty slots hold the latest
data of their address, every advertised address has a slot, and a slot with the
Helloed bit holds an address that a Hello selection chose. -/
structure tracks (N L : Nat) (ops : List Op) (log : List (List Nat))
    (nl : List ble_lists_neighborlist_t) : Prop where
  slots : ∀ i, i < N → (nl.getD i default).flags ≠ NLFLAGS_EMPTY →
    holds_last L ops (nl.getD i default)
  present : ∀ a x, last_advertisement a ops = some x →
    ∃ i, i < N ∧ (nl.getD i default).flags ≠ NLFLAGS_EMPTY
      ∧ (nl.getD i default).ble_address = memcpy_address a
  helloed : ∀ i, i < N → (nl.getD i default).flags ≠ NLFLAGS_EMPTY →
    (nl.getD i default).flags / 64 % 2 = 1 → (nl.getD i default).ble_address ∈ log

/-- The length of the name an advertisement call supplies (0 for other calls). -/
def Op.name_length : Op → Nat
  | .advertise adv _ => (cstr adv.name).length
  | _ => 0

/-- Two badges heard, a Hello selection, and the second badge heard again. -/
def two_badges_calls : List Op :=
  [.advertise badge_a 1000, .advertise badge_b 2000, .choose 2500, .advertise badge_b_again 3000]

instance (nl : List ble_lists_neighborlist_t) (a : List Nat) (i : Nat) :
    Decidable (passes nl a i) := by
  unfold passes
  infer_instance

/-- A full table of two badges, heard 1000 ms and 900 ms before the 32-bit
millisecond clock wraps. -/
def wraparound_state : State :=
  state_after 2 4 [.advertise badge_a 4294966296, .advertise badge_b 4294966396]

/-- A full table of two badges heard at 1000 ms and 2000 ms. -/
def full_state : State :=
  state_after 2 4 [.advertise badge_a 1000, .advertise badge_b 2000]

/-- The full table while a rank rebuild has `updates_frozen` set. -/
def frozen_state : State := { full_state with updates_frozen := true }

/-- The later advertisement of `badge_b` (flags byte 0xFF) with its two high
flag bits cleared. -/
def badge_b_masked : Advertisement :=
  { badge_b_again with flags := badge_b_again.flags &&& NLFLAGS_UPDATE_MASK }

/-- The slots `survey_and_sort_neighbors` includes: the non-empty slots, in scan
order, whose flags byte ANDed with `filter_flags` is non-zero. -/
def included (N : Nat) (nl : List ble_lists_neighborlist_t) (filter_flags : Nat) : List Nat :=
  (List.range N).filter (fun i =>
    decide ((nl.getD i default).flags ≠ NLFLAGS_EMPTY
      ∧ ((nl.getD i default).flags &&& filter_flags) ≠ 0))

/-! ## Stability of the sort -/

/-- A function that keeps the C contract of `qsort` and is not stable: insertion
sort of the array read backwards. It is not the `qsort` the firmware links;
it only shows what the contract leaves open. -/
def reversing_qsort (compar : Nat → Nat → Int) (l : List Nat) : List Nat :=
  l.reverse.insertionSort (fun a b => compar a b ≤ 0)

/-- Stability, which the C contract of `qsort` does not include: whenever
`compar` is a consistent total order, two elements that compare equal keep
their order. -/
def QsortStable (qsort : (Nat → Nat → Int) → List Nat → List Nat) : Prop :=
  ∀ (compar : Nat → Nat → Int) (l : List Nat) (a b : Nat),
    (∀ a b, compar a b ≤ 0 ∨ compar b a ≤ 0) →
    (∀ a b c, compar a b ≤ 0 → compar b c ≤ 0 → compar a c ≤ 0) →
    compar a b ≤ 0 → compar b a ≤ 0 →
    List.Sublist [a, b] l → List.Sublist [a, b] (qsort compar l)

/-- A badge as strong as `badge_a`, colliding with it on slot 0. -/
def badge_d : Advertisement := { badge_b with rssi := -40 }

/-- A table of two badges of equal rssi. -/
def tie_state : State :=
  state_after 2 4 [.advertise badge_a 1000, .advertise badge_d 2000]

/-! ## The Hello selection -/

/-- Slot `i` is in the candidate pool: non-empty and not yet Helloed. -/
def hello_eligible (nl : List ble_lists_neighborlist_t) (i : Nat) : Prop :=
  (nl.getD i default).flags ≠ NLFLAGS_EMPTY
    ∧ (nl.getD i default).flags &&& NLFLAGS_HELLOED = 0

/-- Slot `c` is the best candidate: in the pool, of the highest rssi in the
pool, and the lowest slot index of that rssi. -/
def best_candidate (N : Nat) (nl : List ble_lists_neighborlist_t) (c : Nat) : Prop :=
  c < N ∧ hello_eligible nl c
    ∧ (∀ i, i < N → hello_eligible nl i → (nl.getD i default).rssi ≤ (nl.getD c default).rssi)
    ∧ (∀ i, i < c → hello_eligible nl i → (nl.getD i default).rssi < (nl.getD c default).rssi)

/-- A single badge heard at the "very strong" boundary, rssi -50, long ago. -/
def boundary_state : State :=
  state_after 2 4 [.advertise { badge_a with rssi := -50 } 1000]

/-- The states a sequence of calls passes through, one after each call. -/
def states_visited (qsort : (Nat → Nat → Int) → List Nat → List Nat)
    (NEIGHBOR_LIST_SIZE SETTING_NAME_LENGTH : Nat) : State → List Op → List State
  | _, [] => []
  | s, op :: ops =>
    match step qsort NEIGHBOR_LIST_SIZE SETTING_NAME_LENGTH s op with
    | none => []
    | some s' => s' :: states_visited qsort NEIGHBOR_LIST_SIZE SETTING_NAME_LENGTH s' ops

/-- After `two_badges_calls`, the Helloed `badge_a` is heard again, stronger than
any other badge. -/
def reheard_state : State :=
  state_after 2 4 (two_badges_calls ++ [.advertise { badge_a with rssi := -20 } 3500])

/-! ## `ble_lists_draw_callback` -/

/-- What a call of the draw callback paints: the whole line, or (diff-only) the
name field and the rssi field where they changed, or nothing but the report
`mbp_ui_error("Bad redraw")`; `undetermined` when `strcmp` ran past the end of
a name field. The coordinates `x`, `y` and the font only place the text and are
left out. -/
inductive draw_action where
  | full_line
  | fields (name rssi : Bool)
  | bad_redraw
  | undetermined
deriving DecidableEq, Repr

/-- The cache row after a diff-only draw that found its rank in the cache,
`compared` being the value of `strcmp`: `strcpy` of the name when `strcmp` finds
it changed, the rssi when it differs. The result is `none` when `strcpy` ran
past the end of an array. -/
def update_row (shown : ble_lists_displayed_info_t) (neighbor : ble_lists_neighborlist_t)
    (compared : Int) : Option ble_lists_displayed_info_t :=
  if 0 ≠ compared then
    (strcpy shown.name neighbor.name).map (fun name =>
      { shown with
        name := name,
        rssi := if shown.rssi ≠ neighbor.rssi then neighbor.rssi else shown.rssi })
  else
    some { shown with rssi := if shown.rssi ≠ neighbor.rssi then neighbor.rssi else shown.rssi }

/-- The cache row after a full draw: "update our saved copy of what's displayed
on screen". The result is `none` when `strcpy` ran past the end of an array. -/
def full_row (shown : ble_lists_displayed_info_t) (neighbor : ble_lists_neighborlist_t)
    (itemno : Nat) : Option ble_lists_displayed_info_t :=
  (strcpy shown.name neighbor.name).map (fun name =>
    { itemno := itemno, name := name, rssi := neighbor.rssi })

/-- Drawing function callback from menu handler for neighbor list menus. The two
redraw modes `MENU_DRAW_UPDATES` and `MENU_DRAW_EVERYTHING` are declared by the
menu handler's header, which is not part of the sources at hand; they are
parameters. The state after the call is `none` when `strcmp` or `strcpy` ran
past the end of a name field. -/
def ble_lists_draw_callback (MENU_DRAW_UPDATES MENU_DRAW_EVERYTHING : Nat) (s : State)
    (itemno menu_draw_method : Nat) : Option State × draw_action :=
  if menu_draw_method = MENU_DRAW_UPDATES
      ∧ (s.displayed.getD (itemno % MAX_SCREEN_LINES) default).itemno = itemno then
    match strcmp (s.displayed.getD (itemno % MAX_SCREEN_LINES) default).name
        (s.neighbor_list.getD (s.sorted_index.getD itemno default) default).name with
    | none => (none, .undetermined)
    | some compared =>
      ((update_row (s.displayed.getD (itemno % MAX_SCREEN_LINES) default)
          (s.neighbor_list.getD (s.sorted_index.getD itemno default) default) compared).map
        (fun row => { s with displayed := s.displayed.set (itemno % MAX_SCREEN_LINES) row }),
       .fields (decide (0 ≠ compared))
        (decide ((s.displayed.getD (itemno % MAX_SCREEN_LINES) default).rssi
          ≠ (s.neighbor_list.getD (s.sorted_index.getD itemno default) default).rssi)))
  else if menu_draw_method = MENU_DRAW_UPDATES ∨ menu_draw_method = MENU_DRAW_EVERYTHING then
    ((full_row (s.displayed.getD (itemno % MAX_SCREEN_LINES) default)
        (s.neighbor_list.getD (s.sorted_index.getD itemno default) default) itemno).map
      (fun row => { s with displayed := s.displayed.set (itemno % MAX_SCREEN_LINES) row }),
     .full_line)
  else (some s, .bad_redraw)

/-- The table of two badges after a rank rebuild and a full draw of rank 0. -/
def drawn_state : State :=
  match (ble_lists_draw_callback 1 0
      (survey_and_sort_neighbors insertion_qsort 2 two_badges_state 0xFF).1 0 0).1 with
  | some s => s
  | none => (survey_and_sort_neighbors insertion_qsort 2 two_badges_state 0xFF).1

/-- A badge whose advertised name has five characters, one more than fits
into a name field of `SETTING_NAME_LENGTH = 4` bytes with its NUL. -/
def long_name_badge : Advertisement := { badge_a with name := [65, 66, 67, 68, 69, 0] }

/-- The table after `long_name_badge` was heard. -/
def long_name_state : State := state_after 2 4 [.advertise long_name_badge 1000]

/-- The table after `long_name_badge` was heard and the ranks were rebuilt. -/
def long_name_ranked : State :=
  state_after 2 4 [.advertise long_name_badge 1000, .survey 0xFF]

/-! ## The clock, and the table-full step of the specification -/

/-- The reading of the millisecond clock a call is given, when it is given
one. -/
def Op.time : Op → Option Nat
  | .advertise _ timenow => some timenow
  | .choose timenow => some timenow
  | _ => none

/-- The clock readings given to a sequence of calls are non-decreasing, start
at or after `start`, and stay below `limit`. -/
def clock_ok (limit : Nat) : Nat → List Op → Bool
  | _, [] => true
  | start, op :: ops =>
    match op.time with
    | none => clock_ok limit start ops
    | some t => decide (start ≤ t) && decide (t < limit) && clock_ok limit t ops

/-- The last clock reading given to a sequence of calls, `start` when there is
none. -/
def last_time : Nat → List Op → Nat
  | start, [] => start
  | start, op :: ops =>
    match op.time with
    | none => last_time start ops
    | some t => last_time t ops

/-- The slot with the smallest `last_heard_millis`, the lowest index when
several share it: for a full table, "the single occupied slot with the smallest
last_seen (oldest)" of the specification. -/
def oldest_slot (N : Nat) (nl : List ble_lists_neighborlist_t) : Nat :=
  (List.range N).foldl
    (fun best i =>
      if (nl.getD i default).last_heard_millis < (nl.getD best default).last_heard_millis then i
      else best)
    0

/-- The table-full step in the words of the specification, with nothing
remembered from earlier calls: "If `now - oldest.last_seen` is below a reuse-age
threshold, refuse the insert and record a next eligible eviction time
(oldest.last_seen + threshold). Otherwise, evict the oldest slot, then insert
there." Taking the slot and storing the observation are `take_slot` and
`store_info`. -/
def spec_table_full (N SETTING_NAME_LENGTH : Nat) (s : State) (adv : Advertisement)
    (now : Nat) : State :=
  if now - (s.neighbor_list.getD (oldest_slot N s.neighbor_list) default).last_heard_millis
      < NEIGHBOR_REUSE_AGE then
    { s with
      neighbor_list_next_expiration :=
        (s.neighbor_list.getD (oldest_slot N s.neighbor_list) default).last_heard_millis
          + NEIGHBOR_REUSE_AGE }
  else
    { s with
      neighbor_list := store_info SETTING_NAME_LENGTH
        (take_slot s.neighbor_list (oldest_slot N s.neighbor_list) adv.ble_address)
        (oldest_slot N s.neighbor_list) adv now }

/-- The update of the specification without the short-circuit: dropped while
frozen; the lookup by linear probing; on table-full, `spec_table_full`. -/
def spec_update (N SETTING_NAME_LENGTH : Nat) (s : State) (adv : Advertisement) (now : Nat) :
    Option State :=
  if s.updates_frozen then some s
  else
    match probe N s.neighbor_list adv.ble_address (initial_index N adv.ble_address) N
        (initial_index N adv.ble_address) with
    | none => none
    | some (.place index) =>
      some { s with
        neighbor_list := store_info SETTING_NAME_LENGTH
          (take_slot s.neighbor_list index adv.ble_address) index adv now }
    | some (.matching index) =>
      some { s with
        neighbor_list := store_info SETTING_NAME_LENGTH s.neighbor_list index adv now }
    | some .list_full => some (spec_table_full N SETTING_NAME_LENGTH s adv now)

/-- The state after one call, advertisements going through `spec_update`. -/
def spec_step (qsort : (Nat → Nat → Int) → List Nat → List Nat)
    (N SETTING_NAME_LENGTH : Nat) (s : State) : Op → Option State
  | .advertise adv now => spec_update N SETTING_NAME_LENGTH s adv now
  | .survey filter_flags => some (survey_and_sort_neighbors qsort N s filter_flags).1
  | .choose now => some (ble_lists_choose_hello_neighbor N s now 0 []).1
  | .unhello rand8 => some (ble_lists_randomly_unhello_neighbor N s rand8)

/-- The state after a sequence of calls, advertisements going through
`spec_update`. -/
def spec_run (qsort : (Nat → Nat → Int) → List Nat → List Nat)
    (N SETTING_NAME_LENGTH : Nat) : State → List Op → Option State
  | s, [] => some s
  | s, op :: ops =>
    match spec_step qsort N SETTING_NAME_LENGTH s op with
    | none => none
    | some s' => spec_run qsort N SETTING_NAME_LENGTH s' ops

/-- The state with the recorded expiration time left out of account. -/
def forget_expiration (s : State) : State := { s with neighbor_list_next_expiration := 0 }

/-- Every slot was last heard at or before `now`, and the recorded expiration
time is not after any slot's `last_heard_millis + NEIGHBOR_REUSE_AGE`. -/
def expiration_ok (N now : Nat) (s : State) : Prop :=
  ∀ j, j < N → (s.neighbor_list.getD j default).last_heard_millis ≤ now
    ∧ s.neighbor_list_next_expiration
      ≤ (s.neighbor_list.getD j default).last_heard_millis + NEIGHBOR_REUSE_AGE

/-- Two badges heard 200 s before the 32-bit millisecond clock wraps, a third
one refused 10 s later, and the two heard again 100 s before the wrap. -/
def near_wrap_calls : List Op :=
  [.advertise badge_a 4294767296, .advertise badge_b 4294767396,
   .advertise badge_c 4294777296,
   .advertise badge_a 4294867296, .advertise badge_b 4294867396]

/-- The state `near_wrap_calls` leads to. -/
def near_wrap_state : State := state_after 2 4 near_wrap_calls

/-- Two badges heard, a third one refused, the first heard again. -/
def refusal_calls : List Op :=
  [.advertise badge_a 1000, .advertise badge_b 2000, .advertise badge_c 3000,
   .advertise badge_a 4000]

/-- The state `refusal_calls` leads to: a full table whose oldest entry was
heard at 2000 ms, with the expiration time 181000 recorded at the refusal. -/
def refusal_state : State := state_after 2 4 refusal_calls

/-! ## The rest of `sorted_index` -/

/-- The call is a rank rebuild. -/
def Op.is_survey : Op → Bool
  | .survey _ => true
  | _ => false

/-- Two badges heard and a rank rebuild that includes both. -/
def surveyed_calls : List Op :=
  [.advertise badge_a 1000, .advertise badge_b 2000, .survey 0xFF]

/-- The state `surveyed_calls` leads to. -/
def surveyed_state : State := state_after 2 4 surveyed_calls

/-! # Lemmas and theorems -/

/-! ## Flag bytes -/


theorem and_63 (x : Nat) : x &&& 63 = x % 64 := Nat.and_pow_two_sub_one_eq_mod x 6

theorem and_64 (x : Nat) : x &&& 64 = 64 * (x / 64 % 2) := by
  have h := Nat.and_two_pow x 6
  rw [Nat.testBit_to_div_mod] at h
  norm_num at h
  rw [h]
  rcases Nat.mod_two_eq_zero_or_one (x / 64) with h0 | h1
  · simp [h0]
  · simp [h1]

theorem and_128 (x : Nat) : x &&& 128 = 128 * (x / 128 % 2) := by
  have h := Nat.and_two_pow x 7
  rw [Nat.testBit_to_div_mod] at h
  norm_num at h
  rw [h]
  rcases Nat.mod_two_eq_zero_or_one (x / 128) with h0 | h1
  · simp [h0]
  · simp [h1]

theorem or_64 (x : Nat) : x ||| 64 = x + 64 * (1 - x / 64 % 2) := by
  rcases Nat.mod_two_eq_zero_or_one (x / 64) with h0 | h0
  · have hr : x % 64 < 2 ^ 6 := by omega
    have hr' : 2 ^ 6 * 1 + x % 64 < 2 ^ 7 := by omega
    have a1 := Nat.mul_add_lt_is_or hr 1
    have a2 := Nat.mul_add_lt_is_or hr' (x / 128)
    have a3 := Nat.mul_add_lt_is_or (show x % 64 < 2 ^ 7 by omega) (x / 128)
    have hx : x = 2 ^ 7 * (x / 128) + x % 64 := by norm_num; omega
    have hx' : x + 64 * (1 - x / 64 % 2) = 2 ^ 7 * (x / 128) + (2 ^ 6 * 1 + x % 64) := by
      norm_num; omega
    rw [hx', a2, a1]
    conv_lhs => rw [hx, a3]
    norm_num
    rw [Nat.or_assoc, Nat.or_comm (x % 64) 64]
  · have hx : x + 64 * (1 - x / 64 % 2) = x := by omega
    rw [hx]
    apply Nat.eq_of_testBit_eq
    intro i
    have e : (64 : Nat) = 2 ^ 6 := by norm_num
    rw [e, Nat.testBit_or, Nat.testBit_two_pow]
    by_cases hi : 6 = i
    · subst hi
      have : x.testBit 6 = true := by
        rw [Nat.testBit_to_div_mod]; norm_num; exact h0
      simp [this]
    · simp [hi]

theorem flags_merge (old f : Nat) :
    ((old &&& bnot32 NLFLAGS_UPDATE_MASK) ||| (f &&& NLFLAGS_UPDATE_MASK)) % 256
      = 64 * (old / 64 % 4) + f % 64 := by
  have hlt : f % 64 < 2 ^ 6 := by omega
  have h := Nat.mul_add_lt_is_or hlt (old / 64 % 4)
  norm_num at h
  rw [h]
  apply Nat.eq_of_testBit_eq
  intro i
  have hc : bnot32 NLFLAGS_UPDATE_MASK = 2 ^ 6 * (2 ^ 26 - 1) := by decide
  have hm : NLFLAGS_UPDATE_MASK = 2 ^ 6 - 1 := by decide
  have e1 : old / 64 % 4 = (old >>> 6) % 2 ^ 2 := by
    rw [Nat.shiftRight_eq_div_pow]; norm_num
  have e2 : f % 64 = f % 2 ^ 6 := by norm_num
  have e3 : (64 : Nat) = 2 ^ 6 := by norm_num
  have h256 : (256 : Nat) = 2 ^ 8 := by norm_num
  rw [hc, hm, e1, e2, h256, e3]
  simp only [Nat.testBit_mod_two_pow, Nat.testBit_or, Nat.testBit_and,
    Nat.testBit_mul_pow_two, Nat.testBit_two_pow_sub_one, Nat.testBit_shiftRight]
  by_cases h6 : i < 6
  · have : ¬ (i ≥ 6) := by omega
    have : i < 8 := by omega
    simp [*]
  · have h6' : i ≥ 6 := by omega
    by_cases h8 : i < 8
    · have : i - 6 < 26 := by omega
      have : i - 6 < 2 := by omega
      have : 6 + (i - 6) = i := by omega
      simp [*]
    · have : ¬ (i - 6 < 2) := by omega
      simp [*]

/-! ## Lists as arrays -/

theorem getD_set_same {α : Type} (l : List α) (i : Nat) (a d : α) (h : i < l.length) :
    (l.set i a).getD i d = a := by
  simp [List.getD_eq_getElem?_getD, List.getElem?_set, h]

theorem getD_set_other {α : Type} (l : List α) (i j : Nat) (a d : α) (h : i ≠ j) :
    (l.set i a).getD j d = l.getD j d := by
  simp [List.getD_eq_getElem?_getD, List.getElem?_set, h]

/-! ## Addresses -/

theorem address_equal_iff (a b : List Nat) :
    __ble_address_equal a b = true ↔ memcpy_address a = memcpy_address b := by
  simp [__ble_address_equal, memcpy_address, BLE_GAP_ADDR_LEN, List.range_succ]

theorem memcpy_address_idem (a : List Nat) :
    memcpy_address (memcpy_address a) = memcpy_address a := by
  simp [memcpy_address, BLE_GAP_ADDR_LEN, List.range_succ]

theorem memcpy_address_length (a : List Nat) : (memcpy_address a).length = BLE_GAP_ADDR_LEN := by
  simp [memcpy_address]

theorem address_equal_congr (a b c : List Nat) (h : memcpy_address a = memcpy_address b) :
    __ble_address_equal a c = __ble_address_equal b c := by
  rw [Bool.eq_iff_iff, address_equal_iff, address_equal_iff, h]

theorem address_equal_symm (a b : List Nat) :
    __ble_address_equal a b = __ble_address_equal b a := by
  rw [Bool.eq_iff_iff, address_equal_iff, address_equal_iff]
  exact eq_comm

theorem address_equal_memcpy (a b : List Nat) :
    __ble_address_equal a (memcpy_address b) = __ble_address_equal a b := by
  rw [Bool.eq_iff_iff, address_equal_iff, address_equal_iff, memcpy_address_idem]

theorem initial_index_congr (N : Nat) (a b : List Nat) (h : memcpy_address a = memcpy_address b) :
    initial_index N a = initial_index N b := by
  have h0 : a.getD 0 0 = b.getD 0 0 := by
    have := congrArg (fun l => l.getD 0 0) h
    simpa [memcpy_address, BLE_GAP_ADDR_LEN, List.range_succ] using this
  unfold initial_index
  rw [h0]

theorem initial_index_lt (N : Nat) (a : List Nat) (hN : 0 < N) : initial_index N a < N := by
  unfold initial_index
  split <;> omega

/-! ## The probing loop -/

theorem add_one_mod_eq (N a : Nat) :
    (a + 1) % N = if a % N + 1 = N then 0 else a % N + 1 := by
  rcases Nat.eq_zero_or_pos N with h0 | hpos
  · subst h0; simp
  · have hlt := Nat.mod_lt a hpos
    rw [Nat.add_mod]
    split
    · rename_i h
      rcases Nat.lt_or_ge 1 N with h1 | h1
      · rw [Nat.mod_eq_of_lt h1, h, Nat.mod_self]
      · have : N = 1 := by omega
        subst this; omega
    · rename_i h
      have h1 : 1 < N := by omega
      rw [Nat.mod_eq_of_lt h1, Nat.mod_eq_of_lt (by omega)]

theorem next_index_eq (N init k : Nat) (hN : N ≤ 255) (hk : k < N) :
    next_index N ((init + k) % N) = (init + (k + 1)) % N := by
  unfold next_index
  have hlt := Nat.mod_lt (init + k) (show 0 < N by omega)
  have e : init + (k + 1) = (init + k) + 1 := by omega
  rw [Nat.mod_eq_of_lt (show (init + k) % N + 1 < 256 by omega), e, add_one_mod_eq N (init + k)]

theorem position_eq_initial (N init j : Nat) (hi : init < N) (hj : j ≤ N) :
    (init + j) % N = init ↔ j = 0 ∨ j = N := by
  rcases Nat.lt_or_ge (init + j) N with h | h
  · rw [Nat.mod_eq_of_lt h]; omega
  · have e : init + j = (init + j - N) + N := by omega
    rw [e, Nat.add_mod_right, Nat.mod_eq_of_lt (by omega)]; omega

theorem position_surjective (N init i : Nat) (hi : init < N) (h : i < N) :
    ∃ k, k < N ∧ (init + k) % N = i := by
  rcases Nat.lt_or_ge i init with hlt | hge
  · refine ⟨i + N - init, by omega, ?_⟩
    have e : init + (i + N - init) = i + N := by omega
    rw [e, Nat.add_mod_right, Nat.mod_eq_of_lt h]
  · refine ⟨i - init, by omega, ?_⟩
    have e : init + (i - init) = i := by omega
    rw [e, Nat.mod_eq_of_lt h]

theorem probe_spec (N : Nat) (nl : List ble_lists_neighborlist_t) (a : List Nat) (init : Nat)
    (hN : N ≤ 255) (hi : init < N) :
    ∀ fuel k, k + fuel = N → 0 < fuel →
      ∃ r, probe N nl a init fuel ((init + k) % N) = some r ∧ probe_post N nl a init k r := by
  intro fuel
  induction fuel with
  | zero => intro k _ h; omega
  | succ fuel ih =>
    intro k hk _
    have hkN : k < N := by omega
    have hpos : (init + k) % N < N := Nat.mod_lt _ (by omega)
    unfold probe
    by_cases h1 : (nl.getD ((init + k) % N) default).flags = NLFLAGS_EMPTY
    · exact ⟨.place ((init + k) % N), by rw [if_pos h1], hpos, h1⟩
    · by_cases h2 : __ble_address_equal a (nl.getD ((init + k) % N) default).ble_address = true
      · exact ⟨.matching ((init + k) % N), by rw [if_neg h1, if_pos h2], hpos, h1, h2⟩
      · have hp : passes nl a ((init + k) % N) := ⟨h1, by simpa using h2⟩
        rw [if_neg h1, if_neg h2, next_index_eq N init k hN hkN]
        by_cases h3 : (init + (k + 1)) % N = init
        · have hk1 : k + 1 = N := by
            have := (position_eq_initial N init (k + 1) hi (by omega)).1 h3
            omega
          refine ⟨.list_full, by rw [if_pos h3], ?_⟩
          intro j hj hjN
          have : j = k := by omega
          subst this; exact hp
        · have hk1 : k + 1 ≠ N := by
            intro hc
            exact h3 ((position_eq_initial N init (k + 1) hi (by omega)).2 (Or.inr hc))
          obtain ⟨r, hr, hpost⟩ := ih (k + 1) (by omega) (by omega)
          refine ⟨r, by rw [if_neg h3, hr], ?_⟩
          cases r with
          | place i => exact hpost
          | matching i => exact hpost
          | list_full =>
            intro j hj hjN
            rcases Nat.eq_or_lt_of_le hj with hjk | hjk
            · subst hjk; exact hp
            · exact hpost j hjk hjN

/-- The probe of `ble_lists_process_advertisement` always ends within
`NEIGHBOR_LIST_SIZE` iterations. -/
theorem probe_total (N : Nat) (nl : List ble_lists_neighborlist_t) (a : List Nat)
    (hN0 : 0 < N) (hN : N ≤ 255) :
    ∃ r, probe N nl a (initial_index N a) N (initial_index N a) = some r
      ∧ probe_post N nl a (initial_index N a) 0 r := by
  have hi := initial_index_lt N a hN0
  have := probe_spec N nl a (initial_index N a) hN hi N 0 (by omega) hN0
  simpa [Nat.mod_eq_of_lt hi] using this

theorem probe_list_full_passes (N : Nat) (nl : List ble_lists_neighborlist_t) (a : List Nat)
    (hN0 : 0 < N) (hN : N ≤ 255)
    (h : probe N nl a (initial_index N a) N (initial_index N a) = some .list_full) :
    ∀ i, i < N → passes nl a i := by
  obtain ⟨r, hr, hpost⟩ := probe_total N nl a hN0 hN
  rw [h] at hr
  cases hr
  intro i hi
  obtain ⟨k, hk, hki⟩ := position_surjective N (initial_index N a) i (initial_index_lt N a hN0) hi
  have := hpost k (Nat.zero_le _) hk
  rwa [hki] at this

theorem probe_place_post (N : Nat) (nl : List ble_lists_neighborlist_t) (a : List Nat)
    (hN0 : 0 < N) (hN : N ≤ 255) (i : Nat)
    (h : probe N nl a (initial_index N a) N (initial_index N a) = some (.place i)) :
    i < N ∧ (nl.getD i default).flags = NLFLAGS_EMPTY := by
  obtain ⟨r, hr, hpost⟩ := probe_total N nl a hN0 hN
  rw [h] at hr
  cases hr
  exact hpost

theorem probe_matching_post (N : Nat) (nl : List ble_lists_neighborlist_t) (a : List Nat)
    (hN0 : 0 < N) (hN : N ≤ 255) (i : Nat)
    (h : probe N nl a (initial_index N a) N (initial_index N a) = some (.matching i)) :
    i < N ∧ (nl.getD i default).flags ≠ NLFLAGS_EMPTY
      ∧ __ble_address_equal a (nl.getD i default).ble_address = true := by
  obtain ⟨r, hr, hpost⟩ := probe_total N nl a hN0 hN
  rw [h] at hr
  cases hr
  exact hpost

theorem probe_list_full_of_passes (N : Nat) (nl : List ble_lists_neighborlist_t) (a : List Nat)
    (hN0 : 0 < N) (hN : N ≤ 255) (h : ∀ i, i < N → passes nl a i) :
    probe N nl a (initial_index N a) N (initial_index N a) = some .list_full := by
  obtain ⟨r, hr, hpost⟩ := probe_total N nl a hN0 hN
  cases r with
  | place i => exact absurd hpost.2 (h i hpost.1).1
  | matching i =>
    have := (h i hpost.1).2
    rw [hpost.2.2] at this
    cases this
  | list_full => exact hr

theorem probe_ext (N : Nat) (nl1 nl2 : List ble_lists_neighborlist_t) (a : List Nat) (init : Nat)
    (h : ∀ i, ((nl1.getD i default).flags = NLFLAGS_EMPTY ↔ (nl2.getD i default).flags = NLFLAGS_EMPTY)
      ∧ (nl1.getD i default).ble_address = (nl2.getD i default).ble_address) :
    ∀ fuel index, probe N nl1 a init fuel index = probe N nl2 a init fuel index := by
  intro fuel
  induction fuel with
  | zero => intro index; rfl
  | succ fuel ih =>
    intro index
    unfold probe
    by_cases h1 : (nl2.getD index default).flags = NLFLAGS_EMPTY
    · rw [if_pos h1, if_pos ((h index).1.2 h1)]
    · rw [if_neg h1, if_neg (fun hc => h1 ((h index).1.1 hc)), (h index).2]
      rw [ih]

theorem probe_set_congr (N : Nat) (nl : List ble_lists_neighborlist_t) (a : List Nat)
    (init j : Nat) (r : ble_lists_neighborlist_t)
    (haddr : r.ble_address = (nl.getD j default).ble_address)
    (hflags : r.flags = NLFLAGS_EMPTY ↔ (nl.getD j default).flags = NLFLAGS_EMPTY)
    (fuel index : Nat) :
    probe N (nl.set j r) a init fuel index = probe N nl a init fuel index := by
  apply probe_ext
  intro i
  by_cases hij : j = i
  · subst hij
    by_cases hlen : j < nl.length
    · rw [getD_set_same nl j r default hlen]; exact ⟨hflags, haddr⟩
    · rw [List.set_eq_of_length_le (by omega)]; exact ⟨Iff.rfl, rfl⟩
  · rw [getD_set_other nl j i r default hij]; exact ⟨Iff.rfl, rfl⟩

theorem probe_address_congr (N : Nat) (nl : List ble_lists_neighborlist_t) (a b : List Nat)
    (init : Nat) (h : memcpy_address a = memcpy_address b) :
    ∀ fuel index, probe N nl a init fuel index = probe N nl b init fuel index := by
  intro fuel
  induction fuel with
  | zero => intro index; rfl
  | succ fuel ih =>
    intro index
    unfold probe
    rw [address_equal_congr a b _ h, ih]

/-- Writing a non-empty record with another address to slot `j` does not change
where the probe finds an address held by another slot. -/
theorem probe_matching_set (N : Nat) (nl : List ble_lists_neighborlist_t) (b : List Nat)
    (init j i : Nat) (r : ble_lists_neighborlist_t) (hij : i ≠ j)
    (hr : r.flags ≠ NLFLAGS_EMPTY) (hb : __ble_address_equal b r.ble_address = false) :
    ∀ fuel index, probe N nl b init fuel index = some (.matching i) →
      probe N (nl.set j r) b init fuel index = some (.matching i) := by
  intro fuel
  induction fuel with
  | zero => intro index h; exact h
  | succ fuel ih =>
    intro index h
    unfold probe at h ⊢
    by_cases hlen : j < nl.length
    · by_cases hidx : j = index
      · subst hidx
        rw [getD_set_same nl j r default hlen, if_neg hr, if_neg (by simp [hb])]
        by_cases h1 : (nl.getD j default).flags = NLFLAGS_EMPTY
        · rw [if_pos h1] at h; cases h
        · rw [if_neg h1] at h
          by_cases h2 : __ble_address_equal b (nl.getD j default).ble_address = true
          · rw [if_pos h2] at h; cases h; exact absurd rfl hij
          · rw [if_neg h2] at h
            by_cases h3 : next_index N j = init
            · rw [if_pos h3] at h; cases h
            · rw [if_neg h3] at h ⊢; exact ih _ h
      · rw [getD_set_other nl j index r default hidx]
        by_cases h1 : (nl.getD index default).flags = NLFLAGS_EMPTY
        · rw [if_pos h1] at h; cases h
        · rw [if_neg h1] at h ⊢
          by_cases h2 : __ble_address_equal b (nl.getD index default).ble_address = true
          · rw [if_pos h2] at h ⊢; exact h
          · rw [if_neg h2] at h ⊢
            by_cases h3 : next_index N index = init
            · rw [if_pos h3] at h; cases h
            · rw [if_neg h3] at h ⊢; exact ih _ h
    · rw [List.set_eq_of_length_le (by omega)]
      exact h

/-- Filling the empty slot the probe stopped at makes the probe find the
address there. -/
theorem probe_place_set (N : Nat) (nl : List ble_lists_neighborlist_t) (a : List Nat)
    (init e : Nat) (r : ble_lists_neighborlist_t) (he : e < nl.length)
    (hr : r.flags ≠ NLFLAGS_EMPTY) (ha : __ble_address_equal a r.ble_address = true) :
    ∀ fuel index, probe N nl a init fuel index = some (.place e) →
      probe N (nl.set e r) a init fuel index = some (.matching e) := by
  intro fuel
  induction fuel with
  | zero => intro index h; cases h
  | succ fuel ih =>
    intro index h
    unfold probe at h ⊢
    by_cases hidx : e = index
    · subst hidx
      rw [getD_set_same nl e r default he, if_neg hr, if_pos ha]
    · rw [getD_set_other nl e index r default hidx]
      by_cases h1 : (nl.getD index default).flags = NLFLAGS_EMPTY
      · rw [if_pos h1] at h; cases h; exact absurd rfl hidx
      · rw [if_neg h1] at h ⊢
        by_cases h2 : __ble_address_equal a (nl.getD index default).ble_address = true
        · rw [if_pos h2] at h; cases h
        · rw [if_neg h2] at h ⊢
          by_cases h3 : next_index N index = init
          · rw [if_pos h3] at h; cases h
          · rw [if_neg h3] at h ⊢; exact ih _ h

/-! ## Records written by `ble_lists_process_advertisement` -/

theorem store_fields_flags (L : Nat) (r : ble_lists_neighborlist_t) (adv : Advertisement)
    (t : Nat) : (store_fields L r adv t).flags = 64 * (r.flags / 64 % 4) + adv.flags % 64 :=
  flags_merge r.flags adv.flags

theorem valid_iff (x : Nat) : x &&& NLFLAGS_VALID = NLFLAGS_VALID ↔ x / 128 % 2 = 1 := by
  rw [show NLFLAGS_VALID = 128 from rfl, and_128]; omega

theorem helloed_iff (x : Nat) : x &&& NLFLAGS_HELLOED = 0 ↔ x / 64 % 2 = 0 := by
  rw [show NLFLAGS_HELLOED = 64 from rfl, and_64]; omega

theorem store_take_eq (L : Nat) (nl : List ble_lists_neighborlist_t) (i : Nat)
    (adv : Advertisement) (t : Nat) (hi : i < nl.length) :
    store_info L (take_slot nl i adv.ble_address) i adv t
      = nl.set i (store_fields L (take_fields (nl.getD i default) adv.ble_address) adv t) := by
  unfold store_info take_slot
  rw [getD_set_same nl i _ default hi, List.set_set]

theorem store_take_fields_flags (L : Nat) (r : ble_lists_neighborlist_t) (adv : Advertisement)
    (t : Nat) :
    (store_fields L (take_fields r adv.ble_address) adv t).flags = 128 + adv.flags % 64 := by
  rw [store_fields_flags]
  show 64 * (128 / 64 % 4) + adv.flags % 64 = 128 + adv.flags % 64
  norm_num

/-- The ways a call of `ble_lists_process_advertisement` can end. -/
theorem process_advertisement_cases (N L : Nat) (s s' : State) (adv : Advertisement) (t : Nat)
    (h : ble_lists_process_advertisement N L s adv t = some s') :
    s'.neighbor_list = s.neighbor_list
    ∨ (∃ i, probe N s.neighbor_list adv.ble_address (initial_index N adv.ble_address) N
          (initial_index N adv.ble_address) = some (.place i)
        ∧ s'.neighbor_list = store_info L (take_slot s.neighbor_list i adv.ble_address) i adv t)
    ∨ (∃ i, probe N s.neighbor_list adv.ble_address (initial_index N adv.ble_address) N
          (initial_index N adv.ble_address) = some (.matching i)
        ∧ s'.neighbor_list = store_info L s.neighbor_list i adv t)
    ∨ (∃ j, probe N s.neighbor_list adv.ble_address (initial_index N adv.ble_address) N
          (initial_index N adv.ble_address) = some .list_full
        ∧ (find_oldest N s.neighbor_list).2 = some j
        ∧ s'.neighbor_list = store_info L (take_slot s.neighbor_list j adv.ble_address) j adv t) := by
  unfold ble_lists_process_advertisement at h
  split at h
  · cases h; exact Or.inl rfl
  · split at h
    · cases h
    · rename_i i hp
      cases h
      exact Or.inr (Or.inl ⟨i, hp, rfl⟩)
    · rename_i i hp
      cases h
      exact Or.inr (Or.inr (Or.inl ⟨i, hp, rfl⟩))
    · rename_i hp
      unfold list_full_case at h
      split at h
      · cases h; exact Or.inl rfl
      · split at h
        · cases h; exact Or.inl rfl
        · split at h
          · cases h
          · rename_i j hj
            cases h
            exact Or.inr (Or.inr (Or.inr ⟨j, hp, hj, rfl⟩))

/-! ## The scans -/

theorem find_oldest_succ (N : Nat) (nl : List ble_lists_neighborlist_t) :
    find_oldest (N + 1) nl
      = if (nl.getD N default).last_heard_millis < (find_oldest N nl).1 then
          ((nl.getD N default).last_heard_millis, some N)
        else find_oldest N nl := by
  simp only [find_oldest, List.range_succ, List.foldl_append, List.foldl_cons, List.foldl_nil]

/-- What the scan for the oldest entry computes: a lower bound of all
`last_heard_millis`, attained at the first slot holding it unless no slot is
below `UINT32_MAX`. -/
theorem find_oldest_spec (N : Nat) (nl : List ble_lists_neighborlist_t) :
    (find_oldest N nl).1 ≤ UINT32_MAX
    ∧ (∀ i, i < N → (find_oldest N nl).1 ≤ (nl.getD i default).last_heard_millis)
    ∧ (match (find_oldest N nl).2 with
       | none => (find_oldest N nl).1 = UINT32_MAX
       | some j => j < N ∧ (nl.getD j default).last_heard_millis = (find_oldest N nl).1
           ∧ ∀ i, i < j → (find_oldest N nl).1 < (nl.getD i default).last_heard_millis) := by
  induction N with
  | zero => exact ⟨Nat.le_refl _, fun i hi => absurd hi (Nat.not_lt_zero i), rfl⟩
  | succ N ih =>
    obtain ⟨h1, h2, h3⟩ := ih
    rw [find_oldest_succ]
    by_cases hlt : (nl.getD N default).last_heard_millis < (find_oldest N nl).1
    · rw [if_pos hlt]
      refine ⟨by simp only; omega, ?_, ?_⟩
      · intro i hi
        rcases Nat.lt_or_ge i N with hiN | hiN
        · have := h2 i hiN; simp only; omega
        · have : i = N := by omega
          subst this; exact Nat.le_refl _
      · refine ⟨by omega, rfl, ?_⟩
        intro i hi
        have := h2 i hi
        simp only; omega
    · rw [if_neg hlt]
      refine ⟨h1, ?_, ?_⟩
      · intro i hi
        rcases Nat.lt_or_ge i N with hiN | hiN
        · exact h2 i hiN
        · have : i = N := by omega
          subst this; omega
      · cases hj : (find_oldest N nl).2 with
        | none => rw [hj] at h3; exact h3
        | some j =>
          rw [hj] at h3
          exact ⟨by omega, h3.2.1, h3.2.2⟩

theorem find_oldest_index_lt (N : Nat) (nl : List ble_lists_neighborlist_t) (j : Nat)
    (h : (find_oldest N nl).2 = some j) : j < N := by
  have := (find_oldest_spec N nl).2.2
  rw [h] at this
  exact this.1

theorem hello_scan_succ (N : Nat) (nl : List ble_lists_neighborlist_t) :
    hello_scan (N + 1) nl
      = if (nl.getD N default).flags = NLFLAGS_EMPTY then hello_scan N nl
        else if ((nl.getD N default).flags &&& NLFLAGS_HELLOED) ≠ 0 then hello_scan N nl
        else if (nl.getD N default).rssi > (hello_scan N nl).2 then
          (N, (nl.getD N default).rssi)
        else hello_scan N nl := by
  simp only [hello_scan, List.range_succ, List.foldl_append, List.foldl_cons, List.foldl_nil]

/-- The candidate of the Hello scan is `NEIGHBOR_NONE` or a non-empty slot that
has not been Helloed, whose rssi is the `highest_rssi` returned. -/
theorem hello_scan_candidate (N : Nat) (nl : List ble_lists_neighborlist_t) :
    (hello_scan N nl).1 = NEIGHBOR_NONE
    ∨ ((hello_scan N nl).1 < N
        ∧ (nl.getD (hello_scan N nl).1 default).flags ≠ NLFLAGS_EMPTY
        ∧ (nl.getD (hello_scan N nl).1 default).flags &&& NLFLAGS_HELLOED = 0
        ∧ (nl.getD (hello_scan N nl).1 default).rssi = (hello_scan N nl).2) := by
  induction N with
  | zero => exact Or.inl rfl
  | succ N ih =>
    have ih' : (hello_scan N nl).1 = NEIGHBOR_NONE
        ∨ ((hello_scan N nl).1 < N + 1
          ∧ (nl.getD (hello_scan N nl).1 default).flags ≠ NLFLAGS_EMPTY
          ∧ (nl.getD (hello_scan N nl).1 default).flags &&& NLFLAGS_HELLOED = 0
          ∧ (nl.getD (hello_scan N nl).1 default).rssi = (hello_scan N nl).2) := by
      rcases ih with h | h
      · exact Or.inl h
      · exact Or.inr ⟨by omega, h.2⟩
    rw [hello_scan_succ]
    by_cases h1 : (nl.getD N default).flags = NLFLAGS_EMPTY
    · rw [if_pos h1]; exact ih'
    · rw [if_neg h1]
      by_cases h2 : ((nl.getD N default).flags &&& NLFLAGS_HELLOED) ≠ 0
      · rw [if_pos h2]; exact ih'
      · rw [if_neg h2]
        by_cases h3 : (nl.getD N default).rssi > (hello_scan N nl).2
        · rw [if_pos h3]
          exact Or.inr ⟨Nat.lt_succ_self N, h1, by simpa using h2, rfl⟩
        · rw [if_neg h3]; exact ih'

/-! ## Invariants of the table -/

theorem table_ok_set (N : Nat) (nl : List ble_lists_neighborlist_t) (i : Nat)
    (r : ble_lists_neighborlist_t) (hok : table_ok N nl) (hb : r.flags < 256)
    (hv : r.flags ≠ NLFLAGS_EMPTY → r.flags &&& NLFLAGS_VALID = NLFLAGS_VALID) :
    table_ok N (nl.set i r) := by
  have slot : ∀ k, k < N → (nl.set i r).getD k default = r
      ∨ (nl.set i r).getD k default = nl.getD k default := by
    intro k hk
    by_cases hik : i = k
    · subst hik
      exact Or.inl (getD_set_same nl i r default (by rw [hok.length_eq]; exact hk))
    · exact Or.inr (getD_set_other nl i k r default hik)
  refine ⟨by rw [List.length_set]; exact hok.length_eq, ?_, ?_⟩
  · intro k hk
    rcases slot k hk with h | h
    · rw [h]; exact hb
    · rw [h]; exact hok.flags_byte k hk
  · intro k hk
    rcases slot k hk with h | h
    · rw [h]; exact hv
    · rw [h]; exact hok.valid_set k hk

theorem table_ok_init (N L : Nat) : table_ok N (List.replicate N (zero_neighbor L)) := by
  have slot : ∀ k, k < N → (List.replicate N (zero_neighbor L)).getD k default = zero_neighbor L := by
    intro k hk
    simp [List.getD_eq_getElem?_getD, List.getElem?_replicate, hk]
  refine ⟨List.length_replicate _ _, ?_, ?_⟩
  · intro k hk; rw [slot k hk]; show 0 < 256; omega
  · intro k hk h; rw [slot k hk] at h; exact absurd rfl h

theorem probe_finds_init (N L : Nat) : probe_finds N (List.replicate N (zero_neighbor L)) := by
  intro k hk h
  have : (List.replicate N (zero_neighbor L)).getD k default = zero_neighbor L := by
    simp [List.getD_eq_getElem?_getD, List.getElem?_replicate, hk]
  rw [this] at h
  exact absurd rfl h

theorem no_duplicates_of_probe_finds (N : Nat) (nl : List ble_lists_neighborlist_t)
    (h : probe_finds N nl) : no_duplicates N nl := by
  intro i j hi hj hfi hfj heq
  have hm := (address_equal_iff _ _).1 heq
  have h1 := h i hi hfi
  have h2 := h j hj hfj
  rw [probe_address_congr N nl _ _ _ hm, initial_index_congr N _ _ hm, h2] at h1
  cases h1
  rfl

theorem store_fields_ok (L : Nat) (r : ble_lists_neighborlist_t) (adv : Advertisement) (t : Nat)
    (hv : r.flags &&& NLFLAGS_VALID = NLFLAGS_VALID) :
    (store_fields L r adv t).flags < 256
    ∧ (store_fields L r adv t).flags ≠ NLFLAGS_EMPTY
    ∧ (store_fields L r adv t).flags &&& NLFLAGS_VALID = NLFLAGS_VALID := by
  rw [valid_iff] at hv ⊢
  rw [store_fields_flags, show NLFLAGS_EMPTY = 0 from rfl]
  omega

theorem take_fields_valid (r : ble_lists_neighborlist_t) (a : List Nat) :
    (take_fields r a).flags &&& NLFLAGS_VALID = NLFLAGS_VALID := by
  rw [valid_iff]; show 128 / 128 % 2 = 1; norm_num

theorem process_advertisement_table_ok (N L : Nat) (s s' : State) (adv : Advertisement) (t : Nat)
    (hN0 : 0 < N) (hN : N ≤ 255) (hok : table_ok N s.neighbor_list)
    (h : ble_lists_process_advertisement N L s adv t = some s') :
    table_ok N s'.neighbor_list := by
  rcases process_advertisement_cases N L s s' adv t h with hs | ⟨i, hp, hs⟩ | ⟨i, hp, hs⟩
    | ⟨j, hp, hj, hs⟩
  · rw [hs]; exact hok
  · have hi := (probe_place_post N _ _ hN0 hN i hp).1
    rw [hs, store_take_eq L _ i adv t (by rw [hok.length_eq]; exact hi)]
    have := store_fields_ok L (take_fields (s.neighbor_list.getD i default) adv.ble_address) adv t
      (take_fields_valid _ _)
    exact table_ok_set N _ i _ hok this.1 (fun _ => this.2.2)
  · have hpost := probe_matching_post N _ _ hN0 hN i hp
    rw [hs]
    have := store_fields_ok L (s.neighbor_list.getD i default) adv t
      (hok.valid_set i hpost.1 hpost.2.1)
    exact table_ok_set N _ i _ hok this.1 (fun _ => this.2.2)
  · have hi := find_oldest_index_lt N _ j hj
    rw [hs, store_take_eq L _ j adv t (by rw [hok.length_eq]; exact hi)]
    have := store_fields_ok L (take_fields (s.neighbor_list.getD j default) adv.ble_address) adv t
      (take_fields_valid _ _)
    exact table_ok_set N _ j _ hok this.1 (fun _ => this.2.2)

/-- The probe invariant survives the write of a new address to slot `e`, when
the new record is found by its own probe and no other non-empty slot holds
that address. -/
theorem probe_finds_set_new (N : Nat) (nl : List ble_lists_neighborlist_t) (e : Nat)
    (r : ble_lists_neighborlist_t) (a : List Nat) (he : e < nl.length)
    (hpf : probe_finds N nl) (hr : r.flags ≠ NLFLAGS_EMPTY)
    (hra : r.ble_address = memcpy_address a)
    (hself : probe N (nl.set e r) a (initial_index N a) N (initial_index N a)
      = some (.matching e))
    (hother : ∀ i, i < N → i ≠ e → (nl.getD i default).flags ≠ NLFLAGS_EMPTY →
      __ble_address_equal a (nl.getD i default).ble_address = false) :
    probe_finds N (nl.set e r) := by
  intro i hi hfi
  by_cases hie : e = i
  · subst hie
    rw [getD_set_same nl e r default he, hra]
    have hm : memcpy_address (memcpy_address a) = memcpy_address a := memcpy_address_idem a
    rw [probe_address_congr N _ _ _ _ hm, initial_index_congr N _ _ hm]
    exact hself
  · rw [getD_set_other nl e i r default hie] at hfi ⊢
    apply probe_matching_set N nl _ _ e i r (fun hc => hie hc.symm) hr
    · rw [hra, address_equal_memcpy, address_equal_symm]
      exact hother i hi (fun hc => hie hc.symm) hfi
    · exact hpf i hi hfi

theorem process_advertisement_probe_finds (N L : Nat) (s s' : State) (adv : Advertisement)
    (t : Nat) (hN0 : 0 < N) (hN : N ≤ 255) (hok : table_ok N s.neighbor_list)
    (hpf : probe_finds N s.neighbor_list)
    (h : ble_lists_process_advertisement N L s adv t = some s') :
    probe_finds N s'.neighbor_list := by
  have haa : __ble_address_equal adv.ble_address (memcpy_address adv.ble_address) = true := by
    rw [address_equal_iff, memcpy_address_idem]
  rcases process_advertisement_cases N L s s' adv t h with hs | ⟨e, hp, hs⟩ | ⟨i0, hp, hs⟩
    | ⟨j, hp, hj, hs⟩
  · rw [hs]; exact hpf
  · have hpost := probe_place_post N _ _ hN0 hN e hp
    have he : e < s.neighbor_list.length := by rw [hok.length_eq]; exact hpost.1
    rw [hs, store_take_eq L _ e adv t he]
    have hfl := store_fields_ok L (take_fields (s.neighbor_list.getD e default) adv.ble_address)
      adv t (take_fields_valid _ _)
    apply probe_finds_set_new N _ e _ adv.ble_address he hpf hfl.2.1 rfl
    · exact probe_place_set N _ _ _ e _ he hfl.2.1 haa _ _ hp
    · intro i hi _ hfi
      cases hc : __ble_address_equal adv.ble_address (s.neighbor_list.getD i default).ble_address
      · rfl
      · have hm := (address_equal_iff _ _).1 hc
        have := hpf i hi hfi
        rw [← probe_address_congr N _ _ _ _ hm, ← initial_index_congr N _ _ hm, hp] at this
        cases this
  · have hpost := probe_matching_post N _ _ hN0 hN i0 hp
    have hfl := store_fields_ok L (s.neighbor_list.getD i0 default) adv t
      (hok.valid_set i0 hpost.1 hpost.2.1)
    have hi0 : i0 < s.neighbor_list.length := by rw [hok.length_eq]; exact hpost.1
    rw [hs]
    unfold store_info
    intro i hi hfi
    rw [probe_set_congr N s.neighbor_list _ _ i0
      (store_fields L (s.neighbor_list.getD i0 default) adv t) rfl
      ⟨fun hc => absurd hc hfl.2.1, fun hc => absurd hc hpost.2.1⟩]
    by_cases hie : i0 = i
    · subst hie
      rw [getD_set_same _ i0 _ default hi0]
      exact hpf i0 hi hpost.2.1
    · rw [getD_set_other _ i0 i _ default hie] at hfi ⊢
      exact hpf i hi hfi
  · have hj' := find_oldest_index_lt N _ j hj
    have hjl : j < s.neighbor_list.length := by rw [hok.length_eq]; exact hj'
    have hpass := probe_list_full_passes N _ _ hN0 hN hp
    rw [hs, store_take_eq L _ j adv t hjl]
    have hfl := store_fields_ok L (take_fields (s.neighbor_list.getD j default) adv.ble_address)
      adv t (take_fields_valid _ _)
    apply probe_finds_set_new N _ j _ adv.ble_address hjl hpf hfl.2.1 rfl
    · obtain ⟨r, hr, _⟩ := probe_total N
        (s.neighbor_list.set j (store_fields L
          (take_fields (s.neighbor_list.getD j default) adv.ble_address) adv t))
        adv.ble_address hN0 hN
      cases r with
      | place i =>
        exfalso
        have hpost := probe_place_post N _ _ hN0 hN i hr
        by_cases hji : j = i
        · subst hji
          rw [getD_set_same _ j _ default hjl] at hpost
          exact hfl.2.1 hpost.2
        · rw [getD_set_other _ j i _ default hji] at hpost
          exact (hpass i hpost.1).1 hpost.2
      | matching i =>
        have hpost := probe_matching_post N _ _ hN0 hN i hr
        by_cases hji : j = i
        · subst hji; exact hr
        · exfalso
          rw [getD_set_other _ j i _ default hji] at hpost
          have := (hpass i hpost.1).2
          rw [hpost.2.2] at this
          cases this
      | list_full =>
        exfalso
        have := (probe_list_full_passes N _ _ hN0 hN hr j hj').2
        rw [getD_set_same _ j _ default hjl] at this
        have h2 : __ble_address_equal adv.ble_address
            (store_fields L (take_fields (s.neighbor_list.getD j default) adv.ble_address)
              adv t).ble_address = true := haa
        rw [h2] at this
        cases this
    · intro i hi _ _
      exact (hpass i hi).2

theorem or_helloed_ok (x : Nat) (hb : x < 256) (hv : x &&& NLFLAGS_VALID = NLFLAGS_VALID) :
    (x ||| NLFLAGS_HELLOED) % 256 < 256
    ∧ (x ||| NLFLAGS_HELLOED) % 256 ≠ NLFLAGS_EMPTY
    ∧ ((x ||| NLFLAGS_HELLOED) % 256) &&& NLFLAGS_VALID = NLFLAGS_VALID := by
  rw [valid_iff] at hv ⊢
  rw [show NLFLAGS_HELLOED = 64 from rfl, show NLFLAGS_EMPTY = 0 from rfl, or_64]
  omega

theorem hello_decision_candidate (nl : List ble_lists_neighborlist_t) (c : Nat) (r : Int)
    (t l : Nat) (h : hello_decision nl c r t l = true) : c ≠ NEIGHBOR_NONE := by
  unfold hello_decision at h
  split at h
  · assumption
  · cases h

/-- The ways a call of `ble_lists_choose_hello_neighbor` can end. -/
theorem choose_hello_cases (N : Nat) (s : State) (t cid : Nat) (nm : List Nat) :
    ((ble_lists_choose_hello_neighbor N s t cid nm).1 = s
      ∧ (ble_lists_choose_hello_neighbor N s t cid nm).2
        = { hello_found := false, hello_company_id := cid, hello_name := some nm })
    ∨ ((hello_scan N s.neighbor_list).1 ≠ NEIGHBOR_NONE
      ∧ (ble_lists_choose_hello_neighbor N s t cid nm).1 =
        { s with
          last_hello_time := t,
          neighbor_list := s.neighbor_list.set (hello_scan N s.neighbor_list).1
            (hello_fields (s.neighbor_list.getD (hello_scan N s.neighbor_list).1 default)) }
      ∧ (ble_lists_choose_hello_neighbor N s t cid nm).2.hello_found = true) := by
  unfold ble_lists_choose_hello_neighbor
  by_cases hd : hello_decision s.neighbor_list (hello_scan N s.neighbor_list).1
      (hello_scan N s.neighbor_list).2 t s.last_hello_time = true
  · right
    refine ⟨hello_decision_candidate _ _ _ _ _ hd, ?_, ?_⟩
    · simp only [hd, if_true]
    · simp only [hd, if_true]
  · left
    simp only [hd, if_false]
    exact ⟨rfl, rfl⟩

theorem choose_hello_table_ok (N : Nat) (s : State) (t cid : Nat) (nm : List Nat)
    (hok : table_ok N s.neighbor_list) :
    table_ok N (ble_lists_choose_hello_neighbor N s t cid nm).1.neighbor_list := by
  rcases choose_hello_cases N s t cid nm with ⟨h, _⟩ | ⟨hc, h, _⟩
  · rw [h]; exact hok
  · rw [h]
    rcases hello_scan_candidate N s.neighbor_list with hn | ⟨hlt, hne, _, _⟩
    · exact absurd hn hc
    · have := or_helloed_ok _ (hok.flags_byte _ hlt) (hok.valid_set _ hlt hne)
      exact table_ok_set N _ _ _ hok this.1 (fun _ => this.2.2)

theorem choose_hello_probe_finds (N : Nat) (s : State) (t cid : Nat) (nm : List Nat)
    (hok : table_ok N s.neighbor_list) (hpf : probe_finds N s.neighbor_list) :
    probe_finds N (ble_lists_choose_hello_neighbor N s t cid nm).1.neighbor_list := by
  rcases choose_hello_cases N s t cid nm with ⟨h, _⟩ | ⟨hc, h, _⟩
  · rw [h]; exact hpf
  · rw [h]
    rcases hello_scan_candidate N s.neighbor_list with hn | ⟨hlt, hne, _, _⟩
    · exact absurd hn hc
    · have hfl := or_helloed_ok _ (hok.flags_byte _ hlt) (hok.valid_set _ hlt hne)
      have hcl : (hello_scan N s.neighbor_list).1 < s.neighbor_list.length := by
        rw [hok.length_eq]; exact hlt
      intro i hi hfi
      simp only at hfi ⊢
      rw [probe_set_congr N s.neighbor_list _ _ (hello_scan N s.neighbor_list).1
        (hello_fields (s.neighbor_list.getD (hello_scan N s.neighbor_list).1 default)) rfl
        ⟨fun hc => absurd hc hfl.2.1, fun hc => absurd hc hne⟩]
      by_cases hie : (hello_scan N s.neighbor_list).1 = i
      · rw [← hie, getD_set_same _ _ _ default hcl]
        exact hpf _ hlt hne
      · rw [getD_set_other _ _ i _ default hie] at hfi ⊢
        exact hpf i hi hfi

theorem unhello_table_ok (N : Nat) (s : State) (rand8 : Nat)
    (hok : table_ok N s.neighbor_list) :
    table_ok N (ble_lists_randomly_unhello_neighbor N s rand8).neighbor_list := by
  unfold ble_lists_randomly_unhello_neighbor
  split
  · apply table_ok_set N _ _ _ hok
    · exact Nat.mod_lt _ (by norm_num)
    · intro hne
      exfalso
      apply hne
      show (_ &&& 0) % 256 = 0
      rw [Nat.and_zero]
  · exact hok

theorem step_table_ok (qsort : (Nat → Nat → Int) → List Nat → List Nat) (N L : Nat)
    (s s' : State) (op : Op) (hN0 : 0 < N) (hN : N ≤ 255) (hok : table_ok N s.neighbor_list)
    (h : step qsort N L s op = some s') : table_ok N s'.neighbor_list := by
  cases op with
  | advertise adv t => exact process_advertisement_table_ok N L s s' adv t hN0 hN hok h
  | survey f => cases h; exact hok
  | choose t => cases h; exact choose_hello_table_ok N s t 0 [] hok
  | unhello r => cases h; exact unhello_table_ok N s r hok

theorem step_probe_finds (qsort : (Nat → Nat → Int) → List Nat → List Nat) (N L : Nat)
    (s s' : State) (op : Op) (hN0 : 0 < N) (hN : N ≤ 255) (hop : op.is_unhello = false)
    (hok : table_ok N s.neighbor_list) (hpf : probe_finds N s.neighbor_list)
    (h : step qsort N L s op = some s') : probe_finds N s'.neighbor_list := by
  cases op with
  | advertise adv t => exact process_advertisement_probe_finds N L s s' adv t hN0 hN hok hpf h
  | survey f => cases h; exact hpf
  | choose t => cases h; exact choose_hello_probe_finds N s t 0 [] hok hpf
  | unhello r => cases hop

theorem run_table_ok (qsort : (Nat → Nat → Int) → List Nat → List Nat) (N L : Nat)
    (hN0 : 0 < N) (hN : N ≤ 255) (ops : List Op) :
    ∀ s s', table_ok N s.neighbor_list → run qsort N L s ops = some s' →
      table_ok N s'.neighbor_list := by
  induction ops with
  | nil => intro s s' hok h; cases h; exact hok
  | cons op ops ih =>
    intro s s' hok h
    unfold run at h
    split at h
    · cases h
    · rename_i s1 hs1
      exact ih s1 s' (step_table_ok qsort N L s s1 op hN0 hN hok hs1) h

theorem run_probe_finds (qsort : (Nat → Nat → Int) → List Nat → List Nat) (N L : Nat)
    (hN0 : 0 < N) (hN : N ≤ 255) (ops : List Op) :
    ∀ s s', (∀ op, op ∈ ops → op.is_unhello = false) →
      table_ok N s.neighbor_list → probe_finds N s.neighbor_list →
      run qsort N L s ops = some s' →
      table_ok N s'.neighbor_list ∧ probe_finds N s'.neighbor_list := by
  induction ops with
  | nil => intro s s' _ hok hpf h; cases h; exact ⟨hok, hpf⟩
  | cons op ops ih =>
    intro s s' hops hok hpf h
    unfold run at h
    split at h
    · cases h
    · rename_i s1 hs1
      exact ih s1 s' (fun o ho => hops o (List.mem_cons_of_mem _ ho))
        (step_table_ok qsort N L s s1 op hN0 hN hok hs1)
        (step_probe_finds qsort N L s s1 op hN0 hN (hops op (List.mem_cons_self _ _)) hok hpf hs1)
        h

theorem initial_state_table_ok (N L : Nat) : table_ok N (initial_state N L).neighbor_list :=
  table_ok_init N L

theorem initial_state_probe_finds (N L : Nat) :
    probe_finds N (initial_state N L).neighbor_list :=
  probe_finds_init N L

/-! ## Reachable states -/

theorem step_not_frozen (qsort : (Nat → Nat → Int) → List Nat → List Nat) (N L : Nat)
    (s s' : State) (op : Op) (hf : s.updates_frozen = false)
    (h : step qsort N L s op = some s') : s'.updates_frozen = false := by
  cases op with
  | advertise adv t =>
    simp only [step, ble_lists_process_advertisement, hf, Bool.false_eq_true, if_false] at h
    split at h
    · cases h
    · cases h; rfl
    · cases h; rfl
    · unfold list_full_case at h
      split at h
      · cases h; exact hf
      · split at h
        · cases h; exact hf
        · split at h
          · cases h
          · cases h; exact hf
  | survey f => cases h; rfl
  | choose t =>
    cases h
    rcases choose_hello_cases N s t 0 [] with ⟨h, _⟩ | ⟨_, h, _⟩
    · rw [h]; exact hf
    · rw [h]; exact hf
  | unhello r =>
    cases h
    unfold ble_lists_randomly_unhello_neighbor
    split
    · exact hf
    · exact hf

theorem run_not_frozen (qsort : (Nat → Nat → Int) → List Nat → List Nat) (N L : Nat)
    (ops : List Op) :
    ∀ s s', s.updates_frozen = false → run qsort N L s ops = some s' →
      s'.updates_frozen = false := by
  induction ops with
  | nil => intro s s' hf h; cases h; exact hf
  | cons op ops ih =>
    intro s s' hf h
    unfold run at h
    split at h
    · cases h
    · rename_i s1 hs1
      exact ih s1 s' (step_not_frozen qsort N L s s1 op hf hs1) h

/-- Without the random un-Hello, the probe invariant holds in every reachable
state, and with it the absence of duplicate addresses. -/
theorem reachable_without_unhello (qsort : (Nat → Nat → Int) → List Nat → List Nat) (N L : Nat)
    (hN0 : 0 < N) (hN : N ≤ 255) (ops : List Op) (s : State)
    (hops : ∀ op, op ∈ ops → op.is_unhello = false)
    (hrun : run qsort N L (initial_state N L) ops = some s) :
    s.updates_frozen = false ∧ table_ok N s.neighbor_list ∧ probe_finds N s.neighbor_list
      ∧ no_duplicates N s.neighbor_list := by
  have h1 := run_not_frozen qsort N L ops _ s rfl hrun
  have h2 := run_probe_finds qsort N L hN0 hN ops _ s hops (initial_state_table_ok N L)
    (initial_state_probe_finds N L) hrun
  exact ⟨h1, h2.1, h2.2, no_duplicates_of_probe_finds N _ h2.2⟩

theorem occupancy_set (nl : List ble_lists_neighborlist_t) (i : Nat)
    (r : ble_lists_neighborlist_t) (hi : i < nl.length)
    (h1 : (nl.getD i default).flags ≠ NLFLAGS_EMPTY) (h2 : r.flags ≠ NLFLAGS_EMPTY) :
    occupancy (nl.set i r) = occupancy nl := by
  unfold occupancy
  rw [List.countP_set _ _ _ _ hi]
  have hget : nl.getD i default = nl[i] := List.getD_eq_getElem _ _ hi
  rw [hget] at h1
  have hle := List.boole_getElem_le_countP (fun r => r.flags != NLFLAGS_EMPTY) nl i hi
  simp only [bne_iff_ne, ne_eq, h1, h2, not_false_eq_true, if_true] at hle ⊢
  omega

/-- C2: in a state reached from `ble_lists_init` by calls other than the random
un-Hello (advertisements and Hello selections in particular), an advertisement
whose address is held by the non-empty slot `i` is stored in that slot: the call
returns, the new table is the old one with slot `i` rewritten by the five final
stores, every other slot and every other variable is unchanged, and the number
of non-empty slots is the same. -/
theorem C2_repeat_address_updates_in_place
    (qsort : (Nat → Nat → Int) → List Nat → List Nat) (N L : Nat) (ops : List Op) (s : State)
    (adv : Advertisement) (t i : Nat)
    (hN0 : 0 < N) (hN : N ≤ 255)
    (hops : ∀ op, op ∈ ops → op.is_unhello = false)
    (hrun : run qsort N L (initial_state N L) ops = some s)
    (hi : i < N) (hfl : (s.neighbor_list.getD i default).flags ≠ NLFLAGS_EMPTY)
    (haddr : __ble_address_equal adv.ble_address (s.neighbor_list.getD i default).ble_address
      = true) :
    ble_lists_process_advertisement N L s adv t
        = some { s with
            neighbor_list :=
              s.neighbor_list.set i (store_fields L (s.neighbor_list.getD i default) adv t) }
      ∧ (∀ j, j ≠ i →
          (s.neighbor_list.set i (store_fields L (s.neighbor_list.getD i default) adv t)).getD j
            default = s.neighbor_list.getD j default)
      ∧ occupancy (s.neighbor_list.set i (store_fields L (s.neighbor_list.getD i default) adv t))
          = occupancy s.neighbor_list := by
  obtain ⟨hf, hok, hpf, _⟩ := reachable_without_unhello qsort N L hN0 hN ops s hops hrun
  have hm := (address_equal_iff _ _).1 haddr
  have hp := hpf i hi hfl
  rw [← probe_address_congr N _ _ _ _ hm, ← initial_index_congr N _ _ hm] at hp
  refine ⟨?_, ?_, ?_⟩
  · unfold ble_lists_process_advertisement
    rw [hf, hp]
    rfl
  · intro j hj
    exact getD_set_other _ i j _ default (fun hc => hj hc.symm)
  · exact occupancy_set _ i _ (by rw [hok.length_eq]; exact hi) hfl
      (store_fields_ok L _ adv t (hok.valid_set i hi hfl)).2.1

theorem C2_repeat_address_witness :
    ble_lists_process_advertisement 2 4 two_badges_state badge_b_again 3000
        = some { two_badges_state with
            neighbor_list := two_badges_state.neighbor_list.set 1
              (store_fields 4 (two_badges_state.neighbor_list.getD 1 default) badge_b_again 3000) }
      ∧ (∀ j, j ≠ 1 →
          (two_badges_state.neighbor_list.set 1
            (store_fields 4 (two_badges_state.neighbor_list.getD 1 default) badge_b_again 3000)
            ).getD j default = two_badges_state.neighbor_list.getD j default)
      ∧ occupancy (two_badges_state.neighbor_list.set 1
            (store_fields 4 (two_badges_state.neighbor_list.getD 1 default) badge_b_again 3000))
          = occupancy two_badges_state.neighbor_list :=
  C2_repeat_address_updates_in_place insertion_qsort 2 4
    [.advertise badge_a 1000, .advertise badge_b 2000, .choose 2500]
    two_badges_state badge_b_again 3000 1
    (by decide) (by decide) (by decide) (by decide) (by decide) (by decide) (by decide)

/-- C3 (the code does not keep the property): after two badges that collide on
slot 0 are recorded, a random un-Hello that picks slot 0 zeroes its whole flags
byte, so the slot counts as empty, and the next advertisement of the second
badge is stored there as well: slots 0 and 1 then hold the same address. -/
theorem C3_duplicate_after_unhello :
    run insertion_qsort 2 4 (initial_state 2 4)
        [.advertise badge_a 1000, .advertise badge_b 2000, .unhello 0, .advertise badge_b 3000]
      = some (state_after 2 4
        [.advertise badge_a 1000, .advertise badge_b 2000, .unhello 0, .advertise badge_b 3000])
    ∧ ¬ no_duplicates 2 (state_after 2 4
        [.advertise badge_a 1000, .advertise badge_b 2000, .unhello 0, .advertise badge_b 3000]
        ).neighbor_list := by
  refine ⟨by decide, ?_⟩
  intro h
  have := h 0 1 (by decide) (by decide) (by decide) (by decide) (by decide)
  exact absurd this (by decide)

/-! ## Sequences of advertisements and Hello selections -/

theorem run_append (qsort : (Nat → Nat → Int) → List Nat → List Nat) (N L : Nat)
    (ops : List Op) (op : Op) :
    ∀ s, run qsort N L s (ops ++ [op])
      = match run qsort N L s ops with
        | some s1 => step qsort N L s1 op
        | none => none := by
  induction ops with
  | nil =>
    intro s
    simp only [List.nil_append, run]
    cases step qsort N L s op <;> rfl
  | cons o ops ih =>
    intro s
    rw [List.cons_append]
    simp only [run]
    cases step qsort N L s o with
    | none => rfl
    | some s1 => exact ih s1

theorem hello_log_append (qsort : (Nat → Nat → Int) → List Nat → List Nat) (N L : Nat)
    (ops : List Op) (op : Op) :
    ∀ s s1, run qsort N L s ops = some s1 →
      hello_log qsort N L s (ops ++ [op])
        = hello_log qsort N L s ops ++ hello_selected N s1 op := by
  induction ops with
  | nil =>
    intro s s1 h
    cases h
    simp only [List.nil_append, hello_log]
    cases step qsort N L s op <;> simp
  | cons o ops ih =>
    intro s s1 h
    rw [List.cons_append]
    simp only [hello_log, run] at h ⊢
    cases hs : step qsort N L s o with
    | none => rw [hs] at h; cases h
    | some s2 =>
      rw [hs] at h
      simp only [ih s2 s1 h, List.append_assoc]

theorem last_advertisement_append (a : List Nat) (ops : List Op) (op : Op) :
    last_advertisement a (ops ++ [op])
      = match advertised a op with
        | some x => some x
        | none => last_advertisement a ops := by
  induction ops with
  | nil =>
    simp only [List.nil_append, last_advertisement]
    cases advertised a op <;> rfl
  | cons o ops ih =>
    rw [List.cons_append]
    simp only [last_advertisement, ih]
    cases advertised a op with
    | some x => rfl
    | none => rfl

theorem advertised_congr (a b : List Nat) (op : Op) (h : memcpy_address a = memcpy_address b) :
    advertised a op = advertised b op := by
  cases op with
  | advertise adv t => simp only [advertised, address_equal_congr a b _ h]
  | survey f => rfl
  | choose t => rfl
  | unhello r => rfl

theorem last_advertisement_congr (a b : List Nat) (ops : List Op)
    (h : memcpy_address a = memcpy_address b) :
    last_advertisement a ops = last_advertisement b ops := by
  induction ops with
  | nil => rfl
  | cons o ops ih => simp only [last_advertisement, ih, advertised_congr a b o h]

theorem advertised_some (a : List Nat) (op : Op) (adv : Advertisement) (t : Nat)
    (h : advertised a op = some (adv, t)) :
    op = .advertise adv t ∧ __ble_address_equal a adv.ble_address = true := by
  cases op with
  | advertise adv' t' =>
    simp only [advertised] at h
    split at h
    · rename_i heq
      cases h
      exact ⟨rfl, heq⟩
    · cases h
  | survey f => cases h
  | choose t => cases h
  | unhello r => cases h

theorem last_advertisement_some (a : List Nat) (ops : List Op) (adv : Advertisement) (t : Nat)
    (h : last_advertisement a ops = some (adv, t)) :
    Op.advertise adv t ∈ ops ∧ __ble_address_equal a adv.ble_address = true := by
  induction ops with
  | nil => cases h
  | cons o ops ih =>
    simp only [last_advertisement] at h
    cases hl : last_advertisement a ops with
    | some x =>
      rw [hl] at h
      cases h
      exact ⟨List.mem_cons_of_mem _ (ih hl).1, (ih hl).2⟩
    | none =>
      rw [hl] at h
      have := advertised_some a o adv t h
      exact ⟨by rw [this.1]; exact List.mem_cons_self _ _, this.2⟩

theorem mem_advertised_addresses (ops : List Op) (adv : Advertisement) (t : Nat)
    (h : Op.advertise adv t ∈ ops) :
    memcpy_address adv.ble_address ∈ advertised_addresses ops := by
  induction ops with
  | nil => cases h
  | cons o ops ih =>
    rcases List.mem_cons.1 h with h1 | h1
    · subst h1
      exact List.mem_cons_self _ _
    · cases o with
      | advertise adv' t' => exact List.mem_cons_of_mem _ (ih h1)
      | survey f => exact ih h1
      | choose t => exact ih h1
      | unhello r => exact ih h1

theorem advertised_addresses_append (ops : List Op) (op : Op) :
    advertised_addresses (ops ++ [op]) = advertised_addresses ops ++ advertised_addresses [op] := by
  induction ops with
  | nil => rfl
  | cons o ops ih =>
    cases o with
    | advertise adv' t' => rw [List.cons_append]; simp only [advertised_addresses, ih]; try rfl
    | survey f => rw [List.cons_append]; simp only [advertised_addresses, ih]; try rfl
    | choose t => rw [List.cons_append]; simp only [advertised_addresses, ih]; try rfl
    | unhello r => rw [List.cons_append]; simp only [advertised_addresses, ih]; try rfl

theorem distinct_addresses_mono (ops : List Op) (op : Op) :
    distinct_addresses ops ≤ distinct_addresses (ops ++ [op]) := by
  unfold distinct_addresses
  rw [advertised_addresses_append]
  apply List.Subperm.length_le
  apply List.subperm_of_subset (List.nodup_dedup _)
  intro x hx
  rw [List.mem_dedup] at hx ⊢
  exact List.mem_append_left _ hx

theorem cstr_strncpy (src : List Nat) (n : Nat) (h : (cstr src).length < n) :
    cstr (strncpy src n) = cstr src := by
  unfold strncpy
  rw [List.take_of_length_le (Nat.le_of_lt h)]
  obtain ⟨k, hk⟩ : ∃ k, n - (cstr src).length = k + 1 := ⟨n - (cstr src).length - 1, by omega⟩
  rw [hk, List.replicate_succ]
  unfold cstr
  have hall : ∀ a ∈ List.takeWhile (fun c => c != 0) src, (a != 0) = true :=
    fun a ha => @List.mem_takeWhile_imp _ (fun c => c != 0) src a ha
  rw [List.takeWhile_append_of_pos hall]
  simp

theorem address_equal_refl (a : List Nat) : __ble_address_equal a a = true :=
  (address_equal_iff a a).2 rfl

/-- A full table without the new address means one more distinct address than
there are slots. -/
theorem full_table_distinct (N L : Nat) (ops : List Op) (log : List (List Nat))
    (nl : List ble_lists_neighborlist_t) (adv : Advertisement) (t : Nat)
    (hnd : no_duplicates N nl) (htr : tracks N L ops log nl)
    (hpass : ∀ i, i < N → passes nl adv.ble_address i) :
    N + 1 ≤ distinct_addresses (ops ++ [.advertise adv t]) := by
  have hnorm : ∀ i, i < N →
      memcpy_address (nl.getD i default).ble_address = (nl.getD i default).ble_address := by
    intro i hi
    obtain ⟨a, _, _, ha, _⟩ := htr.slots i hi (hpass i hi).1
    rw [ha, memcpy_address_idem]
  have hnew : memcpy_address adv.ble_address
      ∉ (List.range N).map (fun i => (nl.getD i default).ble_address) := by
    intro hc
    obtain ⟨i, hi, heq⟩ := List.mem_map.1 hc
    have hi' : i < N := List.mem_range.1 hi
    have h1 : __ble_address_equal adv.ble_address (nl.getD i default).ble_address = true := by
      rw [address_equal_iff, heq, memcpy_address_idem]
    rw [(hpass i hi').2] at h1
    cases h1
  have hS : ((List.range N).map (fun i => (nl.getD i default).ble_address)).Nodup := by
    apply List.Nodup.map_on _ (List.nodup_range N)
    intro i hi j hj heq
    have hi' : i < N := List.mem_range.1 hi
    have hj' : j < N := List.mem_range.1 hj
    exact hnd i j hi' hj' (hpass i hi').1 (hpass j hj').1
      ((address_equal_iff _ _).2 (by rw [heq]))
  have hnodup : (memcpy_address adv.ble_address
      :: (List.range N).map (fun i => (nl.getD i default).ble_address)).Nodup :=
    List.nodup_cons.2 ⟨hnew, hS⟩
  have hsub : (memcpy_address adv.ble_address
      :: (List.range N).map (fun i => (nl.getD i default).ble_address))
      ⊆ (advertised_addresses (ops ++ [.advertise adv t])).dedup := by
    intro x hx
    rw [List.mem_dedup, advertised_addresses_append]
    rcases List.mem_cons.1 hx with h1 | h1
    · rw [h1]
      exact List.mem_append_right _ (List.mem_cons_self _ _)
    · obtain ⟨i, hi, heq⟩ := List.mem_map.1 h1
      have hi' : i < N := List.mem_range.1 hi
      obtain ⟨a, ta, hla, ha, _⟩ := htr.slots i hi' (hpass i hi').1
      rw [← heq, ha]
      exact List.mem_append_left _
        (mem_advertised_addresses ops a ta (last_advertisement_some _ ops a ta hla).1)
  have := (List.subperm_of_subset hnodup hsub).length_le
  simpa [distinct_addresses] using this

/-- The bookkeeping survives the store of an advertisement in slot `x`, which
was empty or held the same address, while no other slot holds that address. -/
theorem tracks_set (N L : Nat) (ops : List Op) (log : List (List Nat))
    (nl : List ble_lists_neighborlist_t) (x : Nat) (r : ble_lists_neighborlist_t)
    (adv : Advertisement) (t : Nat) (hlen : nl.length = N) (hxN : x < N)
    (htr : tracks N L ops log nl)
    (hne : r.flags ≠ NLFLAGS_EMPTY)
    (haddr : r.ble_address = memcpy_address adv.ble_address)
    (hname : r.name = strncpy adv.name L) (hrssi : r.rssi = adv.rssi)
    (hcid : r.company_id = adv.company_id) (hflags : r.flags % 64 = adv.flags % 64)
    (hhello : r.flags / 64 % 2 = 1 →
      (nl.getD x default).flags ≠ NLFLAGS_EMPTY ∧ (nl.getD x default).flags / 64 % 2 = 1)
    (hold : (nl.getD x default).flags ≠ NLFLAGS_EMPTY →
      (nl.getD x default).ble_address = r.ble_address)
    (hother : ∀ i, i < N → i ≠ x → (nl.getD i default).flags ≠ NLFLAGS_EMPTY →
      __ble_address_equal (nl.getD i default).ble_address adv.ble_address = false) :
    tracks N L (ops ++ [.advertise adv t]) log (nl.set x r) := by
  have hx : x < nl.length := by rw [hlen]; exact hxN
  have hself : __ble_address_equal r.ble_address adv.ble_address = true := by
    rw [haddr, address_equal_iff, memcpy_address_idem]
  refine ⟨?_, ?_, ?_⟩
  · intro i hi hfi
    by_cases hix : x = i
    · subst hix
      rw [getD_set_same nl x r default hx]
      refine ⟨adv, t, ?_, haddr, hname, hrssi, hcid, hflags⟩
      rw [last_advertisement_append]
      simp only [advertised, hself, if_true]
    · rw [getD_set_other nl x i r default hix] at hfi ⊢
      obtain ⟨a, ta, hla, hrest⟩ := htr.slots i hi hfi
      refine ⟨a, ta, ?_, hrest⟩
      rw [last_advertisement_append]
      simp only [advertised, hother i hi (fun hc => hix hc.symm) hfi, Bool.false_eq_true,
        if_false]
      exact hla
  · intro a' x' hla
    rw [last_advertisement_append] at hla
    cases hadv : advertised a' (.advertise adv t) with
    | some y =>
      have hy := advertised_some a' (.advertise adv t) y.1 y.2 hadv
      have hm := (address_equal_iff _ _).1 hy.2
      cases hy.1
      exact ⟨x, hxN, by rw [getD_set_same nl x r default hx]; exact hne,
        by rw [getD_set_same nl x r default hx, haddr, hm]⟩
    | none =>
      rw [hadv] at hla
      obtain ⟨i, hi, hfi, hai⟩ := htr.present a' x' hla
      by_cases hix : x = i
      · subst hix
        exact ⟨x, hi, by rw [getD_set_same nl x r default hx]; exact hne,
          by rw [getD_set_same nl x r default hx, ← hold hfi]; exact hai⟩
      · exact ⟨i, hi, by rw [getD_set_other nl x i r default hix]; exact hfi,
          by rw [getD_set_other nl x i r default hix]; exact hai⟩
  · intro i hi hfi hbit
    by_cases hix : x = i
    · subst hix
      rw [getD_set_same nl x r default hx] at hfi hbit ⊢
      have := hhello hbit
      rw [← hold this.1]
      exact htr.helloed x hi this.1 this.2
    · rw [getD_set_other nl x i r default hix] at hfi hbit ⊢
      exact htr.helloed i hi hfi hbit

theorem store_fields_bits (L : Nat) (r : ble_lists_neighborlist_t) (adv : Advertisement)
    (t : Nat) :
    (store_fields L r adv t).flags % 64 = adv.flags % 64
    ∧ (store_fields L r adv t).flags / 64 % 2 = r.flags / 64 % 2
    ∧ (store_fields L r adv t).flags / 128 % 2 = r.flags / 128 % 2 := by
  rw [store_fields_flags]
  omega

/-- One more advertisement, while the distinct addresses fit the table: the call
returns and the bookkeeping holds for the longer sequence. -/
theorem tracks_advertise (N L : Nat) (ops : List Op) (log : List (List Nat)) (s : State)
    (adv : Advertisement) (t : Nat) (hN0 : 0 < N) (hN : N ≤ 255)
    (hf : s.updates_frozen = false) (hok : table_ok N s.neighbor_list)
    (hpf : probe_finds N s.neighbor_list) (htr : tracks N L ops log s.neighbor_list)
    (hd : distinct_addresses (ops ++ [.advertise adv t]) ≤ N) :
    ∃ s', ble_lists_process_advertisement N L s adv t = some s'
      ∧ tracks N L (ops ++ [.advertise adv t]) log s'.neighbor_list := by
  obtain ⟨r, hr, _⟩ := probe_total N s.neighbor_list adv.ble_address hN0 hN
  have hnd := no_duplicates_of_probe_finds N _ hpf
  cases r with
  | place e =>
    have hpost := probe_place_post N _ _ hN0 hN e hr
    have he : e < s.neighbor_list.length := by rw [hok.length_eq]; exact hpost.1
    refine ⟨_, by unfold ble_lists_process_advertisement; rw [hf, hr]; rfl, ?_⟩
    show tracks N L _ log (store_info L (take_slot s.neighbor_list e adv.ble_address) e adv t)
    rw [store_take_eq L _ e adv t he]
    have hfl := store_take_fields_flags L (s.neighbor_list.getD e default) adv t
    apply tracks_set N L ops log _ e _ adv t hok.length_eq hpost.1 htr
    · rw [hfl, show NLFLAGS_EMPTY = 0 from rfl]; omega
    · rfl
    · rfl
    · rfl
    · rfl
    · rw [hfl]; omega
    · intro hb; rw [hfl] at hb; omega
    · intro hc; exact absurd hpost.2 hc
    · intro i hi _ hfi
      cases hc : __ble_address_equal (s.neighbor_list.getD i default).ble_address adv.ble_address
      · rfl
      · have hm := (address_equal_iff _ _).1 hc
        have := hpf i hi hfi
        rw [probe_address_congr N _ _ _ _ hm, initial_index_congr N _ _ hm, hr] at this
        cases this
  | matching i0 =>
    have hpost := probe_matching_post N _ _ hN0 hN i0 hr
    refine ⟨_, by unfold ble_lists_process_advertisement; rw [hf, hr]; rfl, ?_⟩
    show tracks N L _ log (store_info L s.neighbor_list i0 adv t)
    unfold store_info
    have hbits := store_fields_bits L (s.neighbor_list.getD i0 default) adv t
    have hv := (valid_iff _).1 (hok.valid_set i0 hpost.1 hpost.2.1)
    obtain ⟨a0, _, _, ha0, _⟩ := htr.slots i0 hpost.1 hpost.2.1
    have hm : memcpy_address adv.ble_address = (s.neighbor_list.getD i0 default).ble_address := by
      rw [(address_equal_iff _ _).1 hpost.2.2, ha0, memcpy_address_idem]
    apply tracks_set N L ops log _ i0 _ adv t hok.length_eq hpost.1 htr
    · rw [show NLFLAGS_EMPTY = 0 from rfl]; omega
    · exact hm.symm
    · rfl
    · rfl
    · rfl
    · exact hbits.1
    · intro hb; exact ⟨hpost.2.1, by omega⟩
    · intro _; rfl
    · intro i hi hne hfi
      cases hc : __ble_address_equal (s.neighbor_list.getD i default).ble_address adv.ble_address
      · rfl
      · exfalso
        apply hne
        apply hnd i i0 hi hpost.1 hfi hpost.2.1
        rw [address_equal_iff] at hc ⊢
        rw [hc, (address_equal_iff _ _).1 hpost.2.2]
  | list_full =>
    exfalso
    have hpass := probe_list_full_passes N _ _ hN0 hN hr
    have := full_table_distinct N L ops log _ adv t hnd htr hpass
    omega

theorem hello_fields_bits (r : ble_lists_neighborlist_t) :
    (hello_fields r).flags % 64 = r.flags % 64 := by
  show (r.flags ||| 64) % 256 % 64 = r.flags % 64
  rw [or_64]
  omega

theorem last_advertisement_choose (a : List Nat) (ops : List Op) (t : Nat) :
    last_advertisement a (ops ++ [.choose t]) = last_advertisement a ops := by
  rw [last_advertisement_append]
  rfl

/-- One more Hello selection: the bookkeeping holds for the longer sequence, with
the selected address added to the log. -/
theorem tracks_choose (N L : Nat) (ops : List Op) (log : List (List Nat)) (s : State) (t : Nat)
    (hok : table_ok N s.neighbor_list) (htr : tracks N L ops log s.neighbor_list) :
    tracks N L (ops ++ [.choose t]) (log ++ hello_selected N s (.choose t))
      (ble_lists_choose_hello_neighbor N s t 0 []).1.neighbor_list := by
  rcases choose_hello_cases N s t 0 [] with ⟨h, _⟩ | ⟨hc, h, hfound⟩
  · rw [h]
    refine ⟨?_, ?_, ?_⟩
    · intro i hi hfi
      obtain ⟨a, ta, hla, hrest⟩ := htr.slots i hi hfi
      exact ⟨a, ta, by rw [last_advertisement_choose]; exact hla, hrest⟩
    · intro a x hla
      rw [last_advertisement_choose] at hla
      exact htr.present a x hla
    · intro i hi hfi hbit
      exact List.mem_append_left _ (htr.helloed i hi hfi hbit)
  · rw [h]
    rcases hello_scan_candidate N s.neighbor_list with hn | ⟨hlt, hne, _, _⟩
    · exact absurd hn hc
    · have hcl : (hello_scan N s.neighbor_list).1 < s.neighbor_list.length := by
        rw [hok.length_eq]; exact hlt
      have hfl := or_helloed_ok _ (hok.flags_byte _ hlt) (hok.valid_set _ hlt hne)
      have hsel : hello_selected N s (.choose t)
          = [(s.neighbor_list.getD (hello_scan N s.neighbor_list).1 default).ble_address] := by
        simp only [hello_selected, hfound, if_true]
      refine ⟨?_, ?_, ?_⟩
      · intro i hi hfi
        simp only at hfi ⊢
        by_cases hie : (hello_scan N s.neighbor_list).1 = i
        · rw [← hie, getD_set_same _ _ _ default hcl]
          obtain ⟨a, ta, hla, h1, h2, h3, h4, h5⟩ := htr.slots _ hlt hne
          exact ⟨a, ta, by rw [last_advertisement_choose]; exact hla, h1, h2, h3, h4,
            by rw [hello_fields_bits]; exact h5⟩
        · rw [getD_set_other _ _ i _ default hie] at hfi ⊢
          obtain ⟨a, ta, hla, hrest⟩ := htr.slots i hi hfi
          exact ⟨a, ta, by rw [last_advertisement_choose]; exact hla, hrest⟩
      · intro a x hla
        rw [last_advertisement_choose] at hla
        obtain ⟨i, hi, hfi, hai⟩ := htr.present a x hla
        simp only
        by_cases hie : (hello_scan N s.neighbor_list).1 = i
        · refine ⟨i, hi, ?_, ?_⟩
          · rw [← hie, getD_set_same _ _ _ default hcl]; exact hfl.2.1
          · rw [← hie, getD_set_same _ _ _ default hcl]; rw [← hie] at hai; exact hai
        · exact ⟨i, hi, by rw [getD_set_other _ _ i _ default hie]; exact hfi,
            by rw [getD_set_other _ _ i _ default hie]; exact hai⟩
      · intro i hi hfi hbit
        simp only at hfi hbit ⊢
        by_cases hie : (hello_scan N s.neighbor_list).1 = i
        · rw [← hie, getD_set_same _ _ _ default hcl, hsel]
          exact List.mem_append_right _ (List.mem_singleton.2 rfl)
        · rw [getD_set_other _ _ i _ default hie] at hfi hbit ⊢
          exact List.mem_append_left _ (htr.helloed i hi hfi hbit)

theorem tracks_initial (N L : Nat) : tracks N L [] [] (initial_state N L).neighbor_list := by
  have slot : ∀ k, k < N → ((initial_state N L).neighbor_list.getD k default).flags = 0 := by
    intro k hk
    show ((List.replicate N (zero_neighbor L)).getD k default).flags = 0
    simp [List.getD_eq_getElem?_getD, List.getElem?_replicate, hk, zero_neighbor]
  refine ⟨?_, ?_, ?_⟩
  · intro i hi h; exact absurd (slot i hi) h
  · intro a x h; cases h
  · intro i hi h; exact absurd (slot i hi) h

/-- A sequence of advertisements and Hello selections whose distinct addresses
fit the table runs to the end, and the table tracks it. -/
theorem advertise_choose_run (qsort : (Nat → Nat → Int) → List Nat → List Nat) (N L : Nat)
    (hN0 : 0 < N) (hN : N ≤ 255) (ops : List Op) :
    (∀ op, op ∈ ops → op.is_advertise_or_choose = true) → distinct_addresses ops ≤ N →
    ∃ s, run qsort N L (initial_state N L) ops = some s
      ∧ s.updates_frozen = false ∧ table_ok N s.neighbor_list ∧ probe_finds N s.neighbor_list
      ∧ tracks N L ops (hello_log qsort N L (initial_state N L) ops) s.neighbor_list := by
  induction ops using List.reverseRecOn with
  | nil =>
    intro _ _
    exact ⟨initial_state N L, rfl, rfl, initial_state_table_ok N L,
      initial_state_probe_finds N L, tracks_initial N L⟩
  | append_singleton ops op ih =>
    intro hops hd
    obtain ⟨s, hrun, hf, hok, hpf, htr⟩ :=
      ih (fun o ho => hops o (List.mem_append_left _ ho))
        (Nat.le_trans (distinct_addresses_mono ops op) hd)
    have hop := hops op (List.mem_append_right _ (List.mem_singleton.2 rfl))
    have hrun' := run_append qsort N L ops op (initial_state N L)
    rw [hrun] at hrun'
    have hlog := hello_log_append qsort N L ops op (initial_state N L) s hrun
    cases op with
    | advertise adv t =>
      obtain ⟨s', hs', htr'⟩ := tracks_advertise N L ops _ s adv t hN0 hN hf hok hpf htr hd
      have hstep : step qsort N L s (.advertise adv t) = some s' := hs'
      refine ⟨s', by rw [hrun']; exact hstep, step_not_frozen qsort N L s s' _ hf hstep,
        step_table_ok qsort N L s s' _ hN0 hN hok hstep,
        step_probe_finds qsort N L s s' (.advertise adv t) hN0 hN rfl hok hpf hstep, ?_⟩
      rw [hlog]
      simpa [hello_selected] using htr'
    | choose t =>
      have hstep : step qsort N L s (.choose t)
          = some (ble_lists_choose_hello_neighbor N s t 0 []).1 := rfl
      refine ⟨_, by rw [hrun']; exact hstep, step_not_frozen qsort N L s _ _ hf hstep,
        step_table_ok qsort N L s _ _ hN0 hN hok hstep,
        step_probe_finds qsort N L s _ (.choose t) hN0 hN rfl hok hpf hstep, ?_⟩
      rw [hlog]
      exact tracks_choose N L ops _ s t hok htr
    | survey f => cases hop
    | unhello r => cases hop

/-- C1: a sequence of advertisements, with Hello selections in between, starting
from `ble_lists_init`, whose number of distinct addresses does not exceed
`NEIGHBOR_LIST_SIZE` and whose names are shorter than `SETTING_NAME_LENGTH`,
runs to the end, and every address that was advertised is then held by a
non-empty slot whose name, rssi, company_id and low six flag bits are those of
the most recent advertisement of that address; the slot's Helloed bit is clear
unless a Hello selection of the sequence selected that address. -/
theorem C1_advertised_addresses_retrievable
    (qsort : (Nat → Nat → Int) → List Nat → List Nat) (N L : Nat) (ops : List Op)
    (hN0 : 0 < N) (hN : N ≤ 255)
    (hops : ∀ op, op ∈ ops → op.is_advertise_or_choose = true)
    (hd : distinct_addresses ops ≤ N)
    (hnames : ∀ op, op ∈ ops → op.name_length < L) :
    ∃ s, run qsort N L (initial_state N L) ops = some s
      ∧ ∀ a adv t, last_advertisement a ops = some (adv, t) →
        ∃ i, i < N
          ∧ (s.neighbor_list.getD i default).flags ≠ NLFLAGS_EMPTY
          ∧ __ble_address_equal a (s.neighbor_list.getD i default).ble_address = true
          ∧ cstr (s.neighbor_list.getD i default).name = cstr adv.name
          ∧ (s.neighbor_list.getD i default).rssi = adv.rssi
          ∧ (s.neighbor_list.getD i default).company_id = adv.company_id
          ∧ (s.neighbor_list.getD i default).flags &&& NLFLAGS_UPDATE_MASK
              = adv.flags &&& NLFLAGS_UPDATE_MASK
          ∧ ((s.neighbor_list.getD i default).ble_address
                ∉ hello_log qsort N L (initial_state N L) ops →
              (s.neighbor_list.getD i default).flags &&& NLFLAGS_HELLOED = 0) := by
  obtain ⟨s, hrun, _, _, _, htr⟩ := advertise_choose_run qsort N L hN0 hN ops hops hd
  refine ⟨s, hrun, ?_⟩
  intro a adv t hla
  obtain ⟨i, hi, hfi, hai⟩ := htr.present a _ hla
  obtain ⟨adv', t', hla', _, hname, hrssi, hcid, hflags⟩ := htr.slots i hi hfi
  have hm : memcpy_address (s.neighbor_list.getD i default).ble_address = memcpy_address a := by
    rw [hai, memcpy_address_idem]
  rw [last_advertisement_congr _ _ ops hm, hla] at hla'
  cases hla'
  have hlen := hnames _ (last_advertisement_some a ops adv t hla).1
  refine ⟨i, hi, hfi, (address_equal_iff _ _).2 hm.symm, ?_, hrssi, hcid, ?_, ?_⟩
  · rw [hname]; exact cstr_strncpy _ _ hlen
  · rw [show NLFLAGS_UPDATE_MASK = 63 from rfl, and_63, and_63]; exact hflags
  · intro hnot
    rw [helloed_iff]
    rcases Nat.mod_two_eq_zero_or_one ((s.neighbor_list.getD i default).flags / 64) with h0 | h1
    · exact h0
    · exact absurd (htr.helloed i hi hfi h1) hnot

theorem C1_advertised_addresses_witness :
    ∃ s, run insertion_qsort 2 4 (initial_state 2 4) two_badges_calls = some s
      ∧ ∀ a adv t, last_advertisement a two_badges_calls = some (adv, t) →
        ∃ i, i < 2
          ∧ (s.neighbor_list.getD i default).flags ≠ NLFLAGS_EMPTY
          ∧ __ble_address_equal a (s.neighbor_list.getD i default).ble_address = true
          ∧ cstr (s.neighbor_list.getD i default).name = cstr adv.name
          ∧ (s.neighbor_list.getD i default).rssi = adv.rssi
          ∧ (s.neighbor_list.getD i default).company_id = adv.company_id
          ∧ (s.neighbor_list.getD i default).flags &&& NLFLAGS_UPDATE_MASK
              = adv.flags &&& NLFLAGS_UPDATE_MASK
          ∧ ((s.neighbor_list.getD i default).ble_address
                ∉ hello_log insertion_qsort 2 4 (initial_state 2 4) two_badges_calls →
              (s.neighbor_list.getD i default).flags &&& NLFLAGS_HELLOED = 0) :=
  C1_advertised_addresses_retrievable insertion_qsort 2 4 two_badges_calls
    (by decide) (by decide) (by decide) (by decide) (by decide)

/-! ## The full table -/

theorem process_advertisement_full (N L : Nat) (s : State) (adv : Advertisement) (t : Nat)
    (hN0 : 0 < N) (hN : N ≤ 255) (hf : s.updates_frozen = false)
    (hpass : ∀ i, i < N → passes s.neighbor_list adv.ble_address i) :
    ble_lists_process_advertisement N L s adv t = list_full_case N L s adv t := by
  unfold ble_lists_process_advertisement
  rw [hf, probe_list_full_of_passes N _ _ hN0 hN hpass]
  rfl

/-- The value the scan for the oldest entry returns is the smallest
`last_heard_millis` of the table. -/
theorem find_oldest_eq_min (N : Nat) (nl : List ble_lists_neighborlist_t) (oldest : Nat)
    (hrange : ∀ i, i < N → (nl.getD i default).last_heard_millis < 4294967296)
    (hmin : ∀ i, i < N → oldest ≤ (nl.getD i default).last_heard_millis)
    (hatt : ∃ i, i < N ∧ (nl.getD i default).last_heard_millis = oldest) :
    (find_oldest N nl).1 = oldest := by
  obtain ⟨h1, h2, h3⟩ := find_oldest_spec N nl
  obtain ⟨i, hi, hio⟩ := hatt
  have hle : (find_oldest N nl).1 ≤ oldest := by rw [← hio]; exact h2 i hi
  have hr := hrange i hi
  cases hj : (find_oldest N nl).2 with
  | none =>
    rw [hj] at h3
    rw [h3, show UINT32_MAX = 4294967295 from rfl] at hle
    rw [h3, show UINT32_MAX = 4294967295 from rfl]
    omega
  | some j =>
    rw [hj] at h3
    have := hmin j h3.1
    omega

/-- C4 (the code does not keep the property): shortly before the 32-bit
millisecond clock wraps, `oldest + NEIGHBOR_REUSE_AGE` overflows. The table,
reached from `ble_lists_init`, is full of two badges, the older heard 500 ms
ago, and does not hold the new address; the age of the oldest entry is below
`NEIGHBOR_REUSE_AGE`, yet the new advertisement overwrites slot 0. -/
theorem C4_young_entry_evicted_near_wraparound :
    run insertion_qsort 2 4 (initial_state 2 4)
        [.advertise badge_a 4294966296, .advertise badge_b 4294966396] = some wraparound_state
    ∧ (∀ i, i < 2 → passes wraparound_state.neighbor_list badge_c.ble_address i)
    ∧ wraparound_state.updates_frozen = false
    ∧ (find_oldest 2 wraparound_state.neighbor_list).1 = 4294966296
    ∧ 4294966796 - 4294966296 < NEIGHBOR_REUSE_AGE
    ∧ (∃ s', ble_lists_process_advertisement 2 4 wraparound_state badge_c 4294966796 = some s'
        ∧ (s'.neighbor_list.getD 0 default).ble_address = badge_c.ble_address
        ∧ s'.neighbor_list.getD 0 default ≠ wraparound_state.neighbor_list.getD 0 default) := by
  refine ⟨by decide, by decide, by decide, by decide, by decide, ?_⟩
  exact ⟨(ble_lists_process_advertisement 2 4 wraparound_state badge_c 4294966796).get
    (by decide), by simp, by decide, by decide⟩

/-- C5, as stated, fails when the short-circuit applies: the table is full and
does not hold the new address, its oldest entry was heard at 2000 ms, and the
expiration time 181000 was recorded at an earlier refusal, when the oldest
entry was the one heard at 1000 ms. The call at 5000 ms refuses the insert, the
oldest entry's age is below `NEIGHBOR_REUSE_AGE`, and the recorded time after
the call is still 181000, not 2000 + `NEIGHBOR_REUSE_AGE`. -/
theorem C5_short_circuit_keeps_recorded_time :
    run insertion_qsort 2 4 (initial_state 2 4) refusal_calls = some refusal_state
    ∧ (∀ i, i < 2 → passes refusal_state.neighbor_list badge_c.ble_address i)
    ∧ refusal_state.updates_frozen = false
    ∧ (∀ i, i < 2 → 2000 ≤ (refusal_state.neighbor_list.getD i default).last_heard_millis)
    ∧ (refusal_state.neighbor_list.getD 1 default).last_heard_millis = 2000
    ∧ 5000 - 2000 < NEIGHBOR_REUSE_AGE
    ∧ ble_lists_process_advertisement 2 4 refusal_state badge_c 5000 = some refusal_state
    ∧ refusal_state.neighbor_list_next_expiration = 181000
    ∧ refusal_state.neighbor_list_next_expiration ≠ 2000 + NEIGHBOR_REUSE_AGE := by
  refine ⟨by decide, by decide, by decide, by decide, by decide, by decide, by decide,
    by decide, by decide⟩

/-- C5, amended: the table is full and does not hold the observed address, and
the age test finds the oldest entry too new (`oldest + NEIGHBOR_REUSE_AGE`, in
32-bit arithmetic, is after `timenow`), `oldest` being the smallest
`last_heard_millis` of the table. When the recorded expiration time is not
after `timenow`, the call refuses the insert and records
`oldest + NEIGHBOR_REUSE_AGE` (in 32-bit arithmetic) as the next expiration
time, and nothing else changes. When the recorded expiration time is after
`timenow`, the call refuses the insert without looking for the oldest entry
and changes nothing, the recorded time included. -/
theorem C5_refusal_records_next_expiration (N L : Nat) (s : State) (adv : Advertisement)
    (t oldest : Nat) (hN0 : 0 < N) (hN : N ≤ 255) (hf : s.updates_frozen = false)
    (hpass : ∀ i, i < N → passes s.neighbor_list adv.ble_address i)
    (hrange : ∀ i, i < N → (s.neighbor_list.getD i default).last_heard_millis < 4294967296)
    (hmin : ∀ i, i < N → oldest ≤ (s.neighbor_list.getD i default).last_heard_millis)
    (hatt : ∃ i, i < N ∧ (s.neighbor_list.getD i default).last_heard_millis = oldest)
    (hyoung : t < (oldest + NEIGHBOR_REUSE_AGE) % 4294967296) :
    (s.neighbor_list_next_expiration ≤ t →
      ble_lists_process_advertisement N L s adv t
        = some { s with
            neighbor_list_next_expiration := (oldest + NEIGHBOR_REUSE_AGE) % 4294967296 })
    ∧ (s.neighbor_list_next_expiration > t →
      ble_lists_process_advertisement N L s adv t = some s) := by
  rw [process_advertisement_full N L s adv t hN0 hN hf hpass]
  unfold list_full_case
  rw [find_oldest_eq_min N _ oldest hrange hmin hatt]
  constructor
  · intro hshort
    rw [if_neg (by omega : ¬ s.neighbor_list_next_expiration > t), if_pos hyoung]
  · intro hshort
    rw [if_pos hshort]

theorem C5_refusal_witness :
    (full_state.neighbor_list_next_expiration ≤ 3000 →
      ble_lists_process_advertisement 2 4 full_state badge_c 3000
        = some { full_state with
            neighbor_list_next_expiration := (1000 + NEIGHBOR_REUSE_AGE) % 4294967296 })
    ∧ (full_state.neighbor_list_next_expiration > 3000 →
      ble_lists_process_advertisement 2 4 full_state badge_c 3000 = some full_state) :=
  C5_refusal_records_next_expiration 2 4 full_state badge_c 3000 1000
    (by decide) (by decide) (by decide) (by decide) (by decide) (by decide)
    ⟨0, by decide, by decide⟩ (by decide)

/-- C6, as stated, fails at the boundary: the table is full of two badges and
does not hold the new address; the oldest entry was heard exactly
`NEIGHBOR_REUSE_AGE` ago, so its age does not exceed the reuse age, and the
call replaces it all the same. -/
theorem C6_replaces_at_exact_reuse_age :
    run insertion_qsort 2 4 (initial_state 2 4)
        [.advertise badge_a 1000, .advertise badge_b 2000] = some full_state
    ∧ (∀ i, i < 2 → passes full_state.neighbor_list badge_c.ble_address i)
    ∧ full_state.updates_frozen = false
    ∧ (∀ i, i < 2 → 1000 ≤ (full_state.neighbor_list.getD i default).last_heard_millis)
    ∧ (full_state.neighbor_list.getD 0 default).last_heard_millis = 1000
    ∧ ¬ (181000 - 1000 > NEIGHBOR_REUSE_AGE)
    ∧ (∃ s', ble_lists_process_advertisement 2 4 full_state badge_c 181000 = some s'
        ∧ (s'.neighbor_list.getD 0 default).ble_address = badge_c.ble_address
        ∧ s'.neighbor_list.getD 0 default ≠ full_state.neighbor_list.getD 0 default) := by
  refine ⟨by decide, by decide, by decide, by decide, by decide, by decide, ?_⟩
  exact ⟨(ble_lists_process_advertisement 2 4 full_state badge_c 181000).get (by decide),
    by simp, by decide, by decide⟩

/-- C6, amended: for a full table that does not hold the observed address and
whose timestamps are more than `NEIGHBOR_REUSE_AGE` away from the 32-bit
wrap, the call returns, and it either leaves every slot as it was or replaces
exactly one slot `j`, and then `j` holds the smallest `last_heard_millis` of
the table and the age of that entry, `timenow - last_heard_millis`, is at
least `NEIGHBOR_REUSE_AGE`; every other slot is unchanged. -/
theorem C6_replaces_only_oldest_of_reuse_age (N L : Nat) (s : State) (adv : Advertisement)
    (t : Nat) (hN0 : 0 < N) (hN : N ≤ 255) (hlen : s.neighbor_list.length = N)
    (hf : s.updates_frozen = false)
    (hpass : ∀ i, i < N → passes s.neighbor_list adv.ble_address i)
    (hclock : ∀ i, i < N →
      (s.neighbor_list.getD i default).last_heard_millis + NEIGHBOR_REUSE_AGE < 4294967296) :
    ∃ s', ble_lists_process_advertisement N L s adv t = some s'
      ∧ (s'.neighbor_list = s.neighbor_list
        ∨ ∃ j, j < N
          ∧ (∀ i, i < N → (s.neighbor_list.getD j default).last_heard_millis
              ≤ (s.neighbor_list.getD i default).last_heard_millis)
          ∧ NEIGHBOR_REUSE_AGE ≤ t - (s.neighbor_list.getD j default).last_heard_millis
          ∧ s'.neighbor_list = s.neighbor_list.set j
              (store_fields L (take_fields (s.neighbor_list.getD j default) adv.ble_address)
                adv t)
          ∧ ∀ i, i ≠ j → s'.neighbor_list.getD i default = s.neighbor_list.getD i default) := by
  rw [process_advertisement_full N L s adv t hN0 hN hf hpass]
  unfold list_full_case
  by_cases hshort : s.neighbor_list_next_expiration > t
  · rw [if_pos hshort]; exact ⟨s, rfl, Or.inl rfl⟩
  · rw [if_neg hshort]
    by_cases hyoung : ((find_oldest N s.neighbor_list).1 + NEIGHBOR_REUSE_AGE) % 4294967296 > t
    · rw [if_pos hyoung]; exact ⟨_, rfl, Or.inl rfl⟩
    · rw [if_neg hyoung]
      obtain ⟨_, h2, h3⟩ := find_oldest_spec N s.neighbor_list
      cases hj : (find_oldest N s.neighbor_list).2 with
      | none =>
        exfalso
        rw [hj] at h3
        have := h2 0 hN0
        have := hclock 0 hN0
        rw [h3, show UINT32_MAX = 4294967295 from rfl] at *
        rw [show NEIGHBOR_REUSE_AGE = 180000 from rfl] at *
        omega
      | some j =>
        rw [hj] at h3
        obtain ⟨hjN, hjo, _⟩ := h3
        refine ⟨_, rfl, Or.inr ⟨j, hjN, ?_, ?_, ?_, ?_⟩⟩
        · intro i hi; rw [hjo]; exact h2 i hi
        · have := hclock j hjN
          rw [← hjo] at hyoung
          rw [Nat.mod_eq_of_lt this] at hyoung
          omega
        · exact store_take_eq L _ j adv t (by rw [hlen]; exact hjN)
        · intro i hi
          show (store_info L (take_slot s.neighbor_list j adv.ble_address) j adv t).getD i default
            = _
          rw [store_take_eq L _ j adv t (by rw [hlen]; exact hjN)]
          exact getD_set_other _ j i _ default (fun hc => hi hc.symm)

theorem C6_replaces_only_oldest_witness :
    ∃ s', ble_lists_process_advertisement 2 4 full_state badge_c 200000 = some s'
      ∧ (s'.neighbor_list = full_state.neighbor_list
        ∨ ∃ j, j < 2
          ∧ (∀ i, i < 2 → (full_state.neighbor_list.getD j default).last_heard_millis
              ≤ (full_state.neighbor_list.getD i default).last_heard_millis)
          ∧ NEIGHBOR_REUSE_AGE ≤ 200000 - (full_state.neighbor_list.getD j default).last_heard_millis
          ∧ s'.neighbor_list = full_state.neighbor_list.set j
              (store_fields 4
                (take_fields (full_state.neighbor_list.getD j default) badge_c.ble_address)
                badge_c 200000)
          ∧ ∀ i, i ≠ j →
              s'.neighbor_list.getD i default = full_state.neighbor_list.getD i default) :=
  C6_replaces_only_oldest_of_reuse_age 2 4 full_state badge_c 200000
    (by decide) (by decide) (by decide) (by decide) (by decide) (by decide)

/-- C7: a call made while `updates_frozen` is set returns the state it was given:
`neighbor_list`, `sorted_index`, the recorded next expiration time and every
other variable are unchanged, and the observation is kept nowhere. -/
theorem C7_frozen_call_discards (N L : Nat) (s : State) (adv : Advertisement) (t : Nat)
    (hf : s.updates_frozen = true) :
    ble_lists_process_advertisement N L s adv t = some s := by
  unfold ble_lists_process_advertisement
  rw [if_pos hf]

theorem C7_frozen_call_witness :
    ble_lists_process_advertisement 2 4 frozen_state badge_c 200000 = some frozen_state :=
  C7_frozen_call_discards 2 4 frozen_state badge_c 200000 (by decide)

/-! ## The stored flags byte -/

theorem store_fields_mask (L : Nat) (r : ble_lists_neighborlist_t) (adv : Advertisement)
    (t : Nat) :
    store_fields L r { adv with flags := adv.flags &&& NLFLAGS_UPDATE_MASK } t
      = store_fields L r adv t := by
  unfold store_fields
  simp only [Nat.and_assoc, Nat.and_self]

theorem process_advertisement_mask (N L : Nat) (s : State) (adv : Advertisement) (t : Nat) :
    ble_lists_process_advertisement N L s
        { adv with flags := adv.flags &&& NLFLAGS_UPDATE_MASK } t
      = ble_lists_process_advertisement N L s adv t := by
  simp only [ble_lists_process_advertisement, list_full_case, store_info, store_fields_mask]

theorem mask_iff (x y : Nat) :
    x &&& NLFLAGS_UPDATE_MASK = y &&& NLFLAGS_UPDATE_MASK ↔ x % 64 = y % 64 := by
  rw [show NLFLAGS_UPDATE_MASK = 63 from rfl, and_63, and_63]

theorem helloed_eq_iff (x y : Nat) :
    x &&& NLFLAGS_HELLOED = y &&& NLFLAGS_HELLOED ↔ x / 64 % 2 = y / 64 % 2 := by
  rw [show NLFLAGS_HELLOED = 64 from rfl, and_64, and_64]; omega

/-- C8: in a state reached from `ble_lists_init` by the public operations, a call
with flags byte `f` that returns either leaves the table as it was (the
observation was discarded) or writes exactly one slot, whose flags byte then has
its low six bits equal to `f & 0x3F`, `NLFLAGS_VALID` set, and
`NLFLAGS_HELLOED` equal to the slot's previous bit when the slot already held
the address, clear when the slot was empty or held another address (re-use).
The call with `f & 0x3F` in place of `f` has the same result: bits 0x80 and 0x40
of `f` do not reach the table. -/
theorem C8_stored_flags_byte (qsort : (Nat → Nat → Int) → List Nat → List Nat) (N L : Nat)
    (ops : List Op) (s s' : State) (adv : Advertisement) (t : Nat)
    (hN0 : 0 < N) (hN : N ≤ 255)
    (hrun : run qsort N L (initial_state N L) ops = some s)
    (h : ble_lists_process_advertisement N L s adv t = some s') :
    ble_lists_process_advertisement N L s
        { adv with flags := adv.flags &&& NLFLAGS_UPDATE_MASK } t = some s'
    ∧ (s'.neighbor_list = s.neighbor_list
      ∨ ∃ i, i < N
        ∧ (∀ j, j ≠ i → s'.neighbor_list.getD j default = s.neighbor_list.getD j default)
        ∧ (s'.neighbor_list.getD i default).flags &&& NLFLAGS_UPDATE_MASK
            = adv.flags &&& NLFLAGS_UPDATE_MASK
        ∧ (s'.neighbor_list.getD i default).flags &&& NLFLAGS_VALID = NLFLAGS_VALID
        ∧ (s'.neighbor_list.getD i default).flags &&& NLFLAGS_HELLOED
            = if (s.neighbor_list.getD i default).flags ≠ NLFLAGS_EMPTY
                ∧ __ble_address_equal adv.ble_address
                    (s.neighbor_list.getD i default).ble_address = true
              then (s.neighbor_list.getD i default).flags &&& NLFLAGS_HELLOED
              else 0) := by
  have hok := run_table_ok qsort N L hN0 hN ops _ s (initial_state_table_ok N L) hrun
  refine ⟨by rw [process_advertisement_mask]; exact h, ?_⟩
  have taken : ∀ i, i < N →
      (¬ ((s.neighbor_list.getD i default).flags ≠ NLFLAGS_EMPTY
        ∧ __ble_address_equal adv.ble_address (s.neighbor_list.getD i default).ble_address
          = true)) →
      s'.neighbor_list = store_info L (take_slot s.neighbor_list i adv.ble_address) i adv t →
      ∃ i, i < N
        ∧ (∀ j, j ≠ i → s'.neighbor_list.getD j default = s.neighbor_list.getD j default)
        ∧ (s'.neighbor_list.getD i default).flags &&& NLFLAGS_UPDATE_MASK
            = adv.flags &&& NLFLAGS_UPDATE_MASK
        ∧ (s'.neighbor_list.getD i default).flags &&& NLFLAGS_VALID = NLFLAGS_VALID
        ∧ (s'.neighbor_list.getD i default).flags &&& NLFLAGS_HELLOED
            = if (s.neighbor_list.getD i default).flags ≠ NLFLAGS_EMPTY
                ∧ __ble_address_equal adv.ble_address
                    (s.neighbor_list.getD i default).ble_address = true
              then (s.neighbor_list.getD i default).flags &&& NLFLAGS_HELLOED
              else 0 := by
    intro i hi hnot hs
    have hil : i < s.neighbor_list.length := by rw [hok.length_eq]; exact hi
    have hfl := store_take_fields_flags L (s.neighbor_list.getD i default) adv t
    rw [store_take_eq L _ i adv t hil] at hs
    refine ⟨i, hi, ?_, ?_, ?_, ?_⟩
    · intro j hj
      rw [hs]; exact getD_set_other _ i j _ default (fun hc => hj hc.symm)
    · rw [hs, getD_set_same _ i _ default hil, mask_iff, hfl]; omega
    · rw [hs, getD_set_same _ i _ default hil, valid_iff, hfl]; omega
    · rw [hs, getD_set_same _ i _ default hil, if_neg hnot, helloed_iff, hfl]; omega
  rcases process_advertisement_cases N L s s' adv t h with hs | ⟨i, hp, hs⟩ | ⟨i, hp, hs⟩
    | ⟨j, hp, hj, hs⟩
  · exact Or.inl hs
  · have hpost := probe_place_post N _ _ hN0 hN i hp
    exact Or.inr (taken i hpost.1 (fun hc => hc.1 hpost.2) hs)
  · have hpost := probe_matching_post N _ _ hN0 hN i hp
    have hil : i < s.neighbor_list.length := by rw [hok.length_eq]; exact hpost.1
    have hbits := store_fields_bits L (s.neighbor_list.getD i default) adv t
    have hv := (valid_iff _).1 (hok.valid_set i hpost.1 hpost.2.1)
    unfold store_info at hs
    refine Or.inr ⟨i, hpost.1, ?_, ?_, ?_, ?_⟩
    · intro j hj
      rw [hs]; exact getD_set_other _ i j _ default (fun hc => hj hc.symm)
    · rw [hs, getD_set_same _ i _ default hil, mask_iff]; exact hbits.1
    · rw [hs, getD_set_same _ i _ default hil, valid_iff, hbits.2.2]; exact hv
    · rw [hs, getD_set_same _ i _ default hil, if_pos ⟨hpost.2.1, hpost.2.2⟩, helloed_eq_iff]
      exact hbits.2.1
  · have hjN := find_oldest_index_lt N _ j hj
    have hpass := probe_list_full_passes N _ _ hN0 hN hp j hjN
    refine Or.inr (taken j hjN (fun hc => ?_) hs)
    rw [hpass.2] at hc
    exact absurd hc.2 (by simp)

theorem C8_stored_flags_witness :
    ble_lists_process_advertisement 2 4 two_badges_state badge_b_masked 3000
        = some (state_after 2 4 two_badges_calls)
    ∧ ((state_after 2 4 two_badges_calls).neighbor_list = two_badges_state.neighbor_list
      ∨ ∃ i, i < 2
        ∧ (∀ j, j ≠ i → (state_after 2 4 two_badges_calls).neighbor_list.getD j default
            = two_badges_state.neighbor_list.getD j default)
        ∧ ((state_after 2 4 two_badges_calls).neighbor_list.getD i default).flags
            &&& NLFLAGS_UPDATE_MASK = badge_b_again.flags &&& NLFLAGS_UPDATE_MASK
        ∧ ((state_after 2 4 two_badges_calls).neighbor_list.getD i default).flags
            &&& NLFLAGS_VALID = NLFLAGS_VALID
        ∧ ((state_after 2 4 two_badges_calls).neighbor_list.getD i default).flags
            &&& NLFLAGS_HELLOED
            = if (two_badges_state.neighbor_list.getD i default).flags ≠ NLFLAGS_EMPTY
                ∧ __ble_address_equal badge_b_again.ble_address
                    (two_badges_state.neighbor_list.getD i default).ble_address = true
              then (two_badges_state.neighbor_list.getD i default).flags &&& NLFLAGS_HELLOED
              else 0) :=
  C8_stored_flags_byte insertion_qsort 2 4
    [.advertise badge_a 1000, .advertise badge_b 2000, .choose 2500]
    two_badges_state (state_after 2 4 two_badges_calls) badge_b_again 3000
    (by decide) (by decide) (by decide) (by decide)

/-! ## `survey_and_sort_neighbors` -/

theorem insertion_qsort_contract : QsortContract insertion_qsort := by
  refine ⟨?_, ?_⟩
  · intro compar l
    exact List.perm_insertionSort _ l
  · intro compar l htot htrans
    haveI : IsTotal Nat (fun a b => compar a b ≤ 0) := ⟨htot⟩
    haveI : IsTrans Nat (fun a b => compar a b ≤ 0) := ⟨htrans⟩
    exact List.sorted_insertionSort (fun a b => compar a b ≤ 0) l

theorem included_succ (N : Nat) (nl : List ble_lists_neighborlist_t) (f : Nat) :
    included (N + 1) nl f
      = if (nl.getD N default).flags ≠ NLFLAGS_EMPTY ∧ ((nl.getD N default).flags &&& f) ≠ 0
        then included N nl f ++ [N] else included N nl f := by
  unfold included
  rw [List.range_succ, List.filter_append]
  by_cases h : (nl.getD N default).flags ≠ NLFLAGS_EMPTY ∧ ((nl.getD N default).flags &&& f) ≠ 0
  · rw [if_pos h]
    simp only [List.filter_cons, List.filter_nil]
    rw [if_pos (decide_eq_true h)]
  · rw [if_neg h]
    simp only [List.filter_cons, List.filter_nil]
    rw [if_neg (by rw [decide_eq_true_eq]; exact h), List.append_nil]

theorem included_length_le (N : Nat) (nl : List ble_lists_neighborlist_t) (f : Nat) :
    (included N nl f).length ≤ N := by
  unfold included
  exact (List.length_filter_le _ _).trans (by rw [List.length_range])

theorem survey_scan_succ (N : Nat) (nl : List ble_lists_neighborlist_t) (f : Nat)
    (si : List Nat) :
    survey_scan (N + 1) nl f si
      = if (nl.getD N default).flags ≠ NLFLAGS_EMPTY ∧ ((nl.getD N default).flags &&& f) ≠ 0
        then ((survey_scan N nl f si).1.set (survey_scan N nl f si).2 (N % 256),
              ((survey_scan N nl f si).2 + 1) % 256)
        else survey_scan N nl f si := by
  simp only [survey_scan, List.range_succ, List.foldl_append, List.foldl_cons, List.foldl_nil]

/-- The scan leaves the included slots, in scan order, at the front of
`sorted_index`, the rest of the array as it was, and returns their number. -/
theorem survey_scan_eq (k : Nat) (nl : List ble_lists_neighborlist_t) (f : Nat) (si : List Nat)
    (hk : k ≤ si.length) (hk255 : k ≤ 255) :
    survey_scan k nl f si
      = (included k nl f ++ si.drop (included k nl f).length, (included k nl f).length) := by
  induction k with
  | zero => simp [survey_scan, included]
  | succ k ih =>
    have hle := included_length_le k nl f
    rw [survey_scan_succ, included_succ, ih (by omega) (by omega)]
    by_cases h : (nl.getD k default).flags ≠ NLFLAGS_EMPTY ∧ ((nl.getD k default).flags &&& f) ≠ 0
    · rw [if_pos h, if_pos h]
      simp only
      have h1 : k % 256 = k := Nat.mod_eq_of_lt (by omega)
      have h2 : ((included k nl f).length + 1) % 256 = (included k nl f).length + 1 :=
        Nat.mod_eq_of_lt (by omega)
      rw [h1, h2, List.length_append, List.length_singleton]
      congr 1
      rw [List.set_append_right _ _ (Nat.le_refl _), Nat.sub_self, List.append_assoc]
      congr 1
      have hlt : (included k nl f).length < si.length := by omega
      rw [List.drop_eq_getElem_cons hlt, List.set_cons_zero]
      rfl
    · rw [if_neg h, if_neg h]

/-- The result of `survey_and_sort_neighbors`: the count is the number of
included slots, and `sorted_index` holds what `qsort` made of them, followed by
the untouched rest of the array. -/
theorem survey_result (qsort : (Nat → Nat → Int) → List Nat → List Nat) (N : Nat) (s : State)
    (f : Nat) (hlen : N ≤ s.sorted_index.length) (hN : N ≤ 255) :
    (survey_and_sort_neighbors qsort N s f).2 = (included N s.neighbor_list f).length
    ∧ (survey_and_sort_neighbors qsort N s f).1.sorted_index
        = (if (included N s.neighbor_list f).length > 0 then
            qsort (compare_neighbor_rssi s.neighbor_list) (included N s.neighbor_list f)
          else included N s.neighbor_list f)
          ++ s.sorted_index.drop (included N s.neighbor_list f).length := by
  unfold survey_and_sort_neighbors
  rw [survey_scan_eq N _ f _ hlen hN]
  refine ⟨rfl, ?_⟩
  simp only
  by_cases hpos : (included N s.neighbor_list f).length > 0
  · rw [if_pos hpos, if_pos hpos, List.take_left', List.drop_left'] <;> rfl
  · rw [if_neg hpos, if_neg hpos]

/-- The first `count` entries of `sorted_index` after the rebuild. -/
theorem survey_ranked (qsort : (Nat → Nat → Int) → List Nat → List Nat) (N : Nat) (s : State)
    (f : Nat) (hq : QsortContract qsort) (hlen : N ≤ s.sorted_index.length) (hN : N ≤ 255) :
    (survey_and_sort_neighbors qsort N s f).1.sorted_index.take
        (survey_and_sort_neighbors qsort N s f).2
      = if (included N s.neighbor_list f).length > 0 then
          qsort (compare_neighbor_rssi s.neighbor_list) (included N s.neighbor_list f)
        else included N s.neighbor_list f := by
  obtain ⟨h1, h2⟩ := survey_result qsort N s f hlen hN
  rw [h1, h2]
  apply List.take_left'
  split
  · exact (hq.perm _ _).length_eq
  · rfl

theorem survey_ranked_perm (qsort : (Nat → Nat → Int) → List Nat → List Nat) (N : Nat)
    (s : State) (f : Nat) (hq : QsortContract qsort) (hlen : N ≤ s.sorted_index.length)
    (hN : N ≤ 255) :
    ((survey_and_sort_neighbors qsort N s f).1.sorted_index.take
        (survey_and_sort_neighbors qsort N s f).2).Perm (included N s.neighbor_list f) := by
  rw [survey_ranked qsort N s f hq hlen hN]
  split
  · exact hq.perm _ _
  · exact List.Perm.refl _

theorem survey_sorted_index_length (qsort : (Nat → Nat → Int) → List Nat → List Nat) (N : Nat)
    (s : State) (f : Nat) (hq : QsortContract qsort) (hlen : s.sorted_index.length = N)
    (hN : N ≤ 255) :
    (survey_and_sort_neighbors qsort N s f).1.sorted_index.length = N := by
  obtain ⟨_, h2⟩ := survey_result qsort N s f (by omega) hN
  have hle := included_length_le N s.neighbor_list f
  rw [h2, List.length_append, List.length_drop]
  split
  · rw [(hq.perm _ _).length_eq]; omega
  · omega

theorem process_advertisement_sorted_index (N L : Nat) (s s' : State) (adv : Advertisement)
    (t : Nat) (h : ble_lists_process_advertisement N L s adv t = some s') :
    s'.sorted_index = s.sorted_index := by
  unfold ble_lists_process_advertisement at h
  split at h
  · cases h; rfl
  · split at h
    · cases h
    · cases h; rfl
    · cases h; rfl
    · unfold list_full_case at h
      split at h
      · cases h; rfl
      · split at h
        · cases h; rfl
        · split at h
          · cases h
          · cases h; rfl

theorem step_sorted_index_length (qsort : (Nat → Nat → Int) → List Nat → List Nat) (N L : Nat)
    (s s' : State) (op : Op) (hq : QsortContract qsort) (hN : N ≤ 255)
    (hlen : s.sorted_index.length = N) (h : step qsort N L s op = some s') :
    s'.sorted_index.length = N := by
  cases op with
  | advertise adv t => rw [process_advertisement_sorted_index N L s s' adv t h]; exact hlen
  | survey f => cases h; exact survey_sorted_index_length qsort N s f hq hlen hN
  | choose t =>
    cases h
    rcases choose_hello_cases N s t 0 [] with ⟨h, _⟩ | ⟨_, h, _⟩
    · rw [h]; exact hlen
    · rw [h]; exact hlen
  | unhello r =>
    cases h
    unfold ble_lists_randomly_unhello_neighbor
    split
    · exact hlen
    · exact hlen

theorem run_sorted_index_length (qsort : (Nat → Nat → Int) → List Nat → List Nat) (N L : Nat)
    (hq : QsortContract qsort) (hN : N ≤ 255) (ops : List Op) :
    ∀ s s', s.sorted_index.length = N → run qsort N L s ops = some s' →
      s'.sorted_index.length = N := by
  induction ops with
  | nil => intro s s' hl h; cases h; exact hl
  | cons op ops ih =>
    intro s s' hl h
    unfold run at h
    split at h
    · cases h
    · rename_i s1 hs1
      exact ih s1 s' (step_sorted_index_length qsort N L s s1 op hq hN hl hs1) h

theorem mem_included (N : Nat) (nl : List ble_lists_neighborlist_t) (f i : Nat) :
    i ∈ included N nl f ↔ i < N ∧ (nl.getD i default).flags ≠ NLFLAGS_EMPTY
      ∧ ((nl.getD i default).flags &&& f) ≠ 0 := by
  unfold included
  rw [List.mem_filter, List.mem_range, decide_eq_true_eq]

/-- C9: in a state reached from `ble_lists_init` by the public operations,
`survey_and_sort_neighbors` returns a count `n` such that `sorted_index[0..n)`
has `n` entries, no entry twice, and holds exactly the indices of the slots
whose `NLFLAGS_VALID` bit is set and whose flags byte ANDed with
`filter_flags` is non-zero; `n` is 0 when no slot is such. -/
theorem C9_survey_lists_matching_slots (qsort : (Nat → Nat → Int) → List Nat → List Nat)
    (N L : Nat) (ops : List Op) (s : State) (f : Nat)
    (hq : QsortContract qsort) (hN0 : 0 < N) (hN : N ≤ 255)
    (hrun : run qsort N L (initial_state N L) ops = some s) :
    ((survey_and_sort_neighbors qsort N s f).1.sorted_index.take
        (survey_and_sort_neighbors qsort N s f).2).length
      = (survey_and_sort_neighbors qsort N s f).2
    ∧ ((survey_and_sort_neighbors qsort N s f).1.sorted_index.take
        (survey_and_sort_neighbors qsort N s f).2).Nodup
    ∧ (∀ i, i ∈ (survey_and_sort_neighbors qsort N s f).1.sorted_index.take
          (survey_and_sort_neighbors qsort N s f).2
        ↔ i < N ∧ (s.neighbor_list.getD i default).flags &&& NLFLAGS_VALID = NLFLAGS_VALID
          ∧ ((s.neighbor_list.getD i default).flags &&& f) ≠ 0)
    ∧ ((∀ i, i < N →
          ¬ ((s.neighbor_list.getD i default).flags &&& NLFLAGS_VALID = NLFLAGS_VALID
            ∧ ((s.neighbor_list.getD i default).flags &&& f) ≠ 0)) →
        (survey_and_sort_neighbors qsort N s f).2 = 0) := by
  have hok := run_table_ok qsort N L hN0 hN ops _ s (initial_state_table_ok N L) hrun
  have hlen := run_sorted_index_length qsort N L hq hN ops _ s
    (by show (List.replicate N NEIGHBOR_NONE).length = N; exact List.length_replicate _ _) hrun
  have hperm := survey_ranked_perm qsort N s f hq (by omega) hN
  have hcount := (survey_result qsort N s f (by omega) hN).1
  have hmem : ∀ i, i ∈ included N s.neighbor_list f
      ↔ i < N ∧ (s.neighbor_list.getD i default).flags &&& NLFLAGS_VALID = NLFLAGS_VALID
        ∧ ((s.neighbor_list.getD i default).flags &&& f) ≠ 0 := by
    intro i
    rw [mem_included]
    constructor
    · rintro ⟨hi, hne, hf⟩
      exact ⟨hi, hok.valid_set i hi hne, hf⟩
    · rintro ⟨hi, _, hf⟩
      refine ⟨hi, ?_, hf⟩
      intro h0
      rw [h0, show NLFLAGS_EMPTY = 0 from rfl, Nat.zero_and] at hf
      exact hf rfl
  refine ⟨?_, ?_, ?_, ?_⟩
  · rw [hperm.length_eq, hcount]
  · exact hperm.nodup_iff.2 ((List.nodup_range N).filter _)
  · intro i
    rw [hperm.mem_iff]
    exact hmem i
  · intro hnone
    rw [hcount, List.length_eq_zero, List.eq_nil_iff_forall_not_mem]
    intro i hi
    have := (hmem i).1 hi
    exact hnone i this.1 this.2

theorem C9_survey_witness :
    ((survey_and_sort_neighbors insertion_qsort 2 two_badges_state 1).1.sorted_index.take
        (survey_and_sort_neighbors insertion_qsort 2 two_badges_state 1).2).length
      = (survey_and_sort_neighbors insertion_qsort 2 two_badges_state 1).2
    ∧ ((survey_and_sort_neighbors insertion_qsort 2 two_badges_state 1).1.sorted_index.take
        (survey_and_sort_neighbors insertion_qsort 2 two_badges_state 1).2).Nodup
    ∧ (∀ i, i ∈ (survey_and_sort_neighbors insertion_qsort 2 two_badges_state 1).1.sorted_index.take
          (survey_and_sort_neighbors insertion_qsort 2 two_badges_state 1).2
        ↔ i < 2
          ∧ (two_badges_state.neighbor_list.getD i default).flags &&& NLFLAGS_VALID
              = NLFLAGS_VALID
          ∧ ((two_badges_state.neighbor_list.getD i default).flags &&& 1) ≠ 0)
    ∧ ((∀ i, i < 2 →
          ¬ ((two_badges_state.neighbor_list.getD i default).flags &&& NLFLAGS_VALID
              = NLFLAGS_VALID
            ∧ ((two_badges_state.neighbor_list.getD i default).flags &&& 1) ≠ 0)) →
        (survey_and_sort_neighbors insertion_qsort 2 two_badges_state 1).2 = 0) :=
  C9_survey_lists_matching_slots insertion_qsort 2 4
    [.advertise badge_a 1000, .advertise badge_b 2000, .choose 2500] two_badges_state 1
    insertion_qsort_contract (by decide) (by decide) (by decide)

theorem compare_neighbor_rssi_le (nl : List ble_lists_neighborlist_t) (a b : Nat) :
    compare_neighbor_rssi nl a b ≤ 0 ↔ (nl.getD a default).rssi ≥ (nl.getD b default).rssi := by
  unfold compare_neighbor_rssi
  split
  · constructor
    · intro _; omega
    · intro _; omega
  · split
    · constructor
      · intro h; omega
      · intro h; omega
    · constructor
      · intro _; omega
      · intro _; omega

/-- C10: whatever the table holds and whatever `filter_flags` is, after
`survey_and_sort_neighbors` returns `n` the records at `sorted_index[0]`, ...,
`sorted_index[n-1]` have non-increasing rssi: each entry's rssi is at least that
of every later entry. -/
theorem C10_survey_sorts_by_rssi (qsort : (Nat → Nat → Int) → List Nat → List Nat) (N : Nat)
    (s : State) (f : Nat) (hq : QsortContract qsort) (hN : N ≤ 255)
    (hlen : s.sorted_index.length = N) :
    ((survey_and_sort_neighbors qsort N s f).1.sorted_index.take
        (survey_and_sort_neighbors qsort N s f).2).Pairwise
      (fun a b => (s.neighbor_list.getD a default).rssi ≥ (s.neighbor_list.getD b default).rssi) := by
  rw [survey_ranked qsort N s f hq (by omega) hN]
  split
  · have := hq.ordered (compare_neighbor_rssi s.neighbor_list) (included N s.neighbor_list f)
      (by
        intro a b
        rw [compare_neighbor_rssi_le, compare_neighbor_rssi_le]
        omega)
      (by
        intro a b c
        rw [compare_neighbor_rssi_le, compare_neighbor_rssi_le, compare_neighbor_rssi_le]
        omega)
    exact this.imp (fun h => (compare_neighbor_rssi_le _ _ _).1 h)
  · rename_i h
    have : included N s.neighbor_list f = [] := List.length_eq_zero.1 (by omega)
    rw [this]
    exact List.Pairwise.nil

theorem C10_survey_sorts_witness :
    ((survey_and_sort_neighbors insertion_qsort 2 two_badges_state 0xFF).1.sorted_index.take
        (survey_and_sort_neighbors insertion_qsort 2 two_badges_state 0xFF).2).Pairwise
      (fun a b => (two_badges_state.neighbor_list.getD a default).rssi
        ≥ (two_badges_state.neighbor_list.getD b default).rssi) :=
  C10_survey_sorts_by_rssi insertion_qsort 2 two_badges_state 0xFF
    insertion_qsort_contract (by decide) (by decide)

/-! ## Ties in the ranked list -/

theorem reversing_qsort_contract : QsortContract reversing_qsort := by
  refine ⟨?_, ?_⟩
  · intro compar l
    exact (List.perm_insertionSort _ l.reverse).trans (List.reverse_perm l)
  · intro compar l htot htrans
    haveI : IsTotal Nat (fun a b => compar a b ≤ 0) := ⟨htot⟩
    haveI : IsTrans Nat (fun a b => compar a b ≤ 0) := ⟨htrans⟩
    exact List.sorted_insertionSort (fun a b => compar a b ≤ 0) l.reverse

theorem insertion_qsort_stable : QsortStable insertion_qsort := by
  intro compar l a b _ _ hab _ h
  exact List.pair_sublist_insertionSort hab h

theorem pair_sublist_range (i j N : Nat) (hij : i < j) (hj : j < N) :
    List.Sublist [i, j] (List.range N) := by
  have h1 : List.Sublist [i] (List.range j) := List.singleton_sublist.2 (List.mem_range.2 hij)
  have h2 : List.Sublist ([i] ++ [j]) (List.range j ++ [j]) := h1.append (List.Sublist.refl _)
  rw [← List.range_succ] at h2
  exact h2.trans (List.range_sublist.2 (by omega))

theorem pair_sublist_included (N : Nat) (nl : List ble_lists_neighborlist_t) (f i j : Nat)
    (hij : i < j) (hi : i ∈ included N nl f) (hj : j ∈ included N nl f) :
    List.Sublist [i, j] (included N nl f) := by
  have hjN := ((mem_included N nl f j).1 hj).1
  have hsub := (pair_sublist_range i j N hij hjN).filter (fun i =>
    decide ((nl.getD i default).flags ≠ NLFLAGS_EMPTY
      ∧ ((nl.getD i default).flags &&& f) ≠ 0))
  have hpi := (List.mem_filter.1 hi).2
  have hpj := (List.mem_filter.1 hj).2
  simp only [List.filter_cons, List.filter_nil] at hsub
  rw [if_pos hpi, if_pos hpj] at hsub
  exact hsub

/-- What the C contract of `qsort` leaves open: `reversing_qsort` keeps the
contract, and for a table of two badges of equal rssi in slots 0 and 1, both
included, it ranks slot 1 before slot 0. Which order the `qsort` linked into
the firmware gives is not decided by the source. -/
theorem conforming_qsort_may_reorder_ties :
    QsortContract reversing_qsort
    ∧ included 2 tie_state.neighbor_list 0xFF = [0, 1]
    ∧ (tie_state.neighbor_list.getD 0 default).rssi = (tie_state.neighbor_list.getD 1 default).rssi
    ∧ (survey_and_sort_neighbors reversing_qsort 2 tie_state 0xFF).2 = 2
    ∧ (survey_and_sort_neighbors reversing_qsort 2 tie_state 0xFF).1.sorted_index.take 2
        = [1, 0] := by
  refine ⟨reversing_qsort_contract, by decide, by decide, by decide, by decide⟩

/-- With a `qsort` that is stable, any two included slots with equal rssi appear
among `sorted_index[0..n)` in table scan order, the lower slot index first. -/
theorem stable_qsort_keeps_scan_order
    (qsort : (Nat → Nat → Int) → List Nat → List Nat) (N : Nat) (s : State) (f i j : Nat)
    (hq : QsortContract qsort) (hst : QsortStable qsort) (hN : N ≤ 255)
    (hlen : s.sorted_index.length = N)
    (hij : i < j) (hi : i ∈ included N s.neighbor_list f) (hj : j ∈ included N s.neighbor_list f)
    (hrssi : (s.neighbor_list.getD i default).rssi = (s.neighbor_list.getD j default).rssi) :
    List.Sublist [i, j] ((survey_and_sort_neighbors qsort N s f).1.sorted_index.take
      (survey_and_sort_neighbors qsort N s f).2) := by
  rw [survey_ranked qsort N s f hq (by omega) hN]
  have hsub := pair_sublist_included N s.neighbor_list f i j hij hi hj
  split
  · apply hst _ _ i j _ _ _ _ hsub
    · intro a b
      rw [compare_neighbor_rssi_le, compare_neighbor_rssi_le]
      omega
    · intro a b c
      rw [compare_neighbor_rssi_le, compare_neighbor_rssi_le, compare_neighbor_rssi_le]
      omega
    · rw [compare_neighbor_rssi_le, hrssi]
    · rw [compare_neighbor_rssi_le, hrssi]
  · exact hsub

theorem stable_qsort_keeps_scan_order_example :
    List.Sublist [0, 1]
      ((survey_and_sort_neighbors insertion_qsort 2 tie_state 0xFF).1.sorted_index.take
        (survey_and_sort_neighbors insertion_qsort 2 tie_state 0xFF).2) :=
  stable_qsort_keeps_scan_order insertion_qsort 2 tie_state 0xFF 0 1
    insertion_qsort_contract insertion_qsort_stable (by decide) (by decide) (by decide)
    (by decide) (by decide) (by decide)

/-! ## The Hello selection -/

/-- What the candidate scan computes: no candidate while no slot of the pool
is above `INT8_MIN`, and the best candidate otherwise. -/
theorem hello_scan_spec (N : Nat) (nl : List ble_lists_neighborlist_t) :
    ((hello_scan N nl).1 = NEIGHBOR_NONE ∧ (hello_scan N nl).2 = INT8_MIN
      ∧ ∀ i, i < N → hello_eligible nl i → (nl.getD i default).rssi ≤ INT8_MIN)
    ∨ (best_candidate N nl (hello_scan N nl).1
      ∧ (nl.getD (hello_scan N nl).1 default).rssi = (hello_scan N nl).2
      ∧ (hello_scan N nl).2 > INT8_MIN) := by
  induction N with
  | zero => exact Or.inl ⟨rfl, rfl, fun i hi => absurd hi (Nat.not_lt_zero i)⟩
  | succ N ih =>
    rw [hello_scan_succ]
    have keep : ¬ (hello_eligible nl N ∧ (nl.getD N default).rssi > (hello_scan N nl).2) →
        ((hello_scan N nl).1 = NEIGHBOR_NONE ∧ (hello_scan N nl).2 = INT8_MIN
          ∧ ∀ i, i < N + 1 → hello_eligible nl i → (nl.getD i default).rssi ≤ INT8_MIN)
        ∨ (best_candidate (N + 1) nl (hello_scan N nl).1
          ∧ (nl.getD (hello_scan N nl).1 default).rssi = (hello_scan N nl).2
          ∧ (hello_scan N nl).2 > INT8_MIN) := by
      intro hnot
      rcases ih with ⟨h1, h2, h3⟩ | ⟨⟨hc, he, hmax, hfirst⟩, hr, hgt⟩
      · left
        refine ⟨h1, h2, ?_⟩
        intro i hi hel
        rcases Nat.lt_or_ge i N with hlt | hge
        · exact h3 i hlt hel
        · have hiN : i = N := by omega
          subst hiN
          have : ¬ (nl.getD i default).rssi > (hello_scan i nl).2 := fun hc => hnot ⟨hel, hc⟩
          rw [h2] at this
          omega
      · right
        refine ⟨⟨by omega, he, ?_, hfirst⟩, hr, hgt⟩
        intro i hi hel
        rcases Nat.lt_or_ge i N with hlt | hge
        · exact hmax i hlt hel
        · have hiN : i = N := by omega
          subst hiN
          have : ¬ (nl.getD i default).rssi > (hello_scan i nl).2 := fun hc => hnot ⟨hel, hc⟩
          rw [hr]
          omega
    by_cases h1 : (nl.getD N default).flags = NLFLAGS_EMPTY
    · rw [if_pos h1]; exact keep (fun hc => hc.1.1 h1)
    · rw [if_neg h1]
      by_cases h2 : ((nl.getD N default).flags &&& NLFLAGS_HELLOED) ≠ 0
      · rw [if_pos h2]; exact keep (fun hc => h2 hc.1.2)
      · rw [if_neg h2]
        by_cases h3 : (nl.getD N default).rssi > (hello_scan N nl).2
        · rw [if_pos h3]
          right
          have hel : hello_eligible nl N := ⟨h1, by simpa using h2⟩
          refine ⟨⟨Nat.lt_succ_self N, hel, ?_, ?_⟩, rfl, ?_⟩
          · intro i hi hel'
            rcases Nat.lt_or_ge i N with hlt | hge
            · rcases ih with ⟨_, h2', h3'⟩ | ⟨⟨_, _, hmax, _⟩, hr, _⟩
              · have := h3' i hlt hel'
                rw [h2'] at h3
                show (nl.getD i default).rssi ≤ (nl.getD N default).rssi
                omega
              · have := hmax i hlt hel'
                rw [hr] at this
                show (nl.getD i default).rssi ≤ (nl.getD N default).rssi
                omega
            · have hiN : i = N := by omega
              subst hiN
              exact le_refl _
          · intro i hi hel'
            rcases ih with ⟨_, h2', h3'⟩ | ⟨⟨_, _, hmax, _⟩, hr, _⟩
            · have := h3' i hi hel'
              rw [h2'] at h3
              show (nl.getD i default).rssi < (nl.getD N default).rssi
              omega
            · have := hmax i hi hel'
              rw [hr] at this
              show (nl.getD i default).rssi < (nl.getD N default).rssi
              omega
          · show (nl.getD N default).rssi > INT8_MIN
            rcases ih with ⟨_, h2', _⟩ | ⟨_, _, hgt⟩
            · rw [h2'] at h3; exact h3
            · omega
        · rw [if_neg h3]; exact keep (fun hc => h3 hc.2)

theorem best_candidate_unique (N : Nat) (nl : List ble_lists_neighborlist_t) (c d : Nat)
    (hc : best_candidate N nl c) (hd : best_candidate N nl d) : c = d := by
  obtain ⟨hcN, hce, hcmax, hcfirst⟩ := hc
  obtain ⟨hdN, hde, hdmax, hdfirst⟩ := hd
  have h1 := hcmax d hdN hde
  have h2 := hdmax c hcN hce
  rcases Nat.lt_trichotomy c d with h | h | h
  · have := hdfirst c h hce; omega
  · exact h
  · have := hcfirst d h hde; omega

theorem cstr_append_nul (src rest : List Nat) : cstr (cstr src ++ 0 :: rest) = cstr src := by
  unfold cstr
  have hall : ∀ a ∈ List.takeWhile (fun c => c != 0) src, (a != 0) = true :=
    fun a ha => @List.mem_takeWhile_imp _ (fun c => c != 0) src a ha
  rw [List.takeWhile_append_of_pos hall]
  simp

/-- Whenever `strcpy` stays inside both arrays, the destination holds the string
of the source afterwards. -/
theorem cstr_strcpy (dst src r : List Nat) (h : strcpy dst src = some r) :
    cstr r = cstr src := by
  unfold strcpy at h
  split at h
  · cases h
    exact cstr_append_nul _ _
  · cases h

/-- When the source holds a NUL and its string fits into the destination with
the NUL, `strcpy` stays inside both arrays. -/
theorem strcpy_some (dst src : List Nat) (hnul : 0 ∈ src) (hroom : (cstr src).length < dst.length) :
    ∃ r, strcpy dst src = some r ∧ cstr r = cstr src := by
  unfold strcpy
  rw [if_pos ⟨hnul, hroom⟩]
  exact ⟨_, rfl, cstr_append_nul _ _⟩

/-- A name of `n` or more characters leaves no NUL in the `n` bytes `strncpy`
writes. -/
theorem strncpy_no_nul (src : List Nat) (n : Nat) (h : n ≤ (cstr src).length) :
    0 ∉ strncpy src n := by
  unfold strncpy
  rw [List.length_take, Nat.min_eq_left h, Nat.sub_self]
  intro hmem
  rw [List.replicate_zero, List.append_nil] at hmem
  have h0 := @List.mem_takeWhile_imp _ (fun c => c != 0) src 0 (List.mem_of_mem_take hmem)
  simp at h0

/-- When no NUL is in the source, `strcpy` runs past its end. -/
theorem strcpy_none (dst src : List Nat) (hnul : 0 ∉ src) : strcpy dst src = none := by
  unfold strcpy
  rw [if_neg (fun hc => hnul hc.1)]

/-- When the second array holds a NUL and its string fits into the first with
the NUL, `strcmp` stays inside both arrays and returns 0 exactly when the two
strings are equal. -/
theorem strcmp_some (b : List Nat) :
    ∀ a : List Nat, 0 ∈ b → (cstr b).length < a.length →
      ∃ c, strcmp a b = some c ∧ (c = 0 ↔ cstr a = cstr b) := by
  induction b with
  | nil => intro a h; cases h
  | cons y ys ih =>
    intro a hnul hroom
    cases a with
    | nil => simp at hroom
    | cons x xs =>
      unfold strcmp
      by_cases hxy : x ≠ y
      · rw [if_pos hxy]
        refine ⟨_, rfl, ?_⟩
        constructor
        · intro h0; exfalso; omega
        · intro hc
          exfalso
          by_cases hx : x = 0
          · by_cases hy : y = 0
            · exact hxy (hx.trans hy.symm)
            · simp [cstr, List.takeWhile_cons, hx, hy] at hc
          · by_cases hy : y = 0
            · simp [cstr, List.takeWhile_cons, hx, hy] at hc
            · simp [cstr, List.takeWhile_cons, hx, hy] at hc
              exact hxy hc.1
      · have hxy' : x = y := not_not.1 hxy
        rw [if_neg hxy]
        by_cases hx : x = 0
        · rw [if_pos hx]
          refine ⟨0, rfl, ?_⟩
          have hy : y = 0 := hxy'.symm.trans hx
          simp [cstr, List.takeWhile_cons, hx, hy]
        · rw [if_neg hx]
          have hy : y ≠ 0 := fun hc => hx (hxy'.trans hc)
          have hnul' : 0 ∈ ys := by
            rcases List.mem_cons.1 hnul with h0 | h0
            · exact absurd h0.symm hy
            · exact h0
          have hroom' : (cstr ys).length < xs.length := by
            simp [cstr, List.takeWhile_cons, hy] at hroom
            exact hroom
          obtain ⟨c, hc, hiff⟩ := ih xs hnul' hroom'
          refine ⟨c, hc, ?_⟩
          rw [hiff]
          simp [cstr, List.takeWhile_cons, hx, hy, hxy']

theorem hello_decision_iff (nl : List ble_lists_neighborlist_t) (c : Nat) (h : Int) (t l : Nat) :
    hello_decision nl c h t l = true
      ↔ c ≠ NEIGHBOR_NONE
        ∧ (h > -50
          ∨ (h > -80 ∧ sub32 t (nl.getD c default).last_heard_millis < 15000)
          ∨ (h > -95 ∧ sub32 t l > 60000)) := by
  unfold hello_decision
  rw [show HELLO_THRESHOLD_IMMEDIATE = -50 from rfl, show HELLO_THRESHOLD_RECENT = -80 from rfl,
    show HELLO_THRESHOLD_CATCHALL = -95 from rfl, show HELLO_RECENCY_MS = 15000 from rfl,
    show HELLO_CATCHALL_MS = 60000 from rfl]
  by_cases hc : c ≠ NEIGHBOR_NONE
  · rw [if_pos hc]
    by_cases h1 : h > -50
    · rw [if_pos h1]; exact ⟨fun _ => ⟨hc, Or.inl h1⟩, fun _ => rfl⟩
    · rw [if_neg h1]
      by_cases h2 : h > -80 ∧ sub32 t (nl.getD c default).last_heard_millis < 15000
      · rw [if_pos h2]; exact ⟨fun _ => ⟨hc, Or.inr (Or.inl h2)⟩, fun _ => rfl⟩
      · rw [if_neg h2]
        by_cases h3 : h > -95 ∧ sub32 t l > 60000
        · rw [if_pos h3]; exact ⟨fun _ => ⟨hc, Or.inr (Or.inr h3)⟩, fun _ => rfl⟩
        · rw [if_neg h3]
          constructor
          · intro hf; cases hf
          · rintro ⟨_, hr | hr | hr⟩
            · exact absurd hr h1
            · exact absurd hr h2
            · exact absurd hr h3
  · rw [if_neg hc]
    constructor
    · intro hf; cases hf
    · rintro ⟨hc', _⟩; exact absurd hc' hc

theorem choose_hello_true (N : Nat) (s : State) (t cid : Nat) (nm : List Nat)
    (hd : hello_decision s.neighbor_list (hello_scan N s.neighbor_list).1
      (hello_scan N s.neighbor_list).2 t s.last_hello_time = true) :
    ble_lists_choose_hello_neighbor N s t cid nm
      = ({ s with
            last_hello_time := t,
            neighbor_list := s.neighbor_list.set (hello_scan N s.neighbor_list).1
              (hello_fields (s.neighbor_list.getD (hello_scan N s.neighbor_list).1 default)) },
         { hello_found := true,
           hello_company_id :=
            (s.neighbor_list.getD (hello_scan N s.neighbor_list).1 default).company_id,
           hello_name := strcpy nm
            (s.neighbor_list.getD (hello_scan N s.neighbor_list).1 default).name }) := by
  unfold ble_lists_choose_hello_neighbor
  rw [if_pos hd]

theorem choose_hello_false (N : Nat) (s : State) (t cid : Nat) (nm : List Nat)
    (hd : ¬ hello_decision s.neighbor_list (hello_scan N s.neighbor_list).1
      (hello_scan N s.neighbor_list).2 t s.last_hello_time = true) :
    ble_lists_choose_hello_neighbor N s t cid nm
      = (s, { hello_found := false, hello_company_id := cid, hello_name := some nm }) := by
  unfold ble_lists_choose_hello_neighbor
  rw [if_neg hd]

theorem choose_hello_found_iff (N : Nat) (s : State) (t cid : Nat) (nm : List Nat) :
    (ble_lists_choose_hello_neighbor N s t cid nm).2.hello_found = true
      ↔ hello_decision s.neighbor_list (hello_scan N s.neighbor_list).1
          (hello_scan N s.neighbor_list).2 t s.last_hello_time = true := by
  by_cases hd : hello_decision s.neighbor_list (hello_scan N s.neighbor_list).1
      (hello_scan N s.neighbor_list).2 t s.last_hello_time = true
  · rw [choose_hello_true N s t cid nm hd]; exact ⟨fun _ => hd, fun _ => rfl⟩
  · rw [choose_hello_false N s t cid nm hd]
    exact ⟨fun h => (by cases h), fun h => absurd h hd⟩

/-- A Hello selection that returns true took the best candidate. -/
theorem hello_found_best (N : Nat) (s : State) (t cid : Nat) (nm : List Nat)
    (h : (ble_lists_choose_hello_neighbor N s t cid nm).2.hello_found = true) :
    best_candidate N s.neighbor_list (hello_scan N s.neighbor_list).1
      ∧ (s.neighbor_list.getD (hello_scan N s.neighbor_list).1 default).rssi
          = (hello_scan N s.neighbor_list).2 := by
  have hd := (choose_hello_found_iff N s t cid nm).1 h
  have hc := hello_decision_candidate _ _ _ _ _ hd
  rcases hello_scan_spec N s.neighbor_list with ⟨hn, _, _⟩ | ⟨hb, hr, _⟩
  · exact absurd hn hc
  · exact ⟨hb, hr⟩

/-- Whenever `ble_lists_choose_hello_neighbor` returns true, the `company_id` it
writes out is that of the best candidate: the slot that, among the non-empty
slots with the Helloed bit clear, has the highest rssi, and the lowest index
among the slots of that rssi. When the name field of that slot holds a NUL and
its string fits into the output buffer, the name written out is that slot's
too; when the name field holds no NUL, `strcpy` runs past its end. -/
theorem hello_goes_to_best_candidate (N : Nat) (s : State) (t cid : Nat) (nm : List Nat)
    (h : (ble_lists_choose_hello_neighbor N s t cid nm).2.hello_found = true) :
    ∃ c, best_candidate N s.neighbor_list c
      ∧ (ble_lists_choose_hello_neighbor N s t cid nm).2.hello_company_id
          = (s.neighbor_list.getD c default).company_id
      ∧ (0 ∈ (s.neighbor_list.getD c default).name →
          (cstr (s.neighbor_list.getD c default).name).length < nm.length →
          ∃ r, (ble_lists_choose_hello_neighbor N s t cid nm).2.hello_name = some r
            ∧ cstr r = cstr (s.neighbor_list.getD c default).name)
      ∧ (0 ∉ (s.neighbor_list.getD c default).name →
          (ble_lists_choose_hello_neighbor N s t cid nm).2.hello_name = none) := by
  have hb := (hello_found_best N s t cid nm h).1
  have hd := (choose_hello_found_iff N s t cid nm).1 h
  refine ⟨(hello_scan N s.neighbor_list).1, hb, ?_, ?_, ?_⟩
  · rw [choose_hello_true N s t cid nm hd]
  · intro hnul hroom
    rw [choose_hello_true N s t cid nm hd]
    exact strcpy_some nm _ hnul hroom
  · intro hnul
    rw [choose_hello_true N s t cid nm hd]
    exact strcpy_none nm _ hnul

theorem hello_goes_to_best_candidate_example :
    ∃ c, best_candidate 2 full_state.neighbor_list c
      ∧ (ble_lists_choose_hello_neighbor 2 full_state 2500 0 (List.replicate 4 0)).2.hello_company_id
          = (full_state.neighbor_list.getD c default).company_id
      ∧ (0 ∈ (full_state.neighbor_list.getD c default).name →
          (cstr (full_state.neighbor_list.getD c default).name).length
            < (List.replicate 4 0).length →
          ∃ r, (ble_lists_choose_hello_neighbor 2 full_state 2500 0
                (List.replicate 4 0)).2.hello_name = some r
            ∧ cstr r = cstr (full_state.neighbor_list.getD c default).name)
      ∧ (0 ∉ (full_state.neighbor_list.getD c default).name →
          (ble_lists_choose_hello_neighbor 2 full_state 2500 0
            (List.replicate 4 0)).2.hello_name = none) :=
  hello_goes_to_best_candidate 2 full_state 2500 0 (List.replicate 4 0) (by decide)

/-- C12 (the code does not keep the property): a badge advertises the name
"ABCDE"; with `SETTING_NAME_LENGTH = 4`, `strncpy` fills the name field of slot 0
with "ABCD" and no NUL. The Hello selection at 2500 ms returns true for slot 0
and writes out its `company_id`, and `strcpy(hello_name, ...)` is applied to a
name field that holds no string: it runs past the end of the field, whatever
the size of the output buffer, and the name written out is not determined by
the name field. -/
theorem C12_hello_name_copied_past_name_field :
    run insertion_qsort 2 4 (initial_state 2 4) [.advertise long_name_badge 1000]
      = some long_name_state
    ∧ (long_name_state.neighbor_list.getD 0 default).name = [65, 66, 67, 68]
    ∧ 0 ∉ (long_name_state.neighbor_list.getD 0 default).name
    ∧ (hello_scan 2 long_name_state.neighbor_list).1 = 0
    ∧ (ble_lists_choose_hello_neighbor 2 long_name_state 2500 0
        (List.replicate 32 0)).2.hello_found = true
    ∧ (ble_lists_choose_hello_neighbor 2 long_name_state 2500 0
        (List.replicate 32 0)).2.hello_company_id = long_name_badge.company_id
    ∧ (∀ nm, (ble_lists_choose_hello_neighbor 2 long_name_state 2500 0 nm).2.hello_name
        = none) := by
  refine ⟨by decide, by decide, by decide, by decide, by decide, by decide, ?_⟩
  intro nm
  rw [choose_hello_true 2 long_name_state 2500 0 nm (by decide)]
  exact strcpy_none nm _
    (by decide : 0 ∉ (long_name_state.neighbor_list.getD
      (hello_scan 2 long_name_state.neighbor_list).1 default).name)

/-- C13: `ble_lists_choose_hello_neighbor` returns true exactly when there is a
best candidate (so the pool of non-empty, not yet Helloed slots is not empty)
and its rssi `r` satisfies `r > -50`, or `r > -80` with the candidate heard less
than 15000 ms ago, or `r > -95` with more than 60000 ms since the last Hello;
the times are differences of 32-bit clock values. All three rssi comparisons
are strict. -/
theorem C13_hello_fires_iff_threshold (N : Nat) (s : State) (t cid : Nat) (nm : List Nat)
    (hN : N ≤ 255) :
    (ble_lists_choose_hello_neighbor N s t cid nm).2.hello_found = true
      ↔ ∃ c, best_candidate N s.neighbor_list c
          ∧ ((s.neighbor_list.getD c default).rssi > -50
            ∨ ((s.neighbor_list.getD c default).rssi > -80
                ∧ sub32 t (s.neighbor_list.getD c default).last_heard_millis < 15000)
            ∨ ((s.neighbor_list.getD c default).rssi > -95
                ∧ sub32 t s.last_hello_time > 60000)) := by
  constructor
  · intro h
    obtain ⟨hb, hr⟩ := hello_found_best N s t cid nm h
    have hd := (choose_hello_found_iff N s t cid nm).1 h
    rw [hello_decision_iff, ← hr] at hd
    exact ⟨_, hb, hd.2⟩
  · rintro ⟨c, hb, hrule⟩
    rw [choose_hello_found_iff, hello_decision_iff]
    have hgt : (s.neighbor_list.getD c default).rssi > INT8_MIN := by
      rw [show INT8_MIN = -128 from rfl]
      rcases hrule with h1 | h1 | h1 <;> omega
    rcases hello_scan_spec N s.neighbor_list with ⟨_, _, hall⟩ | ⟨hb', hr, _⟩
    · have := hall c hb.1 hb.2.1
      omega
    · have hcc := best_candidate_unique N _ _ _ hb' hb
      rw [← hr, hcc]
      refine ⟨?_, hrule⟩
      rw [show NEIGHBOR_NONE = 255 from rfl]
      have := hb.1
      omega

theorem C13_hello_fires_witness :
    (ble_lists_choose_hello_neighbor 2 boundary_state 2000 0 []).2.hello_found = true
      ↔ ∃ c, best_candidate 2 boundary_state.neighbor_list c
          ∧ ((boundary_state.neighbor_list.getD c default).rssi > -50
            ∨ ((boundary_state.neighbor_list.getD c default).rssi > -80
                ∧ sub32 2000 (boundary_state.neighbor_list.getD c default).last_heard_millis
                  < 15000)
            ∨ ((boundary_state.neighbor_list.getD c default).rssi > -95
                ∧ sub32 2000 boundary_state.last_hello_time > 60000)) :=
  C13_hello_fires_iff_threshold 2 boundary_state 2000 0 [] (by decide)

/-- Both sides of each rssi boundary, for a single candidate: stale and shortly
after start-up, -50 does not fire and -49 does; fresh, -80 does not fire and
-79 does; in a dry spell, -95 does not fire and -94 does. -/
theorem hello_boundaries :
    (ble_lists_choose_hello_neighbor 2
        (state_after 2 4 [.advertise { badge_a with rssi := -50 } 1000]) 20000 0 []
      ).2.hello_found = false
    ∧ (ble_lists_choose_hello_neighbor 2
        (state_after 2 4 [.advertise { badge_a with rssi := -49 } 1000]) 20000 0 []
      ).2.hello_found = true
    ∧ (ble_lists_choose_hello_neighbor 2
        (state_after 2 4 [.advertise { badge_a with rssi := -80 } 1000]) 2000 0 []
      ).2.hello_found = false
    ∧ (ble_lists_choose_hello_neighbor 2
        (state_after 2 4 [.advertise { badge_a with rssi := -79 } 1000]) 2000 0 []
      ).2.hello_found = true
    ∧ (ble_lists_choose_hello_neighbor 2
        (state_after 2 4 [.advertise { badge_a with rssi := -95 } 1000]) 100000 0 []
      ).2.hello_found = false
    ∧ (ble_lists_choose_hello_neighbor 2
        (state_after 2 4 [.advertise { badge_a with rssi := -94 } 1000]) 100000 0 []
      ).2.hello_found = true := by
  decide

theorem or_helloed_byte (x : Nat) (hb : x < 256) :
    (x ||| NLFLAGS_HELLOED) % 256 = x ||| NLFLAGS_HELLOED := by
  rw [show NLFLAGS_HELLOED = 64 from rfl, or_64]
  omega

/-- C14: a call of `ble_lists_choose_hello_neighbor` that returns false returns
the state and both output arguments as they were; a call that returns true
returns the state with `last_hello_time` set to `timenow` and the flags byte
of the chosen slot replaced by itself with `NLFLAGS_HELLOED` set, and nothing
else changed: every other slot, every other field of the chosen slot, and every
other variable are as before. -/
theorem C14_hello_frame (N : Nat) (s : State) (t cid : Nat) (nm : List Nat)
    (hbyte : ∀ i, i < N → (s.neighbor_list.getD i default).flags < 256) :
    ((ble_lists_choose_hello_neighbor N s t cid nm).2.hello_found = false →
      ble_lists_choose_hello_neighbor N s t cid nm
        = (s, { hello_found := false, hello_company_id := cid, hello_name := some nm }))
    ∧ ((ble_lists_choose_hello_neighbor N s t cid nm).2.hello_found = true →
      ∃ c, c < N
        ∧ (ble_lists_choose_hello_neighbor N s t cid nm).1
          = { s with
              last_hello_time := t,
              neighbor_list := s.neighbor_list.set c
                { s.neighbor_list.getD c default with
                  flags := (s.neighbor_list.getD c default).flags ||| NLFLAGS_HELLOED } }
        ∧ ∀ i, i ≠ c →
            (ble_lists_choose_hello_neighbor N s t cid nm).1.neighbor_list.getD i default
              = s.neighbor_list.getD i default) := by
  constructor
  · intro h
    apply choose_hello_false
    intro hd
    rw [(choose_hello_found_iff N s t cid nm).2 hd] at h
    cases h
  · intro h
    have hb := (hello_found_best N s t cid nm h).1
    have hd := (choose_hello_found_iff N s t cid nm).1 h
    refine ⟨(hello_scan N s.neighbor_list).1, hb.1, ?_, ?_⟩
    · rw [choose_hello_true N s t cid nm hd]
      simp only [hello_fields, or_helloed_byte _ (hbyte _ hb.1)]
    · intro i hi
      rw [choose_hello_true N s t cid nm hd]
      exact getD_set_other _ _ i _ default (fun hc => hi hc.symm)

theorem C14_hello_frame_witness :
    ((ble_lists_choose_hello_neighbor 2 full_state 2500 0 []).2.hello_found = false →
      ble_lists_choose_hello_neighbor 2 full_state 2500 0 []
        = (full_state, { hello_found := false, hello_company_id := 0, hello_name := some [] }))
    ∧ ((ble_lists_choose_hello_neighbor 2 full_state 2500 0 []).2.hello_found = true →
      ∃ c, c < 2
        ∧ (ble_lists_choose_hello_neighbor 2 full_state 2500 0 []).1
          = { full_state with
              last_hello_time := 2500,
              neighbor_list := full_state.neighbor_list.set c
                { full_state.neighbor_list.getD c default with
                  flags := (full_state.neighbor_list.getD c default).flags ||| NLFLAGS_HELLOED } }
        ∧ ∀ i, i ≠ c →
            (ble_lists_choose_hello_neighbor 2 full_state 2500 0 []).1.neighbor_list.getD i default
              = full_state.neighbor_list.getD i default) :=
  C14_hello_frame 2 full_state 2500 0 [] (by decide)

/-- C16 (the code does not keep the property): slot 0 holds a Helloed badge with
flags byte 0xC1; the random un-Hello picks slot 0 and leaves its flags byte 0,
not 0x81: `NLFLAGS_VALID` and the advertised flag bit are cleared along with
`NLFLAGS_HELLOED`, and the slot has become empty. -/
theorem C16_unhello_clears_whole_byte :
    run insertion_qsort 2 4 (initial_state 2 4)
        [.advertise badge_a 1000, .advertise badge_b 2000, .choose 2500] = some two_badges_state
    ∧ __random_neighbor 2 two_badges_state.neighbor_list 0 = 0
    ∧ (two_badges_state.neighbor_list.getD 0 default).flags = 0xC1
    ∧ ((ble_lists_randomly_unhello_neighbor 2 two_badges_state 0).neighbor_list.getD 0
        default).flags = 0
    ∧ ((ble_lists_randomly_unhello_neighbor 2 two_badges_state 0).neighbor_list.getD 0
        default).flags ≠ 0xC1 - NLFLAGS_HELLOED := by
  decide

/-- C19 (the code does not keep the property): only slot 1 of the table is
non-empty; whatever the random byte, `count` is 1, `neighbor` is 0, and the
second loop returns index 0 before it looks at the slot's flags: the slot
picked is empty. -/
theorem C19_random_neighbor_picks_empty_slot :
    run insertion_qsort 2 4 (initial_state 2 4) [.advertise badge_c 1000]
      = some (state_after 2 4 [.advertise badge_c 1000])
    ∧ ((state_after 2 4 [.advertise badge_c 1000]).neighbor_list.getD 1 default).flags
        ≠ NLFLAGS_EMPTY
    ∧ (∀ rand8, __random_neighbor 2 (state_after 2 4 [.advertise badge_c 1000]).neighbor_list
        rand8 = 0)
    ∧ ((state_after 2 4 [.advertise badge_c 1000]).neighbor_list.getD 0 default).flags
        = NLFLAGS_EMPTY := by
  refine ⟨by decide, by decide, ?_, by decide⟩
  intro rand8
  have hc : count_neighbors 2 (state_after 2 4 [.advertise badge_c 1000]).neighbor_list = 1 := by
    decide
  unfold __random_neighbor
  rw [hc, Nat.mod_one]
  decide

/-! ## A Helloed record stays Helloed -/

theorem process_advertisement_length (N L : Nat) (s s' : State) (adv : Advertisement) (t : Nat)
    (h : ble_lists_process_advertisement N L s adv t = some s') :
    s'.neighbor_list.length = s.neighbor_list.length := by
  rcases process_advertisement_cases N L s s' adv t h with hs | ⟨i, _, hs⟩ | ⟨i, _, hs⟩
    | ⟨j, _, _, hs⟩
  · rw [hs]
  · rw [hs]; simp [store_info, take_slot]
  · rw [hs]; simp [store_info]
  · rw [hs]; simp [store_info, take_slot]

theorem store_take_getD_other (L : Nat) (nl : List ble_lists_neighborlist_t) (i c : Nat)
    (adv : Advertisement) (t : Nat) (hic : i ≠ c) :
    (store_info L (take_slot nl i adv.ble_address) i adv t).getD c default = nl.getD c default := by
  unfold store_info take_slot
  rw [getD_set_other _ i c _ default hic, getD_set_other _ i c _ default hic]

/-- An advertisement keeps the Helloed bit of a slot that keeps its address. -/
theorem process_advertisement_keeps_helloed (N L : Nat) (s s' : State) (adv : Advertisement)
    (t c : Nat) (hN0 : 0 < N) (hN : N ≤ 255) (hlen : s.neighbor_list.length = N) (hc : c < N)
    (hbit : (s.neighbor_list.getD c default).flags / 64 % 2 = 1)
    (h : ble_lists_process_advertisement N L s adv t = some s')
    (haddr : (s'.neighbor_list.getD c default).ble_address
      = (s.neighbor_list.getD c default).ble_address) :
    (s'.neighbor_list.getD c default).flags / 64 % 2 = 1 := by
  have hcl : c < s.neighbor_list.length := by rw [hlen]; exact hc
  rcases process_advertisement_cases N L s s' adv t h with hs | ⟨i, hp, hs⟩ | ⟨i, hp, hs⟩
    | ⟨j, hp, hj, hs⟩
  · rw [hs]; exact hbit
  · have hpost := probe_place_post N _ _ hN0 hN i hp
    have hic : i ≠ c := by
      intro hic
      rw [hic, show NLFLAGS_EMPTY = 0 from rfl] at hpost
      rw [hpost.2] at hbit
      omega
    rw [hs, store_take_getD_other L _ i c adv t hic]; exact hbit
  · rw [hs]
    unfold store_info
    by_cases hic : i = c
    · subst hic
      rw [getD_set_same _ i _ default hcl, (store_fields_bits L _ adv t).2.1]
      exact hbit
    · rw [getD_set_other _ i c _ default hic]; exact hbit
  · by_cases hjc : j = c
    · exfalso
      subst hjc
      have hpass := (probe_list_full_passes N _ _ hN0 hN hp j hc).2
      rw [hs, store_take_eq L _ j adv t hcl, getD_set_same _ j _ default hcl] at haddr
      have hm : memcpy_address adv.ble_address = (s.neighbor_list.getD j default).ble_address :=
        haddr
      have heq : __ble_address_equal adv.ble_address (s.neighbor_list.getD j default).ble_address
          = true := by
        rw [address_equal_iff, ← hm, memcpy_address_idem]
      rw [heq] at hpass
      cases hpass
    · rw [hs, store_take_getD_other L _ j c adv t hjc]; exact hbit

theorem hello_fields_helloed (r : ble_lists_neighborlist_t) :
    (hello_fields r).flags / 64 % 2 = 1 := by
  show (r.flags ||| 64) % 256 / 64 % 2 = 1
  rw [or_64]
  omega

theorem choose_hello_length (N : Nat) (s : State) (t cid : Nat) (nm : List Nat) :
    (ble_lists_choose_hello_neighbor N s t cid nm).1.neighbor_list.length
      = s.neighbor_list.length := by
  rcases choose_hello_cases N s t cid nm with ⟨h, _⟩ | ⟨_, h, _⟩
  · rw [h]
  · rw [h]; simp

theorem choose_hello_keeps_helloed (N : Nat) (s : State) (t cid : Nat) (nm : List Nat) (c : Nat)
    (hcl : c < s.neighbor_list.length)
    (hbit : (s.neighbor_list.getD c default).flags / 64 % 2 = 1) :
    ((ble_lists_choose_hello_neighbor N s t cid nm).1.neighbor_list.getD c default).flags
      / 64 % 2 = 1 := by
  rcases choose_hello_cases N s t cid nm with ⟨h, _⟩ | ⟨_, h, _⟩
  · rw [h]; exact hbit
  · rw [h]
    by_cases hic : (hello_scan N s.neighbor_list).1 = c
    · rw [hic, getD_set_same _ c _ default hcl]; exact hello_fields_helloed _
    · rw [getD_set_other _ _ c _ default hic]; exact hbit

/-- Along calls other than the random un-Hello, a slot that keeps its address
keeps its Helloed bit. -/
theorem run_keeps_helloed (qsort : (Nat → Nat → Int) → List Nat → List Nat) (N L : Nat)
    (c : Nat) (a : List Nat) (hN0 : 0 < N) (hN : N ≤ 255) (hc : c < N) (ops : List Op) :
    ∀ s s', s.neighbor_list.length = N →
      (s.neighbor_list.getD c default).ble_address = a →
      (s.neighbor_list.getD c default).flags / 64 % 2 = 1 →
      (∀ op, op ∈ ops → op.is_unhello = false) →
      (∀ x, x ∈ states_visited qsort N L s ops → (x.neighbor_list.getD c default).ble_address = a) →
      run qsort N L s ops = some s' →
      s'.neighbor_list.length = N ∧ (s'.neighbor_list.getD c default).flags / 64 % 2 = 1 := by
  induction ops with
  | nil => intro s s' hlen _ hbit _ _ h; cases h; exact ⟨hlen, hbit⟩
  | cons op ops ih =>
    intro s s' hlen ha hbit hops hkept h
    unfold run at h
    cases hs : step qsort N L s op with
    | none => rw [hs] at h; cases h
    | some s1 =>
      rw [hs] at h
      have hmem : s1 ∈ states_visited qsort N L s (op :: ops) := by
        unfold states_visited
        rw [hs]
        exact List.mem_cons_self _ _
      have ha1 := hkept s1 hmem
      have hkept1 : ∀ x, x ∈ states_visited qsort N L s1 ops →
          (x.neighbor_list.getD c default).ble_address = a := by
        intro x hx
        apply hkept
        unfold states_visited
        rw [hs]
        exact List.mem_cons_of_mem _ hx
      have hops1 : ∀ o, o ∈ ops → o.is_unhello = false :=
        fun o ho => hops o (List.mem_cons_of_mem _ ho)
      have hop := hops op (List.mem_cons_self _ _)
      have key : s1.neighbor_list.length = N
          ∧ (s1.neighbor_list.getD c default).flags / 64 % 2 = 1 := by
        cases op with
        | advertise adv t =>
          exact ⟨by rw [process_advertisement_length N L s s1 adv t hs]; exact hlen,
            process_advertisement_keeps_helloed N L s s1 adv t c hN0 hN hlen hc hbit hs
              (by rw [ha1, ha])⟩
        | survey f => cases hs; exact ⟨hlen, hbit⟩
        | choose t =>
          cases hs
          exact ⟨by rw [choose_hello_length]; exact hlen,
            choose_hello_keeps_helloed N s t 0 [] c (by rw [hlen]; exact hc) hbit⟩
        | unhello r => cases hop
      exact ih s1 s' key.1 ha1 key.2 hops1 hkept1 h

/-- C15: after a Hello selection has selected slot `c`, along any further calls
other than the random un-Hello, as long as slot `c` keeps the address it held
(its record is not evicted), no later Hello selection selects slot `c`,
whatever advertisements of that address arrive in between. -/
theorem C15_helloed_record_not_selected_again
    (qsort : (Nat → Nat → Int) → List Nat → List Nat) (N L : Nat) (s1 s2 : State)
    (t1 t2 : Nat) (ops : List Op) (hN0 : 0 < N) (hN : N ≤ 255)
    (hlen : s1.neighbor_list.length = N)
    (hsel : (ble_lists_choose_hello_neighbor N s1 t1 0 []).2.hello_found = true)
    (hops : ∀ op, op ∈ ops → op.is_unhello = false)
    (hrun : run qsort N L (ble_lists_choose_hello_neighbor N s1 t1 0 []).1 ops = some s2)
    (hkept : ∀ x, x ∈ states_visited qsort N L (ble_lists_choose_hello_neighbor N s1 t1 0 []).1 ops →
      (x.neighbor_list.getD (hello_scan N s1.neighbor_list).1 default).ble_address
        = (s1.neighbor_list.getD (hello_scan N s1.neighbor_list).1 default).ble_address) :
    ¬ ((ble_lists_choose_hello_neighbor N s2 t2 0 []).2.hello_found = true
      ∧ (hello_scan N s2.neighbor_list).1 = (hello_scan N s1.neighbor_list).1) := by
  have hb := (hello_found_best N s1 t1 0 [] hsel).1
  have hd := (choose_hello_found_iff N s1 t1 0 []).1 hsel
  have hcl : (hello_scan N s1.neighbor_list).1 < s1.neighbor_list.length := by
    rw [hlen]; exact hb.1
  have h0 : (ble_lists_choose_hello_neighbor N s1 t1 0 []).1.neighbor_list
      = s1.neighbor_list.set (hello_scan N s1.neighbor_list).1
          (hello_fields (s1.neighbor_list.getD (hello_scan N s1.neighbor_list).1 default)) := by
    rw [choose_hello_true N s1 t1 0 [] hd]
  have hinv := run_keeps_helloed qsort N L (hello_scan N s1.neighbor_list).1
    (s1.neighbor_list.getD (hello_scan N s1.neighbor_list).1 default).ble_address
    hN0 hN hb.1 ops _ s2
    (by rw [choose_hello_length]; exact hlen)
    (by rw [h0, getD_set_same _ _ _ default hcl]; rfl)
    (by rw [h0, getD_set_same _ _ _ default hcl]; exact hello_fields_helloed _)
    hops hkept hrun
  rintro ⟨hsel2, hsame⟩
  have hb2 := (hello_found_best N s2 t2 0 [] hsel2).1
  have hel := hb2.2.1.2
  rw [hsame, helloed_iff] at hel
  omega

theorem C15_helloed_record_witness :
    ¬ ((ble_lists_choose_hello_neighbor 2 reheard_state 4000 0 []).2.hello_found = true
      ∧ (hello_scan 2 reheard_state.neighbor_list).1 = (hello_scan 2 full_state.neighbor_list).1) :=
  C15_helloed_record_not_selected_again insertion_qsort 2 4 full_state reheard_state 2500 4000
    [.advertise badge_b_again 3000, .advertise { badge_a with rssi := -20 } 3500]
    (by decide) (by decide) (by decide) (by decide) (by decide) (by decide) (by decide)

/-! ## The display cache -/

theorem invalidate_rows (k : Nat) (d : List ble_lists_displayed_info_t) (hk : k ≤ d.length) :
    ((List.range k).foldl
        (fun d i => d.set i { d.getD i default with itemno := NEIGHBOR_NONE }) d).length
      = d.length
    ∧ ∀ i, i < k →
      (((List.range k).foldl
        (fun d i => d.set i { d.getD i default with itemno := NEIGHBOR_NONE }) d).getD i
          default).itemno = NEIGHBOR_NONE := by
  induction k with
  | zero => exact ⟨rfl, fun i hi => absurd hi (Nat.not_lt_zero i)⟩
  | succ k ih =>
    obtain ⟨hl, hrows⟩ := ih (by omega)
    rw [List.range_succ, List.foldl_append]
    simp only [List.foldl_cons, List.foldl_nil, List.length_set]
    refine ⟨hl, ?_⟩
    intro i hi
    by_cases hik : k = i
    · subst hik
      rw [getD_set_same _ k _ default (by rw [hl]; omega)]
    · rw [getD_set_other _ k i _ default hik]
      exact hrows i (by omega)

theorem invalidate_displayed_rows (d : List ble_lists_displayed_info_t)
    (hlen : d.length = MAX_SCREEN_LINES) (i : Nat) (hi : i < MAX_SCREEN_LINES) :
    ((invalidate_displayed d).getD i default).itemno = NEIGHBOR_NONE :=
  (invalidate_rows MAX_SCREEN_LINES d (by omega)).2 i hi

/-- C17: whatever the display cache held, after `survey_and_sort_neighbors`
every one of its `MAX_SCREEN_LINES` rows has `itemno == NEIGHBOR_NONE`; so the
next diff-only draw of any rank (a rank is not `NEIGHBOR_NONE`) paints the whole
line and leaves the state a full draw leaves. -/
theorem C17_survey_invalidates_display_cache
    (qsort : (Nat → Nat → Int) → List Nat → List Nat) (N : Nat) (s : State) (f : Nat)
    (hlen : s.displayed.length = MAX_SCREEN_LINES) :
    (∀ i, i < MAX_SCREEN_LINES →
      ((survey_and_sort_neighbors qsort N s f).1.displayed.getD i default).itemno
        = NEIGHBOR_NONE)
    ∧ ∀ (MENU_DRAW_UPDATES MENU_DRAW_EVERYTHING itemno : Nat), itemno ≠ NEIGHBOR_NONE →
      (ble_lists_draw_callback MENU_DRAW_UPDATES MENU_DRAW_EVERYTHING
          (survey_and_sort_neighbors qsort N s f).1 itemno MENU_DRAW_UPDATES).2 = .full_line
      ∧ ble_lists_draw_callback MENU_DRAW_UPDATES MENU_DRAW_EVERYTHING
          (survey_and_sort_neighbors qsort N s f).1 itemno MENU_DRAW_UPDATES
        = ble_lists_draw_callback MENU_DRAW_UPDATES MENU_DRAW_EVERYTHING
          (survey_and_sort_neighbors qsort N s f).1 itemno MENU_DRAW_EVERYTHING := by
  have hrows : ∀ i, i < MAX_SCREEN_LINES →
      ((survey_and_sort_neighbors qsort N s f).1.displayed.getD i default).itemno
        = NEIGHBOR_NONE := fun i hi => invalidate_displayed_rows s.displayed hlen i hi
  refine ⟨hrows, ?_⟩
  intro U E itemno hne
  have hmiss : ¬ (U = U
      ∧ ((survey_and_sort_neighbors qsort N s f).1.displayed.getD
          (itemno % MAX_SCREEN_LINES) default).itemno = itemno) := by
    rintro ⟨_, hc⟩
    rw [hrows _ (Nat.mod_lt _ (by decide))] at hc
    exact hne hc.symm
  have hU : ble_lists_draw_callback U E (survey_and_sort_neighbors qsort N s f).1 itemno U
      = ((full_row ((survey_and_sort_neighbors qsort N s f).1.displayed.getD
              (itemno % MAX_SCREEN_LINES) default)
            ((survey_and_sort_neighbors qsort N s f).1.neighbor_list.getD
              ((survey_and_sort_neighbors qsort N s f).1.sorted_index.getD itemno default)
              default) itemno).map
          (fun row => { (survey_and_sort_neighbors qsort N s f).1 with
            displayed := (survey_and_sort_neighbors qsort N s f).1.displayed.set
              (itemno % MAX_SCREEN_LINES) row }),
          .full_line) := by
    unfold ble_lists_draw_callback
    rw [if_neg hmiss, if_pos (Or.inl rfl)]
  refine ⟨by rw [hU], ?_⟩
  rw [hU]
  by_cases hEU : E = U
  · rw [hEU] at hU ⊢
    exact hU.symm
  · unfold ble_lists_draw_callback
    rw [if_neg (fun hc => hEU hc.1), if_pos (Or.inr rfl)]

theorem C17_survey_invalidates_witness :
    (∀ i, i < MAX_SCREEN_LINES →
      ((survey_and_sort_neighbors insertion_qsort 2 drawn_state 0xFF).1.displayed.getD i
        default).itemno = NEIGHBOR_NONE)
    ∧ ∀ (MENU_DRAW_UPDATES MENU_DRAW_EVERYTHING itemno : Nat), itemno ≠ NEIGHBOR_NONE →
      (ble_lists_draw_callback MENU_DRAW_UPDATES MENU_DRAW_EVERYTHING
          (survey_and_sort_neighbors insertion_qsort 2 drawn_state 0xFF).1 itemno
          MENU_DRAW_UPDATES).2 = .full_line
      ∧ ble_lists_draw_callback MENU_DRAW_UPDATES MENU_DRAW_EVERYTHING
          (survey_and_sort_neighbors insertion_qsort 2 drawn_state 0xFF).1 itemno
          MENU_DRAW_UPDATES
        = ble_lists_draw_callback MENU_DRAW_UPDATES MENU_DRAW_EVERYTHING
          (survey_and_sort_neighbors insertion_qsort 2 drawn_state 0xFF).1 itemno
          MENU_DRAW_EVERYTHING :=
  C17_survey_invalidates_display_cache insertion_qsort 2 drawn_state 0xFF (by decide)

/-- When `strcmp` returns 0, both arrays hold a NUL where it stopped. -/
theorem strcmp_zero_mem (b : List Nat) :
    ∀ a : List Nat, strcmp a b = some 0 → 0 ∈ b := by
  induction b with
  | nil =>
    intro a h
    cases a <;> simp [strcmp] at h
  | cons y ys ih =>
    intro a h
    cases a with
    | nil => simp [strcmp] at h
    | cons x xs =>
      unfold strcmp at h
      by_cases hxy : x ≠ y
      · rw [if_pos hxy] at h
        exfalso
        simp only [Option.some.injEq] at h
        omega
      · rw [if_neg hxy] at h
        by_cases hx : x = 0
        · have hy : y = 0 := (not_not.1 hxy).symm.trans hx
          rw [hy]
          exact List.mem_cons_self _ _
        · rw [if_neg hx] at h
          exact List.mem_cons_of_mem _ (ih xs h)

/-- The cache row a diff-only draw leaves when the record's name field holds a
NUL and its string fits into the row's name field: the rank it had, the name
and the rssi of the record. -/
theorem update_row_holds (shown : ble_lists_displayed_info_t)
    (neighbor : ble_lists_neighborlist_t) (compared : Int)
    (hcmp : strcmp shown.name neighbor.name = some compared)
    (hnul : 0 ∈ neighbor.name) (hroom : (cstr neighbor.name).length < shown.name.length) :
    ∃ row, update_row shown neighbor compared = some row
      ∧ row.itemno = shown.itemno
      ∧ cstr row.name = cstr neighbor.name
      ∧ row.rssi = neighbor.rssi := by
  have hrssi : (if shown.rssi ≠ neighbor.rssi then neighbor.rssi else shown.rssi)
      = neighbor.rssi := by
    by_cases h : shown.rssi ≠ neighbor.rssi
    · rw [if_pos h]
    · rw [if_neg h]; exact not_not.1 h
  obtain ⟨c, hc, hiff⟩ := strcmp_some neighbor.name shown.name hnul hroom
  rw [hcmp] at hc
  cases hc
  unfold update_row
  by_cases h0 : 0 ≠ compared
  · rw [if_pos h0]
    obtain ⟨r, hr, hcs⟩ := strcpy_some shown.name neighbor.name hnul hroom
    rw [hr]
    exact ⟨_, rfl, rfl, hcs, hrssi⟩
  · rw [if_neg h0]
    exact ⟨_, rfl, rfl, hiff.1 (not_not.1 h0).symm, hrssi⟩

/-- What `ble_lists_draw_callback` does to the display cache. In redraw mode
`MENU_DRAW_UPDATES` or `MENU_DRAW_EVERYTHING`, when the name field of the
record at rank `itemno`, `neighbor_list[sorted_index[itemno]]`, holds a NUL and
its string fits into the name field of the cache row
`itemno % MAX_SCREEN_LINES`, that row holds `itemno` together with the name (as
a string) and the rssi of the record after the call, and every other cache row
and every other variable is unchanged; when the name field of the record holds
no NUL, `strcmp` or `strcpy` runs past its end. In any other redraw mode the
state is unchanged and the error is reported. -/
theorem draw_updates_one_cache_row (MENU_DRAW_UPDATES MENU_DRAW_EVERYTHING : Nat)
    (s : State) (itemno menu_draw_method : Nat)
    (hlen : s.displayed.length = MAX_SCREEN_LINES) :
    ((menu_draw_method = MENU_DRAW_UPDATES ∨ menu_draw_method = MENU_DRAW_EVERYTHING) →
      0 ∈ (s.neighbor_list.getD (s.sorted_index.getD itemno default) default).name →
      (cstr (s.neighbor_list.getD (s.sorted_index.getD itemno default) default).name).length
        < (s.displayed.getD (itemno % MAX_SCREEN_LINES) default).name.length →
      ∃ s', (ble_lists_draw_callback MENU_DRAW_UPDATES MENU_DRAW_EVERYTHING s itemno
          menu_draw_method).1 = some s'
        ∧ (s'.displayed.getD (itemno % MAX_SCREEN_LINES) default).itemno = itemno
        ∧ cstr (s'.displayed.getD (itemno % MAX_SCREEN_LINES) default).name
            = cstr (s.neighbor_list.getD (s.sorted_index.getD itemno default) default).name
        ∧ (s'.displayed.getD (itemno % MAX_SCREEN_LINES) default).rssi
            = (s.neighbor_list.getD (s.sorted_index.getD itemno default) default).rssi
        ∧ (∀ j, j ≠ itemno % MAX_SCREEN_LINES →
            s'.displayed.getD j default = s.displayed.getD j default)
        ∧ { s' with displayed := s.displayed } = s)
    ∧ ((menu_draw_method = MENU_DRAW_UPDATES ∨ menu_draw_method = MENU_DRAW_EVERYTHING) →
      0 ∉ (s.neighbor_list.getD (s.sorted_index.getD itemno default) default).name →
      (ble_lists_draw_callback MENU_DRAW_UPDATES MENU_DRAW_EVERYTHING s itemno
        menu_draw_method).1 = none)
    ∧ (menu_draw_method ≠ MENU_DRAW_UPDATES → menu_draw_method ≠ MENU_DRAW_EVERYTHING →
      ble_lists_draw_callback MENU_DRAW_UPDATES MENU_DRAW_EVERYTHING s itemno menu_draw_method
        = (some s, .bad_redraw)) := by
  have hrow : itemno % MAX_SCREEN_LINES < s.displayed.length := by
    rw [hlen]; exact Nat.mod_lt _ (by decide)
  refine ⟨?_, ?_, ?_⟩
  · intro hm hnul hroom
    unfold ble_lists_draw_callback
    by_cases hhit : menu_draw_method = MENU_DRAW_UPDATES
        ∧ (s.displayed.getD (itemno % MAX_SCREEN_LINES) default).itemno = itemno
    · rw [if_pos hhit]
      obtain ⟨c, hc, _⟩ := strcmp_some _ _ hnul hroom
      rw [hc]
      obtain ⟨row, hr, h1, h2, h3⟩ := update_row_holds _ _ c hc hnul hroom
      simp only [hr, Option.map_some']
      refine ⟨_, rfl, ?_, ?_, ?_, ?_, rfl⟩
      · show ((s.displayed.set _ _).getD _ default).itemno = itemno
        rw [getD_set_same _ _ _ default hrow, h1]; exact hhit.2
      · show cstr ((s.displayed.set _ _).getD _ default).name = _
        rw [getD_set_same _ _ _ default hrow]; exact h2
      · show ((s.displayed.set _ _).getD _ default).rssi = _
        rw [getD_set_same _ _ _ default hrow]; exact h3
      · intro j hj
        exact getD_set_other _ _ j _ default (fun hc => hj hc.symm)
    · rw [if_neg hhit, if_pos hm]
      obtain ⟨r, hr, hcs⟩ := strcpy_some _ _ hnul hroom
      simp only [full_row, hr, Option.map_some']
      refine ⟨_, rfl, ?_, ?_, ?_, ?_, rfl⟩
      · show ((s.displayed.set _ _).getD _ default).itemno = itemno
        rw [getD_set_same _ _ _ default hrow]
      · show cstr ((s.displayed.set _ _).getD _ default).name = _
        rw [getD_set_same _ _ _ default hrow]; exact hcs
      · show ((s.displayed.set _ _).getD _ default).rssi = _
        rw [getD_set_same _ _ _ default hrow]
      · intro j hj
        exact getD_set_other _ _ j _ default (fun hc => hj hc.symm)
  · intro hm hnul
    unfold ble_lists_draw_callback
    by_cases hhit : menu_draw_method = MENU_DRAW_UPDATES
        ∧ (s.displayed.getD (itemno % MAX_SCREEN_LINES) default).itemno = itemno
    · rw [if_pos hhit]
      cases hc : strcmp (s.displayed.getD (itemno % MAX_SCREEN_LINES) default).name
          (s.neighbor_list.getD (s.sorted_index.getD itemno default) default).name with
      | none => rfl
      | some c =>
        have h0 : 0 ≠ c := by
          intro h0
          rw [← h0] at hc
          exact hnul (strcmp_zero_mem _ _ hc)
        simp only [update_row, if_pos h0, strcpy_none _ _ hnul, Option.map_none']
    · rw [if_neg hhit, if_pos hm]
      simp only [full_row, strcpy_none _ _ hnul, Option.map_none']
  · intro h1 h2
    unfold ble_lists_draw_callback
    rw [if_neg (fun hc => h1 hc.1), if_neg (fun hc => hc.elim h1 h2)]

theorem draw_updates_one_cache_row_example :
    ∃ s', (ble_lists_draw_callback 1 0 drawn_state 1 1).1 = some s'
      ∧ (s'.displayed.getD (1 % MAX_SCREEN_LINES) default).itemno = 1
      ∧ cstr (s'.displayed.getD (1 % MAX_SCREEN_LINES) default).name
          = cstr (drawn_state.neighbor_list.getD (drawn_state.sorted_index.getD 1 default)
              default).name
      ∧ (s'.displayed.getD (1 % MAX_SCREEN_LINES) default).rssi
          = (drawn_state.neighbor_list.getD (drawn_state.sorted_index.getD 1 default)
              default).rssi
      ∧ (∀ j, j ≠ 1 % MAX_SCREEN_LINES →
          s'.displayed.getD j default = drawn_state.displayed.getD j default)
      ∧ { s' with displayed := drawn_state.displayed } = drawn_state :=
  (draw_updates_one_cache_row 1 0 drawn_state 1 1 (by decide)).1 (Or.inl rfl) (by decide)
    (by decide)

/-- C18 (the code does not keep the property): a badge advertises the name
"ABCDE"; with `SETTING_NAME_LENGTH = 4`, `strncpy` fills the name field of slot 0
with "ABCD" and no NUL. The rank rebuild returns 1 with slot 0 at rank 0. The
draw of rank 0, in `MENU_DRAW_EVERYTHING` (0) as in `MENU_DRAW_UPDATES` (1)
mode, applies `strcpy(displayed[0].name, ...)` to a name field that holds no
string: the copy runs past the end of the field, and past the 4 bytes of the
name field of the cache row; what the display cache holds afterwards is not
determined by the name field. -/
theorem C18_draw_copies_past_name_field :
    run insertion_qsort 2 4 (initial_state 2 4) [.advertise long_name_badge 1000, .survey 0xFF]
      = some long_name_ranked
    ∧ (survey_and_sort_neighbors insertion_qsort 2 long_name_state 0xFF).2 = 1
    ∧ long_name_ranked.sorted_index.getD 0 default = 0
    ∧ (long_name_ranked.neighbor_list.getD 0 default).name = [65, 66, 67, 68]
    ∧ 0 ∉ (long_name_ranked.neighbor_list.getD 0 default).name
    ∧ (long_name_ranked.displayed.getD 0 default).name.length = 4
    ∧ (ble_lists_draw_callback 1 0 long_name_ranked 0 0).1 = none
    ∧ (ble_lists_draw_callback 1 0 long_name_ranked 0 1).1 = none := by
  refine ⟨by decide, by decide, by decide, by decide, by decide, by decide, by decide,
    by decide⟩

/-! ## The recorded expiration time and the scan for the oldest entry -/

theorem getD_set_cases {α : Type} (l : List α) (i j : Nat) (a d : α) :
    (l.set i a).getD j d = if i = j ∧ i < l.length then a else l.getD j d := by
  by_cases h : i = j
  · subst h
    by_cases hl : i < l.length
    · rw [if_pos ⟨rfl, hl⟩]; exact getD_set_same l i a d hl
    · rw [if_neg (fun hc => hl hc.2), List.set_eq_of_length_le (Nat.le_of_not_lt hl)]
  · rw [if_neg (fun hc => h hc.1)]; exact getD_set_other l i j a d h

/-- A store that leaves `last_heard_millis` of the record alone leaves it alone
in every slot. -/
theorem set_fields_heard (f : ble_lists_neighborlist_t → ble_lists_neighborlist_t)
    (hf : ∀ r, (f r).last_heard_millis = r.last_heard_millis)
    (nl : List ble_lists_neighborlist_t) (i j : Nat) :
    ((nl.set i (f (nl.getD i default))).getD j default).last_heard_millis
      = (nl.getD j default).last_heard_millis := by
  rw [getD_set_cases]
  by_cases h : i = j ∧ i < nl.length
  · rw [if_pos h, hf, h.1]
  · rw [if_neg h]

theorem store_info_heard (L : Nat) (nl : List ble_lists_neighborlist_t) (i : Nat)
    (adv : Advertisement) (t j : Nat) :
    ((store_info L nl i adv t).getD j default).last_heard_millis = t
    ∨ ((store_info L nl i adv t).getD j default).last_heard_millis
      = (nl.getD j default).last_heard_millis := by
  unfold store_info
  rw [getD_set_cases]
  by_cases h : i = j ∧ i < nl.length
  · rw [if_pos h]; exact Or.inl rfl
  · rw [if_neg h]; exact Or.inr rfl

theorem store_take_heard (L : Nat) (nl : List ble_lists_neighborlist_t) (i : Nat)
    (adv : Advertisement) (t j : Nat) :
    ((store_info L (take_slot nl i adv.ble_address) i adv t).getD j default).last_heard_millis = t
    ∨ ((store_info L (take_slot nl i adv.ble_address) i adv t).getD j default).last_heard_millis
      = (nl.getD j default).last_heard_millis := by
  rcases store_info_heard L (take_slot nl i adv.ble_address) i adv t j with h | h
  · exact Or.inl h
  · right
    rw [h]
    exact set_fields_heard (fun r => take_fields r adv.ble_address) (fun _ => rfl) nl i j

/-- The invariant survives a call that leaves the recorded expiration time
alone and stores the present clock reading in some slots. -/
theorem expiration_ok_of (N T t : Nat) (s s' : State) (hT : T ≤ t) (h : expiration_ok N T s)
    (hexp : s'.neighbor_list_next_expiration = s.neighbor_list_next_expiration)
    (hh : ∀ j, (s'.neighbor_list.getD j default).last_heard_millis = t
      ∨ (s'.neighbor_list.getD j default).last_heard_millis
        = (s.neighbor_list.getD j default).last_heard_millis) :
    expiration_ok N t s' := by
  intro j hj
  obtain ⟨h1, h2⟩ := h j hj
  rw [hexp]
  rcases hh j with e | e
  · rw [e]; omega
  · rw [e]; omega

/-- With every slot heard before the last millisecond of the 32-bit clock, the
scan for the oldest entry finds a slot. -/
theorem find_oldest_found (N T : Nat) (nl : List ble_lists_neighborlist_t) (hN0 : 0 < N)
    (hT : T < UINT32_MAX) (h : ∀ j, j < N → (nl.getD j default).last_heard_millis ≤ T) :
    ∃ j, (find_oldest N nl).2 = some j ∧ j < N
      ∧ (nl.getD j default).last_heard_millis = (find_oldest N nl).1
      ∧ (find_oldest N nl).1 ≤ T := by
  obtain ⟨_, h2, h3⟩ := find_oldest_spec N nl
  have h0 := h2 0 hN0
  have h0T := h 0 hN0
  cases hj : (find_oldest N nl).2 with
  | none => rw [hj] at h3; omega
  | some j =>
    rw [hj] at h3
    exact ⟨j, rfl, h3.1, h3.2.1, by omega⟩

theorem process_advertisement_expiration_ok (N L T t : Nat) (s s' : State) (adv : Advertisement)
    (hT : T ≤ t) (h : expiration_ok N T s)
    (hs : ble_lists_process_advertisement N L s adv t = some s') : expiration_ok N t s' := by
  unfold ble_lists_process_advertisement at hs
  split at hs
  · cases hs; exact expiration_ok_of N T t s s hT h rfl (fun _ => Or.inr rfl)
  · split at hs
    · cases hs
    · cases hs
      exact expiration_ok_of N T t s _ hT h rfl (fun j => store_take_heard L _ _ adv t j)
    · cases hs
      exact expiration_ok_of N T t s _ hT h rfl (fun j => store_info_heard L _ _ adv t j)
    · unfold list_full_case at hs
      split at hs
      · cases hs; exact expiration_ok_of N T t s s hT h rfl (fun _ => Or.inr rfl)
      · split at hs
        · cases hs
          intro j hj
          obtain ⟨h1, _⟩ := h j hj
          have h2 := (find_oldest_spec N s.neighbor_list).2.1 j hj
          have h3 := Nat.mod_le ((find_oldest N s.neighbor_list).1 + NEIGHBOR_REUSE_AGE)
            4294967296
          constructor
          · exact Nat.le_trans h1 hT
          · show ((find_oldest N s.neighbor_list).1 + NEIGHBOR_REUSE_AGE) % 4294967296
              ≤ (s.neighbor_list.getD j default).last_heard_millis + NEIGHBOR_REUSE_AGE
            omega
        · split at hs
          · cases hs
          · cases hs
            exact expiration_ok_of N T t s _ hT h rfl (fun j => store_take_heard L _ _ adv t j)

theorem forget_expiration_eq_iff (a b : State) :
    forget_expiration a = forget_expiration b
      ↔ a.neighbor_list = b.neighbor_list ∧ a.sorted_index = b.sorted_index
        ∧ a.displayed = b.displayed ∧ a.updates_frozen = b.updates_frozen
        ∧ a.last_hello_time = b.last_hello_time := by
  cases a
  cases b
  simp [forget_expiration]

theorem oldest_slot_succ (N : Nat) (nl : List ble_lists_neighborlist_t) :
    oldest_slot (N + 1) nl
      = if (nl.getD N default).last_heard_millis
            < (nl.getD (oldest_slot N nl) default).last_heard_millis then N
        else oldest_slot N nl := by
  simp only [oldest_slot, List.range_succ, List.foldl_append, List.foldl_cons, List.foldl_nil]

theorem oldest_slot_lt (N : Nat) (nl : List ble_lists_neighborlist_t) (hN0 : 0 < N) :
    oldest_slot N nl < N := by
  induction N with
  | zero => omega
  | succ k ih =>
    rw [oldest_slot_succ]
    split
    · omega
    · rcases Nat.eq_zero_or_pos k with h0 | hpos
      · subst h0
        show (0 : Nat) < 1
        omega
      · have := ih hpos
        omega

/-- While every slot was heard before the last millisecond of the 32-bit clock,
the scan of the code finds the oldest slot of the specification. -/
theorem find_oldest_eq_oldest_slot (k : Nat) (nl : List ble_lists_neighborlist_t)
    (h : ∀ j, j < k + 1 → (nl.getD j default).last_heard_millis < UINT32_MAX) :
    find_oldest (k + 1) nl
      = ((nl.getD (oldest_slot (k + 1) nl) default).last_heard_millis,
         some (oldest_slot (k + 1) nl)) := by
  induction k with
  | zero =>
    rw [find_oldest_succ, oldest_slot_succ]
    have h0 : (nl.getD 0 default).last_heard_millis < (find_oldest 0 nl).1 := h 0 (by omega)
    have hz : oldest_slot 0 nl = 0 := rfl
    rw [if_pos h0, hz, if_neg (Nat.lt_irrefl _)]
  | succ k ih =>
    have ih' := ih (fun j hj => h j (by omega))
    rw [find_oldest_succ, oldest_slot_succ (k + 1), ih']
    simp only
    by_cases hlt : (nl.getD (k + 1) default).last_heard_millis
        < (nl.getD (oldest_slot (k + 1) nl) default).last_heard_millis
    · rw [if_pos hlt, if_pos hlt]
    · rw [if_neg hlt, if_neg hlt]

/-- One advertisement in the code and in the specification without the
short-circuit: while the clock is non-decreasing and more than
`NEIGHBOR_REUSE_AGE` away from the 32-bit wrap, both return, and from states
that agree except in the recorded expiration time they lead to states that
agree except in it. -/
theorem spec_update_refines (N L T t : Nat) (s s' : State) (adv : Advertisement)
    (hN0 : 0 < N) (hN : N ≤ 255) (hT : T ≤ t) (ht : t + NEIGHBOR_REUSE_AGE < 4294967296)
    (h : expiration_ok N T s) (hR : forget_expiration s = forget_expiration s') :
    ∃ r r', ble_lists_process_advertisement N L s adv t = some r
      ∧ spec_update N L s' adv t = some r'
      ∧ forget_expiration r = forget_expiration r' := by
  obtain ⟨h1, h2, h3, h4, h5⟩ := (forget_expiration_eq_iff s s').1 hR
  have hnl : s'.neighbor_list = s.neighbor_list := h1.symm
  have hfz : s'.updates_frozen = s.updates_frozen := h4.symm
  unfold ble_lists_process_advertisement spec_update
  rw [hnl]
  by_cases hf : s.updates_frozen = true
  · rw [if_pos hf, if_pos (hfz.trans hf)]
    exact ⟨s, s', rfl, rfl, hR⟩
  · rw [if_neg hf, if_neg (fun hc => hf (hfz.symm.trans hc))]
    obtain ⟨r, hp, _⟩ := probe_total N s.neighbor_list adv.ble_address hN0 hN
    rw [hp]
    cases r with
    | place i => exact ⟨_, _, rfl, rfl, (forget_expiration_eq_iff _ _).2 ⟨rfl, h2, h3, h4, h5⟩⟩
    | matching i => exact ⟨_, _, rfl, rfl, (forget_expiration_eq_iff _ _).2 ⟨rfl, h2, h3, h4, h5⟩⟩
    | list_full =>
      show ∃ r r', list_full_case N L s adv t = some r
        ∧ some (spec_table_full N L s' adv t) = some r'
        ∧ forget_expiration r = forget_expiration r'
      unfold list_full_case spec_table_full
      rw [hnl]
      have hRA : NEIGHBOR_REUSE_AGE = 180000 := rfl
      rw [hRA] at ht
      have hslot := oldest_slot_lt N s.neighbor_list hN0
      have hfo : find_oldest N s.neighbor_list
          = ((s.neighbor_list.getD (oldest_slot N s.neighbor_list) default).last_heard_millis,
             some (oldest_slot N s.neighbor_list)) := by
        obtain ⟨k, rfl⟩ : ∃ k, N = k + 1 := ⟨N - 1, by omega⟩
        apply find_oldest_eq_oldest_slot
        intro j hj
        have := (h j hj).1
        show _ < 4294967295
        omega
      obtain ⟨hle, hexp⟩ := h _ hslot
      rw [hRA] at hexp
      rw [hfo, hRA]
      simp only
      rw [Nat.mod_eq_of_lt (by omega :
        (s.neighbor_list.getD (oldest_slot N s.neighbor_list) default).last_heard_millis + 180000
          < 4294967296)]
      by_cases hsc : s.neighbor_list_next_expiration > t
      · rw [if_pos hsc, if_pos (by omega)]
        exact ⟨_, _, rfl, rfl, (forget_expiration_eq_iff _ _).2 ⟨rfl, h2, h3, h4, h5⟩⟩
      · rw [if_neg hsc]
        by_cases hy : (s.neighbor_list.getD (oldest_slot N s.neighbor_list)
            default).last_heard_millis + 180000 > t
        · rw [if_pos hy, if_pos (by omega)]
          exact ⟨_, _, rfl, rfl, (forget_expiration_eq_iff _ _).2 ⟨rfl, h2, h3, h4, h5⟩⟩
        · rw [if_neg hy, if_neg (by omega)]
          exact ⟨_, _, rfl, rfl, (forget_expiration_eq_iff _ _).2 ⟨rfl, h2, h3, h4, h5⟩⟩

theorem survey_forget_expiration (qsort : (Nat → Nat → Int) → List Nat → List Nat) (N : Nat)
    (s : State) (f : Nat) :
    forget_expiration (survey_and_sort_neighbors qsort N s f).1
      = (survey_and_sort_neighbors qsort N (forget_expiration s) f).1 := rfl

theorem choose_hello_forget_expiration (N : Nat) (s : State) (t cid : Nat) (nm : List Nat) :
    forget_expiration (ble_lists_choose_hello_neighbor N s t cid nm).1
      = (ble_lists_choose_hello_neighbor N (forget_expiration s) t cid nm).1 := by
  unfold ble_lists_choose_hello_neighbor
  by_cases hd : hello_decision s.neighbor_list (hello_scan N s.neighbor_list).1
      (hello_scan N s.neighbor_list).2 t s.last_hello_time = true
  · have hd' : hello_decision (forget_expiration s).neighbor_list
        (hello_scan N (forget_expiration s).neighbor_list).1
        (hello_scan N (forget_expiration s).neighbor_list).2 t
        (forget_expiration s).last_hello_time = true := hd
    rw [if_pos hd, if_pos hd']
    rfl
  · have hd' : ¬ hello_decision (forget_expiration s).neighbor_list
        (hello_scan N (forget_expiration s).neighbor_list).1
        (hello_scan N (forget_expiration s).neighbor_list).2 t
        (forget_expiration s).last_hello_time = true := hd
    rw [if_neg hd, if_neg hd']

theorem unhello_forget_expiration (N : Nat) (s : State) (rand8 : Nat) :
    forget_expiration (ble_lists_randomly_unhello_neighbor N s rand8)
      = ble_lists_randomly_unhello_neighbor N (forget_expiration s) rand8 := by
  unfold ble_lists_randomly_unhello_neighbor
  by_cases hd : __random_neighbor N s.neighbor_list rand8 ≠ NEIGHBOR_NONE
  · have hd' : __random_neighbor N (forget_expiration s).neighbor_list rand8 ≠ NEIGHBOR_NONE :=
      hd
    rw [if_pos hd, if_pos hd']
    rfl
  · have hd' : ¬ __random_neighbor N (forget_expiration s).neighbor_list rand8
        ≠ NEIGHBOR_NONE := hd
    rw [if_neg hd, if_neg hd']

theorem choose_hello_expiration_ok (N T t : Nat) (s : State) (cid : Nat) (nm : List Nat)
    (hT : T ≤ t) (h : expiration_ok N T s) :
    expiration_ok N t (ble_lists_choose_hello_neighbor N s t cid nm).1 := by
  rcases choose_hello_cases N s t cid nm with ⟨hs, _⟩ | ⟨_, hs, _⟩
  · rw [hs]; exact expiration_ok_of N T t s s hT h rfl (fun _ => Or.inr rfl)
  · rw [hs]
    exact expiration_ok_of N T t s _ hT h rfl
      (fun j => Or.inr (set_fields_heard hello_fields (fun _ => rfl) s.neighbor_list _ j))

theorem unhello_expiration_ok (N T : Nat) (s : State) (rand8 : Nat) (h : expiration_ok N T s) :
    expiration_ok N T (ble_lists_randomly_unhello_neighbor N s rand8) := by
  unfold ble_lists_randomly_unhello_neighbor
  by_cases hd : __random_neighbor N s.neighbor_list rand8 ≠ NEIGHBOR_NONE
  · rw [if_pos hd]
    exact expiration_ok_of N T T s _ (Nat.le_refl T) h rfl
      (fun j => Or.inr (set_fields_heard unhello_fields (fun _ => rfl) s.neighbor_list _ j))
  · rw [if_neg hd]; exact h

theorem survey_expiration_ok (qsort : (Nat → Nat → Int) → List Nat → List Nat) (N T : Nat)
    (s : State) (f : Nat) (h : expiration_ok N T s) :
    expiration_ok N T (survey_and_sort_neighbors qsort N s f).1 := h

theorem clock_ok_append (limit : Nat) (ops ops2 : List Op) :
    ∀ T, clock_ok limit T (ops ++ ops2)
      = (clock_ok limit T ops && clock_ok limit (last_time T ops) ops2) := by
  induction ops with
  | nil => intro T; simp [clock_ok, last_time]
  | cons op ops ih =>
    intro T
    rw [List.cons_append]
    cases ht : op.time with
    | none => simp only [clock_ok, last_time, ht]; exact ih T
    | some t => simp only [clock_ok, last_time, ht, ih t, Bool.and_assoc]

theorem expiration_ok_initial (N L : Nat) : expiration_ok N 0 (initial_state N L) := by
  intro j hj
  have : (initial_state N L).neighbor_list.getD j default = zero_neighbor L := by
    show (List.replicate N (zero_neighbor L)).getD j default = zero_neighbor L
    rw [List.getD_eq_getElem _ _ (by simpa using hj)]
    simp
  rw [this]
  exact ⟨Nat.le_refl 0, Nat.zero_le _⟩

/-- The invariant `expiration_ok` along a sequence of calls under a
non-decreasing clock. -/
theorem run_expiration_ok (qsort : (Nat → Nat → Int) → List Nat → List Nat) (N L limit : Nat)
    (ops : List Op) :
    ∀ (s r : State) (T : Nat), clock_ok limit T ops = true → expiration_ok N T s →
      run qsort N L s ops = some r → expiration_ok N (last_time T ops) r := by
  induction ops with
  | nil => intro s r T _ h hr; cases hr; exact h
  | cons op ops ih =>
    intro s r T hc h hr
    unfold run at hr
    split at hr
    · cases hr
    · rename_i s1 hs1
      cases op with
      | advertise adv t =>
        simp only [clock_ok, Op.time, Bool.and_eq_true, decide_eq_true_eq] at hc
        obtain ⟨⟨hTt, _⟩, hc'⟩ := hc
        exact ih s1 r t hc' (process_advertisement_expiration_ok N L T t s s1 adv hTt h hs1) hr
      | survey f =>
        have hc' : clock_ok limit T ops = true := hc
        simp only [step, Option.some.injEq] at hs1
        rw [← hs1] at hr
        exact ih _ r T hc' (survey_expiration_ok qsort N T s f h) hr
      | choose t =>
        simp only [clock_ok, Op.time, Bool.and_eq_true, decide_eq_true_eq] at hc
        obtain ⟨⟨hTt, _⟩, hc'⟩ := hc
        simp only [step, Option.some.injEq] at hs1
        rw [← hs1] at hr
        exact ih _ r t hc' (choose_hello_expiration_ok N T t s 0 [] hTt h) hr
      | unhello rand8 =>
        have hc' : clock_ok limit T ops = true := hc
        simp only [step, Option.some.injEq] at hs1
        rw [← hs1] at hr
        exact ih _ r T hc' (unhello_expiration_ok N T s rand8 h) hr

/-- A sequence of calls in the code and in the specification without the
short-circuit: while the clock is non-decreasing and stays more than
`NEIGHBOR_REUSE_AGE` away from the 32-bit wrap, both runs return and their
states agree except in the recorded expiration time. -/
theorem spec_run_refines (qsort : (Nat → Nat → Int) → List Nat → List Nat) (N L : Nat)
    (hN0 : 0 < N) (hN : N ≤ 255) (ops : List Op) :
    ∀ (s s' : State) (T : Nat),
      clock_ok (4294967296 - NEIGHBOR_REUSE_AGE) T ops = true →
      expiration_ok N T s → forget_expiration s = forget_expiration s' →
      ∃ r r', run qsort N L s ops = some r
        ∧ spec_run qsort N L s' ops = some r'
        ∧ forget_expiration r = forget_expiration r' := by
  induction ops with
  | nil => intro s s' T _ h hR; exact ⟨s, s', rfl, rfl, hR⟩
  | cons op ops ih =>
    intro s s' T hc h hR
    cases op with
    | advertise adv t =>
      simp only [clock_ok, Op.time, Bool.and_eq_true, decide_eq_true_eq] at hc
      obtain ⟨⟨hTt, htl⟩, hc'⟩ := hc
      obtain ⟨r1, r1', e1, e1', hR1⟩ := spec_update_refines N L T t s s' adv hN0 hN
        hTt (by have hRA : NEIGHBOR_REUSE_AGE = 180000 := rfl
                rw [hRA] at htl ⊢; omega) h hR
      have h1 := process_advertisement_expiration_ok N L T t s r1 adv hTt h e1
      obtain ⟨r, r', e, e', hRr⟩ := ih r1 r1' t hc' h1 hR1
      refine ⟨r, r', ?_, ?_, hRr⟩
      · simp only [run, step, e1]; exact e
      · simp only [spec_run, spec_step, e1']; exact e'
    | survey f =>
      have hc' : clock_ok (4294967296 - NEIGHBOR_REUSE_AGE) T ops = true := hc
      exact ih (survey_and_sort_neighbors qsort N s f).1 (survey_and_sort_neighbors qsort N s' f).1
        T hc' (survey_expiration_ok qsort N T s f h)
        (by rw [survey_forget_expiration, survey_forget_expiration, hR])
    | choose t =>
      simp only [clock_ok, Op.time, Bool.and_eq_true, decide_eq_true_eq] at hc
      obtain ⟨⟨hTt, _⟩, hc'⟩ := hc
      exact ih (ble_lists_choose_hello_neighbor N s t 0 []).1
        (ble_lists_choose_hello_neighbor N s' t 0 []).1
        t hc' (choose_hello_expiration_ok N T t s 0 [] hTt h)
        (by rw [choose_hello_forget_expiration, choose_hello_forget_expiration, hR])
    | unhello rand8 =>
      have hc' : clock_ok (4294967296 - NEIGHBOR_REUSE_AGE) T ops = true := hc
      exact ih (ble_lists_randomly_unhello_neighbor N s rand8)
        (ble_lists_randomly_unhello_neighbor N s' rand8)
        T hc' (unhello_expiration_ok N T s rand8 h)
        (by rw [unhello_forget_expiration, unhello_forget_expiration, hR])

/-- C20: in every state `s` reached from `ble_lists_init` by advertisements,
rank rebuilds, Hello selections and un-Hellos under a non-decreasing clock
below 2^32, at the next advertisement, at time `now`, of an address:
(1) if the recorded expiration time is after `now`, so is the oldest entry's
`last_heard_millis` plus `NEIGHBOR_REUSE_AGE`, the age `now - oldest` is below
`NEIGHBOR_REUSE_AGE`, and the same holds of every slot;
(2) if moreover the table is full and does not hold the address, the call
returns the state unchanged, and the update of the specification without the
short-circuit, which looks for the oldest entry, returns too and changes
nothing but the recorded expiration time: the table is the same;
(3) if all clock readings so far were more than `NEIGHBOR_REUSE_AGE` below
2^32, the whole sequence of calls run through the specification without the
short-circuit returns a state that agrees with `s` in everything but the
recorded expiration time. -/
theorem C20_short_circuit_drops_what_the_scan_drops
    (qsort : (Nat → Nat → Int) → List Nat → List Nat) (N L : Nat) (ops : List Op)
    (adv : Advertisement) (now : Nat) (s : State) (hN0 : 0 < N) (hN : N ≤ 255)
    (hclock : clock_ok 4294967296 0 (ops ++ [.advertise adv now]) = true)
    (hrun : run qsort N L (initial_state N L) ops = some s) :
    (s.neighbor_list_next_expiration > now →
      (s.neighbor_list.getD (oldest_slot N s.neighbor_list) default).last_heard_millis
          + NEIGHBOR_REUSE_AGE > now
      ∧ now - (s.neighbor_list.getD (oldest_slot N s.neighbor_list) default).last_heard_millis
          < NEIGHBOR_REUSE_AGE
      ∧ ∀ j, j < N →
          (s.neighbor_list.getD j default).last_heard_millis + NEIGHBOR_REUSE_AGE > now)
    ∧ (s.neighbor_list_next_expiration > now →
      (∀ i, i < N → passes s.neighbor_list adv.ble_address i) →
      ble_lists_process_advertisement N L s adv now = some s
      ∧ ∃ r, spec_update N L s adv now = some r
          ∧ r.neighbor_list = s.neighbor_list
          ∧ forget_expiration r = forget_expiration s)
    ∧ (clock_ok (4294967296 - NEIGHBOR_REUSE_AGE) 0 ops = true →
      ∃ s', spec_run qsort N L (initial_state N L) ops = some s'
        ∧ forget_expiration s' = forget_expiration s) := by
  rw [clock_ok_append, Bool.and_eq_true] at hclock
  obtain ⟨hc1, hc2⟩ := hclock
  simp only [clock_ok, Op.time, Bool.and_eq_true, decide_eq_true_eq, and_true] at hc2
  obtain ⟨hTt, _⟩ := hc2
  have hs := run_expiration_ok qsort N L 4294967296 ops (initial_state N L) s 0 hc1
    (expiration_ok_initial N L) hrun
  have hRA : NEIGHBOR_REUSE_AGE = 180000 := rfl
  have hold : s.neighbor_list_next_expiration > now →
      (s.neighbor_list.getD (oldest_slot N s.neighbor_list) default).last_heard_millis
          + NEIGHBOR_REUSE_AGE > now
      ∧ now - (s.neighbor_list.getD (oldest_slot N s.neighbor_list) default).last_heard_millis
          < NEIGHBOR_REUSE_AGE
      ∧ ∀ j, j < N →
          (s.neighbor_list.getD j default).last_heard_millis + NEIGHBOR_REUSE_AGE > now := by
    intro hgt
    obtain ⟨_, hexp⟩ := hs _ (oldest_slot_lt N s.neighbor_list hN0)
    rw [hRA] at hexp ⊢
    refine ⟨by omega, by omega, ?_⟩
    intro j hj
    have := (hs j hj).2
    rw [hRA] at this
    omega
  refine ⟨hold, ?_, ?_⟩
  · intro hgt hpass
    have hage := (hold hgt).2.1
    by_cases hf : s.updates_frozen = true
    · constructor
      · unfold ble_lists_process_advertisement
        rw [if_pos hf]
      · refine ⟨s, ?_, rfl, rfl⟩
        unfold spec_update
        rw [if_pos hf]
    · constructor
      · rw [process_advertisement_full N L s adv now hN0 hN (by simpa using hf) hpass]
        unfold list_full_case
        rw [if_pos hgt]
      · refine ⟨spec_table_full N L s adv now, ?_, ?_, ?_⟩
        · unfold spec_update
          rw [if_neg hf, probe_list_full_of_passes N _ _ hN0 hN hpass]
        · unfold spec_table_full
          rw [if_pos hage]
        · unfold spec_table_full
          rw [if_pos hage]
          rfl
  · intro hsafe
    obtain ⟨r, r', e, e', hR⟩ := spec_run_refines qsort N L hN0 hN ops (initial_state N L)
      (initial_state N L) 0 hsafe (expiration_ok_initial N L) rfl
    rw [hrun] at e
    cases e
    exact ⟨r', e', hR.symm⟩

theorem C20_short_circuit_witness :
    (refusal_state.neighbor_list_next_expiration > 5000 →
      (refusal_state.neighbor_list.getD (oldest_slot 2 refusal_state.neighbor_list)
          default).last_heard_millis + NEIGHBOR_REUSE_AGE > 5000
      ∧ 5000 - (refusal_state.neighbor_list.getD (oldest_slot 2 refusal_state.neighbor_list)
          default).last_heard_millis < NEIGHBOR_REUSE_AGE
      ∧ ∀ j, j < 2 →
          (refusal_state.neighbor_list.getD j default).last_heard_millis + NEIGHBOR_REUSE_AGE
            > 5000)
    ∧ (refusal_state.neighbor_list_next_expiration > 5000 →
      (∀ i, i < 2 → passes refusal_state.neighbor_list badge_c.ble_address i) →
      ble_lists_process_advertisement 2 4 refusal_state badge_c 5000 = some refusal_state
      ∧ ∃ r, spec_update 2 4 refusal_state badge_c 5000 = some r
          ∧ r.neighbor_list = refusal_state.neighbor_list
          ∧ forget_expiration r = forget_expiration refusal_state)
    ∧ (clock_ok (4294967296 - NEIGHBOR_REUSE_AGE) 0 refusal_calls = true →
      ∃ s', spec_run insertion_qsort 2 4 (initial_state 2 4) refusal_calls = some s'
        ∧ forget_expiration s' = forget_expiration refusal_state) :=
  C20_short_circuit_drops_what_the_scan_drops insertion_qsort 2 4 refusal_calls badge_c 5000
    refusal_state (by decide) (by decide) (by decide) (by decide)

/-- The short-circuit applies in `refusal_state` at 5000 ms, and 100 s
before the 32-bit wrap, in `near_wrap_state`, the call the short-circuit drops
is dropped by the specification without the short-circuit as well. -/
theorem short_circuit_examples :
    refusal_state.neighbor_list_next_expiration > 5000
    ∧ (∀ i, i < 2 → passes refusal_state.neighbor_list badge_c.ble_address i)
    ∧ clock_ok (4294967296 - NEIGHBOR_REUSE_AGE) 0 refusal_calls = true
    ∧ clock_ok 4294967296 0 (near_wrap_calls ++ [.advertise badge_c 4294917296]) = true
    ∧ run insertion_qsort 2 4 (initial_state 2 4) near_wrap_calls = some near_wrap_state
    ∧ near_wrap_state.neighbor_list_next_expiration = 4294947296
    ∧ ble_lists_process_advertisement 2 4 near_wrap_state badge_c 4294917296
        = some near_wrap_state
    ∧ (spec_update 2 4 near_wrap_state badge_c 4294917296).map State.neighbor_list
        = some near_wrap_state.neighbor_list := by
  refine ⟨by decide, by decide, by decide, by decide, by decide, by decide, by decide,
    by decide⟩

/-! ## The rest of `sorted_index` -/

/-- C21 (the code does not keep the property): two badges are heard, with
stored flags bytes 0x81 (slot 0) and 0x82 (slot 1); a rebuild with
`filter_flags = 0xFF` returns 2 and leaves `sorted_index = [0, 1]`; the next
rebuild, with `filter_flags = 0x01`, includes slot 0 only and returns 1, and
position 1 of `sorted_index` still holds the slot index 1 of the first
rebuild, not `NEIGHBOR_NONE`. -/
theorem C21_stale_index_after_narrower_filter :
    run insertion_qsort 2 4 (initial_state 2 4) surveyed_calls = some surveyed_state
    ∧ (surveyed_state.neighbor_list.getD 0 default).flags = 0x81
    ∧ (surveyed_state.neighbor_list.getD 1 default).flags = 0x82
    ∧ surveyed_state.sorted_index = [0, 1]
    ∧ run insertion_qsort 2 4 (initial_state 2 4) (surveyed_calls ++ [.survey 0x01])
        = some (survey_and_sort_neighbors insertion_qsort 2 surveyed_state 0x01).1
    ∧ (survey_and_sort_neighbors insertion_qsort 2 surveyed_state 0x01).2 = 1
    ∧ (survey_and_sort_neighbors insertion_qsort 2 surveyed_state 0x01).1.sorted_index = [0, 1]
    ∧ (survey_and_sort_neighbors insertion_qsort 2 surveyed_state 0x01).1.sorted_index.getD 1
        default ≠ NEIGHBOR_NONE := by
  refine ⟨by decide, by decide, by decide, by decide, by decide, by decide, by decide,
    by decide⟩

/-- A rebuild leaves every position of `sorted_index` at or beyond the count it
returns as it was before the call. -/
theorem survey_keeps_rest (qsort : (Nat → Nat → Int) → List Nat → List Nat) (N : Nat)
    (s : State) (f : Nat) (hq : QsortContract qsort) (hlen : N ≤ s.sorted_index.length)
    (hN : N ≤ 255) :
    (survey_and_sort_neighbors qsort N s f).1.sorted_index.drop
        (survey_and_sort_neighbors qsort N s f).2
      = s.sorted_index.drop (survey_and_sort_neighbors qsort N s f).2 := by
  obtain ⟨h1, h2⟩ := survey_result qsort N s f hlen hN
  rw [h1, h2]
  apply List.drop_left'
  split
  · exact (hq.perm _ _).length_eq
  · rfl

theorem step_keeps_sorted_index (qsort : (Nat → Nat → Int) → List Nat → List Nat) (N L : Nat)
    (s s' : State) (op : Op) (hop : op.is_survey = false) (h : step qsort N L s op = some s') :
    s'.sorted_index = s.sorted_index := by
  cases op with
  | advertise adv t => exact process_advertisement_sorted_index N L s s' adv t h
  | survey f => cases hop
  | choose t =>
    simp only [step, Option.some.injEq] at h
    rw [← h]
    rcases choose_hello_cases N s t 0 [] with ⟨hs, _⟩ | ⟨_, hs, _⟩
    · rw [hs]
    · rw [hs]
  | unhello rand8 =>
    simp only [step, Option.some.injEq] at h
    rw [← h]
    unfold ble_lists_randomly_unhello_neighbor
    split <;> rfl

theorem run_keeps_sorted_index (qsort : (Nat → Nat → Int) → List Nat → List Nat) (N L : Nat)
    (ops : List Op) :
    ∀ s s', (∀ op, op ∈ ops → op.is_survey = false) → run qsort N L s ops = some s' →
      s'.sorted_index = s.sorted_index := by
  induction ops with
  | nil => intro s s' _ h; cases h; rfl
  | cons op ops ih =>
    intro s s' hops h
    unfold run at h
    split at h
    · cases h
    · rename_i s1 hs1
      rw [ih s1 s' (fun o ho => hops o (List.mem_cons_of_mem _ ho)) h]
      exact step_keeps_sorted_index qsort N L s s1 op (hops op (List.mem_cons_self _ _)) hs1

/-- The first rebuild after `ble_lists_init` does leave `NEIGHBOR_NONE` at every
position at or beyond the count it returns. -/
theorem first_survey_rest_none (qsort : (Nat → Nat → Int) → List Nat → List Nat) (N L : Nat)
    (ops : List Op) (s : State) (f i : Nat) (hq : QsortContract qsort) (hN : N ≤ 255)
    (hops : ∀ op, op ∈ ops → op.is_survey = false)
    (hrun : run qsort N L (initial_state N L) ops = some s)
    (hi : (survey_and_sort_neighbors qsort N s f).2 ≤ i) (hiN : i < N) :
    (survey_and_sort_neighbors qsort N s f).1.sorted_index.getD i default = NEIGHBOR_NONE := by
  have hsi : s.sorted_index = List.replicate N NEIGHBOR_NONE :=
    run_keeps_sorted_index qsort N L ops _ s hops hrun
  have hrest := survey_keeps_rest qsort N s f hq (by rw [hsi, List.length_replicate]) hN
  have hget : ∀ (l : List Nat) (n : Nat), n ≤ i → l.getD i default = (l.drop n).getD (i - n)
      default := by
    intro l n hn
    rw [List.getD_eq_getElem?_getD, List.getD_eq_getElem?_getD, List.getElem?_drop]
    congr 2
    omega
  rw [hget _ _ hi, hrest, ← hget _ _ hi, hsi,
    List.getD_eq_getElem _ _ (by rw [List.length_replicate]; exact hiN)]
  simp

theorem first_survey_rest_none_example :
    (survey_and_sort_neighbors insertion_qsort 2 full_state 0x01).1.sorted_index.getD 1 default
      = NEIGHBOR_NONE :=
  first_survey_rest_none insertion_qsort 2 4 [.advertise badge_a 1000, .advertise badge_b 2000]
    full_state 0x01 1 insertion_qsort_contract (by decide) (by decide) (by decide) (by decide)
    (by decide)

end BleLists
